import Mathlib

/-!
# ReadoutCard: the CRU DMA channel engine

A shallow embedding of `src/Cru/CruDmaChannel.cxx` and `src/DmaChannelPdaBase.cxx`.

* C++ member functions become functions on an explicit channel state `CruDmaChannel`.
* A call either returns, throws a C++ exception (the state at the throw is kept, since the
  client may catch and go on), or has no defined behaviour (`Result`).
* Register reads are answered by a snapshot `CruBar` of the card taken for the duration of one
  driver call; register writes and commands are appended to the ghost trace `barLog`.
* `size_t` values are naturals below `2 ^ 64`, `uint32_t` values naturals below `2 ^ 32`;
  arithmetic that can wrap is reduced explicitly.
* The two sleeps (`sleep_for`) are not modelled.
-/

namespace ReadoutCard

/-! ## Machine integers -/

/-- Largest value of `size_t` (`std::numeric_limits<size_t>::max()`), 64-bit target. -/
def SIZE_MAX : Nat := 2 ^ 64 - 1

/-- Reduction of an unbounded natural to `size_t`. -/
def wrapU64 (n : Nat) : Nat := n % 2 ^ 64

/-- Reduction of an unbounded natural to `uint32_t`. -/
def wrapU32 (n : Nat) : Nat := n % 2 ^ 32

/-- Conversion of a 32-bit register value to `int32_t` (two's complement). -/
def toInt32 (n : Nat) : Int :=
  if n % 2 ^ 32 < 2 ^ 31 then ((n % 2 ^ 32 : Nat) : Int) else ((n % 2 ^ 32 : Nat) : Int) - 2 ^ 32

/-- Conversion of an integer to `uint32_t` (value modulo `2 ^ 32`). -/
def toUInt32 (z : Int) : Nat := (z % 2 ^ 32).toNat

/-! ## Data model -/

/-- Record `Superpage`: the fields the channel reads and writes. -/
structure Superpage where
  offset : Nat
  size : Nat
  received : Nat
  ready : Bool
  link : Nat
deriving DecidableEq, Repr

namespace Superpage

def getSize (s : Superpage) : Nat := s.size

def getOffset (s : Superpage) : Nat := s.offset

def setReady (s : Superpage) (b : Bool) : Superpage := { s with ready := b }

def setReceived (s : Superpage) (n : Nat) : Superpage := { s with received := n }

def setLink (s : Superpage) (linkId : Nat) : Superpage := { s with link := linkId }

end Superpage

/-- The bounded single-producer/single-consumer queue the channel is built on
(`folly::ProducerConsumerQueue<Superpage>`): `size_` slots of which one is a sentinel, so the
queue holds at most `size_ - 1` records. `records` lists the stored records, oldest first. -/
structure SuperpageQueue where
  size_ : Nat
  records : List Superpage
deriving DecidableEq, Repr

namespace SuperpageQueue

def isEmpty (q : SuperpageQueue) : Bool := q.records.isEmpty

def sizeGuess (q : SuperpageQueue) : Nat := q.records.length

def isFull (q : SuperpageQueue) : Bool := decide (q.size_ ≤ q.records.length + 1)

def frontPtr (q : SuperpageQueue) : Option Superpage := q.records.head?

/-- Method `write`: appends the record unless the queue is full; the flag tells which. -/
def write (q : SuperpageQueue) (s : Superpage) : Bool × SuperpageQueue :=
  if q.records.length + 1 < q.size_ then (true, { q with records := q.records ++ [s] })
  else (false, q)

/-- Method `popFront`: removes the oldest record. Every call site tests `isEmpty` first. -/
def popFront (q : SuperpageQueue) : SuperpageQueue := { q with records := q.records.tail }

/-- The loop `while (!q.isEmpty()) { q.popFront(); }`, run for at most `fuel` rounds. -/
def drainLoop : Nat → SuperpageQueue → SuperpageQueue
  | 0, q => q
  | fuel + 1, q => if q.isEmpty then q else drainLoop fuel q.popFront

/-- The loop `while (!q.isEmpty()) { q.popFront(); }`; one round per stored record suffices
(`drain_records`). -/
def drain (q : SuperpageQueue) : SuperpageQueue := drainLoop q.sizeGuess q

end SuperpageQueue

/-- Record `Link` of `CruDmaChannel`. -/
structure Link where
  id : Nat
  superpageCounter : Nat
  queue : SuperpageQueue
deriving DecidableEq, Repr

inductive DmaState
  | UNKNOWN
  | STOPPED
  | STARTED
deriving DecidableEq, Repr

inductive DataSource
  | Fee
  | Diu
  | Siu
  | Internal
  | Ddg
deriving DecidableEq, Repr

/-- Value written to the data source selector (`Cru::Registers::DATA_SOURCE_SELECT_*`). -/
inductive DataSourceSelect
  | INTERNAL
  | GBT
deriving DecidableEq, Repr

structure FirmwareFeatures where
  standalone : Bool
  serial : Bool
  firmwareInfo : Bool
  temperature : Bool
  dataSelection : Bool
  chipId : Bool
deriving DecidableEq, Repr

/-- Commands and register writes the channel issues to BAR0 and BAR2, in program order. -/
inductive BarOp
  | setDebugModeEnabled (enabled : Bool)
  | setDataSource (selection : DataSourceSelect)
  | disableDataTaking
  | enableDataTaking
  | resetDataGeneratorCounter
  | resetCard
  | resetInternalCounters
  | startDmaEngine
  | stopDmaEngine
  | pushSuperpageDescriptor (linkId pages busAddress : Nat)
  | dataGeneratorInjectError
deriving DecidableEq, Repr

/-- What the card answers to register reads during one driver call. -/
structure CruBar where
  getSuperpageCount : Nat → Nat
  getSuperpageSize : Nat → Nat
  getSuperpageFifoEmptyCounter : Nat → Nat
  getDebugModeEnabled : Bool
  getEndpointNumber : Int
  readRegister : Nat → Nat

/-- The registered DMA buffer as the channel sees it (`getBufferProvider()`). -/
structure DmaBufferProvider where
  getSize : Nat
  getBusOffsetAddress : Nat → Nat

/-- Exceptions thrown by the channel, one constructor per `BOOST_THROW_EXCEPTION` site. -/
inductive Exception
  | superpageSizeZero
  | superpageSizeNotMultiple
  | superpageOutOfRange
  | superpageOffsetNotAligned
  | transferQueueFull
  | linkQueueFull
  | getReadyQueueEmpty
  | popReadyQueueEmpty
  | linkQueueEmpty
  | firmwareReportedMoreSuperpages
  | resetUnknownState
  | resetNotStopped
  | resetNotInternal
deriving DecidableEq, Repr

/-- Members of `CruDmaChannel` (and of its base `DmaChannelPdaBase`), with the ghost trace
`barLog` of the BAR commands issued so far. `mLinkQueuesTotalAvailable` is kept as an unbounded
integer: under the aggregate invariant it lies between `0` and
`mLinkQueueCapacity * mLinks.size()`. -/
structure CruDmaChannel where
  mDmaState : DmaState
  mDataSource : DataSource
  mDmaPageSize : Nat
  mFeatures : FirmwareFeatures
  mLinkQueueCapacity : Nat
  mReadyQueueCapacity : Nat
  mLinks : List Link
  mReadyQueue : SuperpageQueue
  mLinkQueuesTotalAvailable : Int
  mFirstSPPushed : Bool
  mDebugRegisterReset : Bool
  mEmptySPFifoCounters : List (Nat × Nat)
  barLog : List BarOp
deriving DecidableEq, Repr

/-- Outcome of a member function call. -/
inductive Result (α : Type)
  | ok (value : α) (channel : CruDmaChannel)
  | thrown (e : Exception) (channel : CruDmaChannel)
  | undefined
deriving Repr

namespace Result

/-- The channel state a call leaves behind, whether it returned or threw. -/
def channel? {α : Type} : Result α → Option CruDmaChannel
  | ok _ c => some c
  | thrown _ c => some c
  | undefined => none

end Result

/-! ## DmaChannelPdaBase -/

/-- Modelled from the spec: `Utilities::isMultiple` (Utilities/Util.h is not among the
sources); "size not a multiple of 32 KiB" is the test `a % b == 0`. -/
def isMultiple (a b : Nat) : Bool := a % b == 0

/-- The checks of `DmaChannelPdaBase::checkSuperpage`, in source order; `none` when the
superpage passes. The sum `getOffset() + getSize()` is a `size_t` sum. -/
def checkSuperpage (buffer : DmaBufferProvider) (superpage : Superpage) : Option Exception :=
  if superpage.getSize = 0 then some Exception.superpageSizeZero
  else if !isMultiple superpage.getSize (32 * 1024) then some Exception.superpageSizeNotMultiple
  else if wrapU64 (superpage.getOffset + superpage.getSize) > buffer.getSize then
    some Exception.superpageOutOfRange
  else if superpage.getOffset % 4 ≠ 0 then some Exception.superpageOffsetNotAligned
  else none

/-! ## CruDmaChannel -/

def issue (c : CruDmaChannel) (ops : List BarOp) : CruDmaChannel :=
  { c with barLog := c.barLog ++ ops }

def enableDebugMode (bar : CruBar) (c : CruDmaChannel) : CruDmaChannel :=
  if !bar.getDebugModeEnabled then
    { issue c [BarOp.setDebugModeEnabled true] with mDebugRegisterReset := true }
  else c

def resetCru (c : CruDmaChannel) : CruDmaChannel :=
  issue c [BarOp.resetDataGeneratorCounter, BarOp.resetCard, BarOp.resetInternalCounters]

def setBufferReady (c : CruDmaChannel) : CruDmaChannel := issue c [BarOp.startDmaEngine]

def setBufferNonReady (c : CruDmaChannel) : CruDmaChannel := issue c [BarOp.stopDmaEngine]

/-- The loop body of "Initialize link queues" in `deviceStartDma`. -/
def initLink (link : Link) : Link :=
  { link with queue := link.queue.drain, superpageCounter := 0 }

def deviceStartDma (bar : CruBar) (c : CruDmaChannel) : CruDmaChannel :=
  let dataSourceSelection :=
    if c.mDataSource = DataSource.Internal then DataSourceSelect.INTERNAL
    else DataSourceSelect.GBT
  let c1 := if c.mDataSource = DataSource.Internal then enableDebugMode bar c else c
  let c2 := if c1.mFeatures.dataSelection then issue c1 [BarOp.setDataSource dataSourceSelection]
    else c1
  let c3 := if dataSourceSelection = DataSourceSelect.GBT then issue c2 [BarOp.disableDataTaking]
    else c2
  let c4 := resetCru c3
  let c5 := { c4 with
    mLinks := c4.mLinks.map initLink
    mReadyQueue := c4.mReadyQueue.drain
    mLinkQueuesTotalAvailable := ((c4.mLinkQueueCapacity * c4.mLinks.length : Nat) : Int) }
  let c6 := setBufferReady c5
  if dataSourceSelection = DataSourceSelect.GBT then issue c6 [BarOp.enableDataTaking] else c6

/-- The scan of `getNextLinkIndex` from index `i` on, with the running minimum. -/
def getNextLinkIndexLoop : List Link → Nat → Nat → Nat → Nat
  | [], _, smallestQueueIndex, _ => smallestQueueIndex
  | link :: rest, i, smallestQueueIndex, smallestQueueSize =>
    if link.queue.sizeGuess < smallestQueueSize then
      getNextLinkIndexLoop rest (i + 1) i link.queue.sizeGuess
    else getNextLinkIndexLoop rest (i + 1) smallestQueueIndex smallestQueueSize

/-- Function `getNextLinkIndex`. `linkIndexMax` is `std::numeric_limits<LinkIndex>::max()`;
the declaration of `LinkIndex` (CruDmaChannel.h) is not among the sources. -/
def getNextLinkIndex (linkIndexMax : Nat) (links : List Link) : Nat :=
  getNextLinkIndexLoop links 0 linkIndexMax SIZE_MAX

/-- Function `pushSuperpageToLink`: the new link and the new aggregate counter. -/
def pushSuperpageToLink (link : Link) (totalAvailable : Int) (superpage : Superpage) :
    Link × Int :=
  ({ link with queue := (link.queue.write superpage).2 }, totalAvailable - 1)

def pushSuperpage (linkIndexMax : Nat) (buffer : DmaBufferProvider) (c : CruDmaChannel)
    (superpage : Superpage) : Result Bool :=
  if c.mDmaState ≠ DmaState.STARTED then Result.ok false c
  else match checkSuperpage buffer superpage with
    | some e => Result.thrown e c
    | none =>
      if c.mLinkQueuesTotalAvailable = 0 then Result.thrown Exception.transferQueueFull c
      else match c.mLinks.get? (getNextLinkIndex linkIndexMax c.mLinks) with
        | none => Result.undefined
        | some link =>
          if link.queue.sizeGuess ≥ c.mLinkQueueCapacity then
            Result.thrown Exception.linkQueueFull c
          else
            let pushed := pushSuperpageToLink link c.mLinkQueuesTotalAvailable superpage
            if c.mDmaPageSize = 0 then Result.undefined
            else
              let dmaPages := superpage.getSize / c.mDmaPageSize
              let busAddress := buffer.getBusOffsetAddress superpage.getOffset
              Result.ok true
                { c with
                  mLinks := c.mLinks.set (getNextLinkIndex linkIndexMax c.mLinks) pushed.1
                  mLinkQueuesTotalAvailable := pushed.2
                  barLog := c.barLog ++ [BarOp.pushSuperpageDescriptor link.id dmaPages busAddress]
                  mFirstSPPushed := true }

def getSuperpage (c : CruDmaChannel) : Result Superpage :=
  match c.mReadyQueue.frontPtr with
  | none => Result.thrown Exception.getReadyQueueEmpty c
  | some superpage => Result.ok superpage c

def popSuperpage (c : CruDmaChannel) : Result Superpage :=
  match c.mReadyQueue.frontPtr with
  | none => Result.thrown Exception.popReadyQueueEmpty c
  | some superpage => Result.ok superpage { c with mReadyQueue := c.mReadyQueue.popFront }

/-- The state `transferSuperpageFromLinkToReady` works on: the link passed by reference,
`mReadyQueue` and `mLinkQueuesTotalAvailable`. -/
structure Transfer where
  link : Link
  readyQueue : SuperpageQueue
  totalAvailable : Int
deriving DecidableEq, Repr

/-- The record `transferSuperpageFromLinkToReady` writes to the ready queue for the head
`front` of the queue of link `linkId`. -/
def markSuperpage (bar : CruBar) (linkId : Nat) (reclaim : Bool) (front : Superpage) :
    Superpage :=
  let marked :=
    if !reclaim then
      let superpageSize := wrapU32 (bar.getSuperpageSize linkId)
      if superpageSize = 0 then (front.setReady true).setReceived (front.setReady true).getSize
      else (front.setReady true).setReceived superpageSize
    else (front.setReady false).setReceived 0
  marked.setLink linkId

/-- Function `transferSuperpageFromLinkToReady`; `none` is the throw on an empty link queue
(nothing has been changed at that point). The result of `mReadyQueue->write` is not looked
at. -/
def transferSuperpageFromLinkToReady (bar : CruBar) (t : Transfer) (reclaim : Bool) :
    Option Transfer :=
  match t.link.queue.frontPtr with
  | none => none
  | some front =>
    some
      { link :=
          { t.link with
            queue := t.link.queue.popFront
            superpageCounter := wrapU32 (t.link.superpageCounter + 1) }
        readyQueue := (t.readyQueue.write (markSuperpage bar t.link.id reclaim front)).2
        totalAvailable := t.totalAvailable + 1 }

/-- The value `amountAvailable` of `fillSuperpages` for one link: the `int32_t` reading of the
card's count minus the `uint32_t` counter, as a `uint32_t`. -/
def amountAvailable (bar : CruBar) (link : Link) : Nat :=
  toUInt32 (toInt32 (bar.getSuperpageCount link.id) - ((wrapU32 link.superpageCounter : Nat) : Int))

/-- The loop `while (amountAvailable) { ... amountAvailable--; }` of `fillSuperpages`. The
exception, if any, comes with the state at the throw. -/
def harvestLoop (bar : CruBar) (readyQueueCapacity : Nat) :
    Nat → Transfer → Transfer × Option Exception
  | 0, t => (t, none)
  | amount + 1, t =>
    if t.readyQueue.sizeGuess ≥ readyQueueCapacity then (t, none)
    else match transferSuperpageFromLinkToReady bar t false with
      | none => (t, some Exception.linkQueueEmpty)
      | some t1 => harvestLoop bar readyQueueCapacity amount t1

/-- The loop over `mLinks` of `fillSuperpages`, from the links still to visit: the links as
they are left, the ready queue, the aggregate counter, and the exception if one was thrown. -/
def fillLinks (bar : CruBar) (readyQueueCapacity : Nat) :
    List Link → SuperpageQueue → Int → List Link × SuperpageQueue × Int × Option Exception
  | [], ready, total => ([], ready, total, none)
  | link :: rest, ready, total =>
    if amountAvailable bar link > link.queue.sizeGuess then
      (link :: rest, ready, total, some Exception.firmwareReportedMoreSuperpages)
    else
      match harvestLoop bar readyQueueCapacity (amountAvailable bar link)
          { link := link, readyQueue := ready, totalAvailable := total } with
      | (t, some e) => (t.link :: rest, t.readyQueue, t.totalAvailable, some e)
      | (t, none) =>
        match fillLinks bar readyQueueCapacity rest t.readyQueue t.totalAvailable with
        | (links, ready1, total1, e) => (t.link :: links, ready1, total1, e)

def fillSuperpages (bar : CruBar) (c : CruDmaChannel) : Result Unit :=
  match fillLinks bar c.mReadyQueueCapacity c.mLinks c.mReadyQueue c.mLinkQueuesTotalAvailable with
  | (links, ready, total, none) =>
    Result.ok () { c with mLinks := links, mReadyQueue := ready, mLinkQueuesTotalAvailable := total }
  | (links, ready, total, some e) =>
    Result.thrown e
      { c with mLinks := links, mReadyQueue := ready, mLinkQueuesTotalAvailable := total }

/-- The loop `while (!link.queue->isEmpty()) { transferSuperpageFromLinkToReady(link, true); }`
of `reclaimSuperpages`, run for at most `fuel` rounds. -/
def reclaimLoop (bar : CruBar) : Nat → Transfer → Transfer × Option Exception
  | 0, t => (t, none)
  | fuel + 1, t =>
    if t.link.queue.isEmpty then (t, none)
    else match transferSuperpageFromLinkToReady bar t true with
      | none => (t, some Exception.linkQueueEmpty)
      | some t1 => reclaimLoop bar fuel t1

/-- The loop over `mLinks` of `reclaimSuperpages`; every round of the inner loop removes one
record, so one round per stored record suffices (`reclaimLoop_queue`). -/
def reclaimLinks (bar : CruBar) :
    List Link → SuperpageQueue → Int → List Link × SuperpageQueue × Int × Option Exception
  | [], ready, total => ([], ready, total, none)
  | link :: rest, ready, total =>
    match reclaimLoop bar link.queue.sizeGuess
        { link := link, readyQueue := ready, totalAvailable := total } with
    | (t, some e) => (t.link :: rest, t.readyQueue, t.totalAvailable, some e)
    | (t, none) =>
      match reclaimLinks bar rest t.readyQueue t.totalAvailable with
      | (links, ready1, total1, e) => (t.link :: links, ready1, total1, e)

def reclaimSuperpages (bar : CruBar) (c : CruDmaChannel) : Result Unit :=
  match reclaimLinks bar c.mLinks c.mReadyQueue c.mLinkQueuesTotalAvailable with
  | (links, ready, total, none) =>
    Result.ok () { c with mLinks := links, mReadyQueue := ready, mLinkQueuesTotalAvailable := total }
  | (links, ready, total, some e) =>
    Result.thrown e
      { c with mLinks := links, mReadyQueue := ready, mLinkQueuesTotalAvailable := total }

def deviceStopDma (bar : CruBar) (c : CruDmaChannel) : Result Unit :=
  match fillSuperpages bar (issue (setBufferNonReady c) [BarOp.disableDataTaking]) with
  | Result.ok _ c1 => reclaimSuperpages bar c1
  | Result.thrown e c1 => Result.thrown e c1
  | Result.undefined => Result.undefined

/-- Function `DmaChannelPdaBase::startDma`. -/
def startDma (bar : CruBar) (c : CruDmaChannel) : Result Unit :=
  match c.mDmaState with
  | DmaState.UNKNOWN => Result.ok () { c with mDmaState := DmaState.STARTED }
  | DmaState.STARTED => Result.ok () { c with mDmaState := DmaState.STARTED }
  | DmaState.STOPPED => Result.ok () { deviceStartDma bar c with mDmaState := DmaState.STARTED }

/-- Function `DmaChannelPdaBase::stopDma`. -/
def stopDma (bar : CruBar) (c : CruDmaChannel) : Result Unit :=
  match c.mDmaState with
  | DmaState.UNKNOWN => Result.ok () { c with mDmaState := DmaState.STOPPED }
  | DmaState.STOPPED => Result.ok () { c with mDmaState := DmaState.STOPPED }
  | DmaState.STARTED =>
    match deviceStopDma bar c with
    | Result.ok _ c1 => Result.ok () { c1 with mDmaState := DmaState.STOPPED }
    | Result.thrown e c1 => Result.thrown e c1
    | Result.undefined => Result.undefined

def getTransferQueueAvailable (c : CruDmaChannel) : Int := c.mLinkQueuesTotalAvailable

def isTransferQueueEmpty (c : CruDmaChannel) : Bool :=
  decide (c.mLinkQueuesTotalAvailable = ((c.mLinkQueueCapacity * c.mLinks.length : Nat) : Int))

def getReadyQueueSize (c : CruDmaChannel) : Nat := c.mReadyQueue.sizeGuess

def isReadyQueueFull (c : CruDmaChannel) : Bool := c.mReadyQueue.isFull

/-- Type `ResetLevel::type`: the two levels the CRU channel tells apart, and any other level
(the enumeration is declared in a header that is not among the sources). -/
inductive ResetLevel
  | Nothing
  | Internal
  | other (code : Nat)
deriving DecidableEq, Repr

def deviceResetChannel (c : CruDmaChannel) (resetLevel : ResetLevel) : Result Unit :=
  if resetLevel = ResetLevel.Nothing then Result.ok () c
  else if resetLevel ≠ ResetLevel.Internal then Result.thrown Exception.resetNotInternal c
  else Result.ok () (resetCru c)

/-- Function `DmaChannelPdaBase::resetChannel`. -/
def resetChannel (c : CruDmaChannel) (resetLevel : ResetLevel) : Result Unit :=
  if c.mDmaState = DmaState.UNKNOWN then Result.thrown Exception.resetUnknownState c
  else if c.mDmaState ≠ DmaState.STOPPED then Result.thrown Exception.resetNotStopped c
  else deviceResetChannel c resetLevel

/-! ## Construction -/

/-- Modelled from the spec: `Cru::DMA_PAGE_SIZE` (Cru/Constants.h is not among the sources);
"`dmaPageSize` in bytes; default 8192". -/
def DMA_PAGE_SIZE : Nat := 8192

/-- Values of declarations in headers that are not among the sources: two constants of
`Cru::` and the initial values of the members the constructor does not assign. -/
structure HeaderValues where
  MAX_SUPERPAGE_DESCRIPTORS_DEFAULT : Nat
  MAX_LINKS : Nat
  linkQueuesTotalAvailable : Int
  firstSPPushed : Bool
  debugRegisterReset : Bool

/-- The parameters the constructor of `CruDmaChannel` reads. -/
structure Parameters where
  dataSource : Option DataSource
  dmaPageSize : Option Nat

/-- What the constructor of `DmaChannelPdaBase` finds: whether buffer parameters were given,
the registered buffer, the memory maps of the process as (start address, page size in KiB),
and the state of the IOMMU. -/
structure BufferSetup where
  hasBufferParameters : Bool
  scatterGatherListSize : Nat
  bufferSize : Nat
  bufferAddress : Nat
  memoryMaps : List (Nat × Nat)
  iommuEnabled : Bool

/-- What the card answers to the constructor of `CruDmaChannel`. -/
structure CardAnswers where
  firmwareFeatures : FirmwareFeatures
  maxSuperpageDescriptors : Nat
  dataTakingLinks : List Nat

/-- Exceptions thrown during construction, one constructor per `BOOST_THROW_EXCEPTION` site. -/
inductive ConstructionError
  | requiresBufferParameters
  | scatterGatherListTooLong
  | notHugepageBacked
  | unsupportedDataSource
  | noLinksEnabled
deriving DecidableEq, Repr

/-- The checks of the constructor of `DmaChannelPdaBase`, in source order; `none` when it
completes (leaving `mDmaState` at `STOPPED`). -/
def DmaChannelPdaBase.construct (setup : BufferSetup) : Option ConstructionError :=
  if !setup.hasBufferParameters then some ConstructionError.requiresBufferParameters
  else if setup.scatterGatherListSize > setup.bufferSize / (1024 * 1024 * 2) then
    some ConstructionError.scatterGatherListTooLong
  else if setup.bufferSize > 0 then
    match setup.memoryMaps.find? (fun map => map.1 == setup.bufferAddress) with
    | some map =>
      if map.2 > 4 then none
      else if setup.iommuEnabled then none
      else some ConstructionError.notHugepageBacked
    | none => none
  else none

/-- The link the constructor inserts for an enabled link of the card. -/
def newLink (linkQueueCapacity : Nat) (link : Nat) : Link :=
  { id := link, superpageCounter := 0, queue := { size_ := linkQueueCapacity + 1, records := [] } }

/-- The constructor of `CruDmaChannel`: the base class first, then the member initialisers
(any DMA page size is taken; a value other than `DMA_PAGE_SIZE` only logs a warning), the
test of the data source, the queue capacities and the links. -/
def CruDmaChannel.construct (header : HeaderValues) (setup : BufferSetup)
    (parameters : Parameters) (card : CardAnswers) : Except ConstructionError CruDmaChannel :=
  match DmaChannelPdaBase.construct setup with
  | some e => Except.error e
  | none =>
    let mDataSource := parameters.dataSource.getD DataSource.Internal
    let mDmaPageSize := parameters.dmaPageSize.getD DMA_PAGE_SIZE
    if mDataSource = DataSource.Diu ∨ mDataSource = DataSource.Siu then
      Except.error ConstructionError.unsupportedDataSource
    else
      let maxSuperpageDescriptors :=
        if wrapU32 card.maxSuperpageDescriptors = 0 then header.MAX_SUPERPAGE_DESCRIPTORS_DEFAULT
        else wrapU32 card.maxSuperpageDescriptors
      let mLinks := card.dataTakingLinks.map (newLink maxSuperpageDescriptors)
      if mLinks.isEmpty then Except.error ConstructionError.noLinksEnabled
      else
        Except.ok
          { mDmaState := DmaState.STOPPED
            mDataSource := mDataSource
            mDmaPageSize := mDmaPageSize
            mFeatures := card.firmwareFeatures
            mLinkQueueCapacity := maxSuperpageDescriptors
            mReadyQueueCapacity := maxSuperpageDescriptors * header.MAX_LINKS
            mLinks := mLinks
            mReadyQueue :=
              { size_ := maxSuperpageDescriptors * header.MAX_LINKS + 1, records := [] }
            mLinkQueuesTotalAvailable := header.linkQueuesTotalAvailable
            mFirstSPPushed := header.firstSPPushed
            mDebugRegisterReset := header.debugRegisterReset
            mEmptySPFifoCounters := []
            barLog := [] }

/-! ## Health and telemetry -/

/-- Lookup in `mEmptySPFifoCounters` (a `std::map<LinkId, uint32_t>`, kept as a list of
pairs with distinct keys). -/
def mapFind : List (Nat × Nat) → Nat → Option Nat
  | [], _ => none
  | (key, value) :: rest, k => if key = k then some value else mapFind rest k

/-- Assignment `map[k] = v`. -/
def mapSet : List (Nat × Nat) → Nat → Nat → List (Nat × Nat)
  | [], k, v => [(k, v)]
  | (key, value) :: rest, k, v =>
    if key = k then (key, v) :: rest else (key, value) :: mapSet rest k v

/-- The loop over `mLinks` of `areSuperpageFifosHealthy`: the map and the flag `ok`. -/
def healthLoop (bar : CruBar) : List Link → List (Nat × Nat) → Bool → List (Nat × Nat) × Bool
  | [], counters, ok => (counters, ok)
  | link :: rest, counters, ok =>
    let emptyCounter := wrapU32 (bar.getSuperpageFifoEmptyCounter link.id)
    let flagged :=
      match mapFind counters link.id with
      | some stored => decide (stored ≠ emptyCounter)
      | none => false
    healthLoop bar rest (mapSet counters link.id emptyCounter) (if flagged then false else ok)

def areSuperpageFifosHealthy (bar : CruBar) (c : CruDmaChannel) : Bool × CruDmaChannel :=
  if c.mDmaState ≠ DmaState.STARTED ∨ c.mFirstSPPushed = false then (true, c)
  else
    ((healthLoop bar c.mLinks c.mEmptySPFifoCounters true).2,
      { c with mEmptySPFifoCounters := (healthLoop bar c.mLinks c.mEmptySPFifoCounters true).1 })

/-- Function `injectError`. The condition is `!mDataSource == DataSource::Fee`: `!mDataSource`
is `true` (1) exactly when the enumerator has the value 0, and the result is compared with
the value of `Fee`. `code` gives the values of the enumerators of `DataSource::type`, which
is declared in a header that is not among the sources. -/
def injectError (code : DataSource → Nat) (c : CruDmaChannel) : Bool × CruDmaChannel :=
  if (if code c.mDataSource = 0 then 1 else 0) = code DataSource.Fee then
    (true, issue c [BarOp.dataGeneratorInjectError])
  else (false, c)

/-- Function `getCounterFirstOrbit`: the `int32_t` returned, and the word indices of the
registers read on BAR2. -/
def getCounterFirstOrbit (bar : CruBar) : Int × List Nat :=
  if bar.getEndpointNumber = 0 then
    (toInt32 (bar.readRegister (0x64002C / 4)), [0x64002C / 4])
  else if bar.getEndpointNumber = 1 then
    (toInt32 (bar.readRegister (0x74002C / 4)), [0x74002C / 4])
  else (-1, [])

/-! ## Properties of channel states -/

/-- Number of superpages held in the link queues. -/
def inFlight (links : List Link) : Nat := (links.map (fun link => link.queue.sizeGuess)).sum

/-- Free slots over all link queues: the sum of `C_link - |link.queue|`. -/
def freeSlots (capacity : Nat) (links : List Link) : Int :=
  (links.map (fun link => (capacity : Int) - (link.queue.sizeGuess : Int))).sum

/-- The aggregate-counter invariant. -/
def counterInvariant (c : CruDmaChannel) : Prop :=
  c.mLinkQueuesTotalAvailable = freeSlots c.mLinkQueueCapacity c.mLinks

instance (c : CruDmaChannel) : Decidable (counterInvariant c) := by
  unfold counterInvariant; infer_instance

/-- A queue as the constructor allocates it for `capacity` records (`capacity + 1` slots),
holding no more than that. -/
def SuperpageQueue.sized (q : SuperpageQueue) (capacity : Nat) : Prop :=
  q.size_ = capacity + 1 ∧ q.records.length ≤ capacity

instance (q : SuperpageQueue) (capacity : Nat) : Decidable (q.sized capacity) := by
  unfold SuperpageQueue.sized; infer_instance

/-- The queues are the ones the constructor allocates: every link queue has
`mLinkQueueCapacity + 1` slots and the ready queue `mReadyQueueCapacity + 1`. -/
def queuesSized (c : CruDmaChannel) : Prop :=
  (∀ link ∈ c.mLinks, link.queue.sized c.mLinkQueueCapacity) ∧
    c.mReadyQueue.sized c.mReadyQueueCapacity

instance (c : CruDmaChannel) : Decidable (queuesSized c) := by
  unfold queuesSized; infer_instance

/-- Public operations of the channel that touch the queues, with their arguments. -/
inductive Call
  | startDma (bar : CruBar)
  | pushSuperpage (linkIndexMax : Nat) (buffer : DmaBufferProvider) (superpage : Superpage)
  | fillSuperpages (bar : CruBar)
  | getSuperpage
  | popSuperpage
  | stopDma (bar : CruBar)

/-- The channel state a call leaves behind (also when it throws); `none` when the call has no
defined behaviour. -/
def Call.after (call : Call) (c : CruDmaChannel) : Option CruDmaChannel :=
  match call with
  | Call.startDma bar => (ReadoutCard.startDma bar c).channel?
  | Call.pushSuperpage linkIndexMax buffer superpage =>
    (ReadoutCard.pushSuperpage linkIndexMax buffer c superpage).channel?
  | Call.fillSuperpages bar => (ReadoutCard.fillSuperpages bar c).channel?
  | Call.getSuperpage => (ReadoutCard.getSuperpage c).channel?
  | Call.popSuperpage => (ReadoutCard.popSuperpage c).channel?
  | Call.stopDma bar => (ReadoutCard.stopDma bar c).channel?

/-- What any run of transfers out of one link keeps: the identity and the slots of the queues,
the sum of aggregate counter and link queue length, and the bound of the ready queue. -/
def Transfer.Steps (t t' : Transfer) : Prop :=
  t'.link.id = t.link.id ∧ t'.link.queue.size_ = t.link.queue.size_ ∧
    t'.readyQueue.size_ = t.readyQueue.size_ ∧
    t'.totalAvailable + (t'.link.queue.records.length : Int) =
      t.totalAvailable + (t.link.queue.records.length : Int) ∧
    t'.link.queue.records.length ≤ t.link.queue.records.length ∧
    (∀ capacity, t.readyQueue.sized capacity → t'.readyQueue.sized capacity)

/-- Link by link: same id, same slots, and a queue that has not grown. -/
def LinksMoved (links links' : List Link) : Prop :=
  List.Forall₂
    (fun l l' => l'.id = l.id ∧ l'.queue.size_ = l.queue.size_ ∧
      l'.queue.records.length ≤ l.queue.records.length)
    links links'

/-- The completion records one call of `fillSuperpages` takes out of a link: the marked copies
of the records that left the queue, oldest first (`l` before the call, `l'` after). -/
def harvestedOf (bar : CruBar) (l l' : Link) : List Superpage :=
  (l.queue.records.take (l.queue.records.length - l'.queue.records.length)).map
    (markSuperpage bar l.id false)

/-- The completion records of all links, in link enumeration order. -/
def harvestedAll (bar : CruBar) : List Link → List Link → List Superpage
  | l :: ls, l' :: ls' => harvestedOf bar l l' ++ harvestedAll bar ls ls'
  | _, _ => []

/-- One link before (`l`) and after (`l'`) a call of `fillSuperpages` that leaves
`readyLength` records in a ready queue for `capacity`: `k` records were taken from the head,
no more than reported complete, the counter advanced by `k`, and fewer than reported only
with the ready queue full. -/
def HarvestedLink (bar : CruBar) (capacity readyLength : Nat) (l l' : Link) : Prop :=
  l'.id = l.id ∧ l'.queue.size_ = l.queue.size_ ∧
    ∃ k, k ≤ amountAvailable bar l ∧ l'.queue.records = l.queue.records.drop k ∧
      wrapU32 l'.superpageCounter = wrapU32 (l.superpageCounter + k) ∧
      (k < amountAvailable bar l → capacity ≤ readyLength)

/-- Outside the state `STARTED` no superpage is in flight: the link queues are empty. The
constructor leaves the channel `STOPPED` with empty link queues, and every call keeps the
property (`idleEmpty_after`). -/
def idleEmpty (c : CruDmaChannel) : Prop :=
  c.mDmaState ≠ DmaState.STARTED → ∀ l ∈ c.mLinks, l.queue.records = []

instance (c : CruDmaChannel) : Decidable (idleEmpty c) := by
  unfold idleEmpty; infer_instance

/-- The state after an accepted push, given the link `getNextLinkIndex` selects. -/
def pushedChannel (linkIndexMax : Nat) (buffer : DmaBufferProvider) (c : CruDmaChannel)
    (superpage : Superpage) (link : Link) : CruDmaChannel :=
  { c with
    mLinks := c.mLinks.set (getNextLinkIndex linkIndexMax c.mLinks)
      (pushSuperpageToLink link c.mLinkQueuesTotalAvailable superpage).1
    mLinkQueuesTotalAvailable := (pushSuperpageToLink link c.mLinkQueuesTotalAvailable superpage).2
    barLog := c.barLog ++ [BarOp.pushSuperpageDescriptor link.id
      (superpage.getSize / c.mDmaPageSize) (buffer.getBusOffsetAddress superpage.getOffset)]
    mFirstSPPushed := true }

/-- The difference between the aggregate counter and the free slots of the link queues. -/
def counterDrift (c : CruDmaChannel) : Int :=
  c.mLinkQueuesTotalAvailable - freeSlots c.mLinkQueueCapacity c.mLinks

/-- The part of the state the aggregate invariant and the queue bounds speak about moved from
`c` to `c'` in a way that keeps both. -/
def Kept (c c' : CruDmaChannel) : Prop :=
  c'.mLinkQueueCapacity = c.mLinkQueueCapacity ∧
    c'.mReadyQueueCapacity = c.mReadyQueueCapacity ∧
    c'.mLinks.length = c.mLinks.length ∧
    (queuesSized c → queuesSized c') ∧
    (queuesSized c →
      c'.mLinkQueuesTotalAvailable + (inFlight c'.mLinks : Int) =
        c.mLinkQueuesTotalAvailable + (inFlight c.mLinks : Int))

/-- A run of pushes, each of which has to return `true`. -/
def pushAll (linkIndexMax : Nat) (buffer : DmaBufferProvider) :
    List Superpage → CruDmaChannel → Option CruDmaChannel
  | [], c => some c
  | superpage :: rest, c =>
    match pushSuperpage linkIndexMax buffer c superpage with
    | Result.ok true c1 => pushAll linkIndexMax buffer rest c1
    | _ => none

/-- A run of calls of `fillSuperpages`, one per snapshot of the card, each of which has to
return. -/
def fillAll : List CruBar → CruDmaChannel → Option CruDmaChannel
  | [], c => some c
  | bar :: rest, c =>
    match fillSuperpages bar c with
    | Result.ok _ c1 => fillAll rest c1
    | _ => none

/-- A run of `n` calls of `popSuperpage`, each of which has to return: the superpages handed
out, in order, and the final state. -/
def popAll : Nat → CruDmaChannel → Option (List Superpage × CruDmaChannel)
  | 0, c => some ([], c)
  | n + 1, c =>
    match popSuperpage c with
    | Result.ok superpage c1 =>
      match popAll n c1 with
      | some (superpages, c2) => some (superpage :: superpages, c2)
      | none => none
    | _ => none

/-- The card completes the superpages of link `id` in order: the counts the snapshots show
start at or above `n`, never decrease, and end at `k`; every snapshot reports `size` bytes. -/
def completesInOrder (id k size : Nat) : Nat → List CruBar → Prop
  | n, [] => n = k
  | n, bar :: rest =>
    n ≤ bar.getSuperpageCount id ∧ bar.getSuperpageCount id ≤ k ∧
      bar.getSuperpageSize id = size ∧ completesInOrder id k size (bar.getSuperpageCount id) rest

/-- The completion record of `superpage` from link `id` with `size` bytes received. -/
def completion (id size : Nat) (superpage : Superpage) : Superpage :=
  { superpage with ready := true, received := size, link := id }

/-- The queue lengths after `k` pushes dealt out in turn to `n` empty link queues: `k / n` in
each, and one more in the first `k % n`. -/
def Balanced (n k : Nat) (links : List Link) : Prop :=
  links.length = n ∧
    ∀ i l, links.get? i = some l →
      l.queue.sizeGuess = k / n + (if i < k % n then 1 else 0)

/-- A run of pushes, each of which has to return `true`, with the index of the link each was
written to (the one `getNextLinkIndex` selects in the state before the push). -/
def pushTrace (linkIndexMax : Nat) (buffer : DmaBufferProvider) :
    List Superpage → CruDmaChannel → Option (List Nat × CruDmaChannel)
  | [], c => some ([], c)
  | superpage :: rest, c =>
    match pushSuperpage linkIndexMax buffer c superpage with
    | Result.ok true c1 =>
      match pushTrace linkIndexMax buffer rest c1 with
      | some (indices, c2) => some (getNextLinkIndex linkIndexMax c.mLinks :: indices, c2)
      | none => none
    | _ => none

/-- The channel states a client can bring about: the state the constructor leaves, and the
state after any call of the public interface on such a state (with the state at the throw,
if the call throws). -/
inductive Reachable (header : HeaderValues) (setup : BufferSetup) (parameters : Parameters)
    (card : CardAnswers) : CruDmaChannel → Prop
  | construct (c : CruDmaChannel) :
    CruDmaChannel.construct header setup parameters card = Except.ok c →
    Reachable header setup parameters card c
  | step (call : Call) (c c' : CruDmaChannel) :
    Reachable header setup parameters card c → call.after c = some c' →
    Reachable header setup parameters card c'
  | reset (level : ResetLevel) (c c' : CruDmaChannel) :
    Reachable header setup parameters card c →
    (ReadoutCard.resetChannel c level).channel? = some c' →
    Reachable header setup parameters card c'
  | health (bar : CruBar) (c : CruDmaChannel) :
    Reachable header setup parameters card c →
    Reachable header setup parameters card (ReadoutCard.areSuperpageFifosHealthy bar c).2
  | inject (code : DataSource → Nat) (c : CruDmaChannel) :
    Reachable header setup parameters card c →
    Reachable header setup parameters card (ReadoutCard.injectError code c).2

/-! ## Sample states -/

/-- A card whose links have completed `count` superpages each and report `size` bytes. -/
def sampleBar (count size : Nat) : CruBar :=
  { getSuperpageCount := fun _ => count
    getSuperpageSize := fun _ => size
    getSuperpageFifoEmptyCounter := fun _ => 0
    getDebugModeEnabled := false
    getEndpointNumber := 0
    readRegister := fun _ => 0 }

/-- A buffer of 1 MiB. -/
def sampleBuffer : DmaBufferProvider :=
  { getSize := 1048576
    getBusOffsetAddress := fun offset => 4294967296 + offset }

/-- A superpage as a client builds it. -/
def sampleSuperpage (offset size : Nat) : Superpage :=
  { offset := offset, size := size, received := 0, ready := false, link := 0 }

/-- A channel with link queues of 2 and a ready queue of 4 records. -/
def sampleChannel (state : DmaState) (links : List Link) (ready : List Superpage)
    (totalAvailable : Int) : CruDmaChannel :=
  { mDmaState := state
    mDataSource := DataSource.Internal
    mDmaPageSize := 8192
    mFeatures :=
      { standalone := false, serial := true, firmwareInfo := true, temperature := true,
        dataSelection := true, chipId := true }
    mLinkQueueCapacity := 2
    mReadyQueueCapacity := 4
    mLinks := links
    mReadyQueue := { size_ := 5, records := ready }
    mLinkQueuesTotalAvailable := totalAvailable
    mFirstSPPushed := false
    mDebugRegisterReset := false
    mEmptySPFifoCounters := []
    barLog := [] }

/-- A link of `sampleChannel`. -/
def sampleLink (id counter : Nat) (records : List Superpage) : Link :=
  { id := id, superpageCounter := counter, queue := { size_ := 3, records := records } }

/-- Three links holding 2, 1 and 1 superpages. -/
def sampleLinks : List Link :=
  [sampleLink 0 0 [sampleSuperpage 0 32768, sampleSuperpage 32768 32768],
    sampleLink 1 0 [sampleSuperpage 65536 32768],
    sampleLink 2 0 [sampleSuperpage 98304 32768]]

/-- A stopped channel whose only link had one superpage reclaimed by `stopDma`: the link's
counter is 1, its queue is empty, and the reclaimed superpage waits in the ready queue. -/
def reclaimedChannel : CruDmaChannel :=
  sampleChannel DmaState.STOPPED [sampleLink 0 1 []] [sampleSuperpage 0 32768] 2

/-- A started channel with one link holding two superpages, and a ready queue with room for
one more record. -/
def backPressureChannel : CruDmaChannel :=
  sampleChannel DmaState.STARTED
    [sampleLink 0 0 [sampleSuperpage 0 32768, sampleSuperpage 32768 32768]]
    [sampleSuperpage 65536 32768, sampleSuperpage 98304 32768, sampleSuperpage 131072 32768] 0

/-- The channel `backPressureChannel` after `fillSuperpages` with both superpages reported
complete (and no size reported). -/
def backPressureAfter : CruDmaChannel :=
  sampleChannel DmaState.STARTED
    [sampleLink 0 1 [sampleSuperpage 32768 32768]]
    [sampleSuperpage 65536 32768, sampleSuperpage 98304 32768, sampleSuperpage 131072 32768,
      { offset := 0, size := 32768, received := 32768, ready := true, link := 0 }] 1

/-- A started channel with one link and empty queues. -/
def oneLinkChannel : CruDmaChannel :=
  sampleChannel DmaState.STARTED [sampleLink 0 0 []] [] 2

/-- The channel `oneLinkChannel` after the push of a superpage of 32 KiB at offset 0. -/
def oneLinkPushed : CruDmaChannel :=
  { sampleChannel DmaState.STARTED [sampleLink 0 0 [sampleSuperpage 0 32768]] [] 1 with
    mFirstSPPushed := true
    barLog := [BarOp.pushSuperpageDescriptor 0 4 4294967296] }

/-- A sequence of calls, each run on the state the one before left (also after a throw, as a
client that catches the exception goes on); `none` if a call has no defined behaviour. -/
def runCalls : List Call → CruDmaChannel → Option CruDmaChannel
  | [], c => some c
  | call :: calls, c =>
    match call.after c with
    | none => none
    | some c1 => runCalls calls c1

/-- The push of a superpage of 32 KiB at `offset` of `sampleBuffer`. -/
def pushCall (offset : Nat) : Call :=
  Call.pushSuperpage 4294967295 sampleBuffer (sampleSuperpage offset 32768)

/-- The completion record of a superpage of 32 KiB at `offset` from link 0. -/
def sampleCompletion (offset : Nat) : Superpage :=
  { offset := offset, size := 32768, received := 32768, ready := true, link := 0 }

/-- The pushes the card was sent in `fullReadyChannel`. -/
def fivePushes : List BarOp :=
  [BarOp.pushSuperpageDescriptor 0 4 4294967296, BarOp.pushSuperpageDescriptor 0 4 4295000064,
    BarOp.pushSuperpageDescriptor 0 4 4295032832, BarOp.pushSuperpageDescriptor 0 4 4295065600,
    BarOp.pushSuperpageDescriptor 0 4 4295098368]

/-- A started channel with a full ready queue and one superpage in flight. -/
def fullReadyChannel : CruDmaChannel :=
  { sampleChannel DmaState.STARTED [sampleLink 0 4 [sampleSuperpage 131072 32768]]
      [sampleCompletion 0, sampleCompletion 32768, sampleCompletion 65536,
        sampleCompletion 98304] 1 with
    mFirstSPPushed := true
    barLog := fivePushes }

/-- The channel `fullReadyChannel` after `stopDma`. -/
def fullReadyStopped : CruDmaChannel :=
  { sampleChannel DmaState.STOPPED [sampleLink 0 5 []]
      [sampleCompletion 0, sampleCompletion 32768, sampleCompletion 65536,
        sampleCompletion 98304] 2 with
    mFirstSPPushed := true
    barLog := fivePushes ++ [BarOp.stopDmaEngine, BarOp.disableDataTaking] }

/-- A started channel with one link and two superpages in flight. -/
def twoInFlight : CruDmaChannel :=
  sampleChannel DmaState.STARTED
    [sampleLink 0 0 [sampleSuperpage 0 32768, sampleSuperpage 32768 32768]] [] 0

/-- The channel `twoInFlight` after `stopDma`, the card having completed one superpage. -/
def twoInFlightStopped : CruDmaChannel :=
  { sampleChannel DmaState.STOPPED [sampleLink 0 2 []]
      [sampleCompletion 0,
        { offset := 32768, size := 32768, received := 0, ready := false, link := 0 }] 2 with
    barLog := [BarOp.stopDmaEngine, BarOp.disableDataTaking] }

/-- A channel in the state `UNKNOWN`, with a completion waiting in the ready queue and a link
that has counted three superpages. -/
def unknownChannel : CruDmaChannel :=
  sampleChannel DmaState.UNKNOWN [sampleLink 0 3 []] [sampleCompletion 0] 2

/-- A superpage whose range wraps around the end of the address space. -/
def wrappedSuperpage : Superpage := sampleSuperpage (2 ^ 64 - 32768) 32768

/-- A started channel with two links: the first queue is full, the second has one free
slot. -/
def oneSlotChannel : CruDmaChannel :=
  sampleChannel DmaState.STARTED
    [sampleLink 0 0 [sampleSuperpage 0 32768, sampleSuperpage 32768 32768],
      sampleLink 1 0 [sampleSuperpage 65536 32768]] [] 1

/-- The channel `oneLinkChannel` after the push of `wrappedSuperpage` and a call of
`fillSuperpages`, the card having completed the superpage. -/
def wrappedFilled : CruDmaChannel :=
  { sampleChannel DmaState.STARTED [sampleLink 0 1 []]
      [{ wrappedSuperpage with received := 32768, ready := true }] 2 with
    mFirstSPPushed := true
    barLog := [BarOp.pushSuperpageDescriptor 0 4 (4294967296 + (2 ^ 64 - 32768))] }

/-- A stopped channel with one link, `C_link = 4` and a ready queue for 8 records. -/
def happyChannel : CruDmaChannel :=
  { sampleChannel DmaState.STOPPED
      [{ id := 0, superpageCounter := 0, queue := { size_ := 5, records := [] } }] [] 0 with
    mLinkQueueCapacity := 4
    mReadyQueueCapacity := 8
    mReadyQueue := { size_ := 9, records := [] } }

/-- A started channel with three links and empty queues, `C_link = 2`. -/
def threeLinks : CruDmaChannel :=
  { sampleChannel DmaState.STARTED [sampleLink 0 0 [], sampleLink 1 0 [], sampleLink 2 0 []]
      [] 6 with
    mReadyQueueCapacity := 6
    mReadyQueue := { size_ := 7, records := [] } }

/-- Six superpages of 32 KiB, one after the other in the buffer. -/
def sixSuperpages : List Superpage :=
  [sampleSuperpage 0 32768, sampleSuperpage 32768 32768, sampleSuperpage 65536 32768,
    sampleSuperpage 98304 32768, sampleSuperpage 131072 32768, sampleSuperpage 163840 32768]

/-- Header values for the samples: 2 links at most, and members that start at 0 and
`false`. -/
def sampleHeader : HeaderValues :=
  { MAX_SUPERPAGE_DESCRIPTORS_DEFAULT := 128
    MAX_LINKS := 2
    linkQueuesTotalAvailable := 0
    firstSPPushed := false
    debugRegisterReset := false }

/-- A buffer of 1 MiB at address 0, registered with buffer parameters; its scatter-gather
list is empty and no memory map is known for it. -/
def sampleSetup : BufferSetup :=
  { hasBufferParameters := true
    scatterGatherListSize := 0
    bufferSize := 1048576
    bufferAddress := 0
    memoryMaps := []
    iommuEnabled := false }

/-- A card with one enabled link and room for 2 superpage descriptors per link. -/
def sampleCard : CardAnswers :=
  { firmwareFeatures :=
      { standalone := false, serial := true, firmwareInfo := true, temperature := true,
        dataSelection := true, chipId := true }
    maxSuperpageDescriptors := 2
    dataTakingLinks := [0] }

/-- A card whose empty-FIFO counters all read `counter`. -/
def emptyCounterBar (counter : Nat) : CruBar :=
  { sampleBar 0 0 with getSuperpageFifoEmptyCounter := fun _ => counter }

/-- The channel `oneLinkPushed` with the empty-FIFO counter 5 stored for link 0. -/
def staleCounters : CruDmaChannel :=
  { oneLinkPushed with mEmptySPFifoCounters := [(0, 5)] }

/-- A card on endpoint `endpoint` whose BAR2 registers all hold `value`. -/
def orbitBar (endpoint : Int) (value : Nat) : CruBar :=
  { sampleBar 0 0 with getEndpointNumber := endpoint, readRegister := fun _ => value }

/-- The data sources numbered in the order `Fee`, `Diu`, `Siu`, `Internal`, `Ddg`. -/
def sourceCode : DataSource → Nat
  | DataSource.Fee => 0
  | DataSource.Diu => 1
  | DataSource.Siu => 2
  | DataSource.Internal => 3
  | DataSource.Ddg => 4

/-- Another numbering, with `Internal` first and `Fee` second. -/
def swappedCode : DataSource → Nat
  | DataSource.Internal => 0
  | DataSource.Fee => 1
  | DataSource.Diu => 2
  | DataSource.Siu => 3
  | DataSource.Ddg => 4

/-- A card whose count for link 0 has wrapped to 1 and whose count for the other links is
`2 ^ 31`; every superpage is reported full. -/
def wrapBar : CruBar :=
  { sampleBar 0 32768 with
    getSuperpageCount := fun linkId => if linkId = 0 then 1 else 2147483648 }

/-- A started channel whose link 0 has counted `2 ^ 32 - 1` superpages and whose link 1 has
counted `2 ^ 31 - 1`. -/
def wrapChannel : CruDmaChannel :=
  sampleChannel DmaState.STARTED
    [sampleLink 0 4294967295 [sampleSuperpage 0 32768, sampleSuperpage 32768 32768],
      sampleLink 1 2147483647 [sampleSuperpage 65536 32768]] [] 1

/-- The completions since the last harvest in `wrapChannel` under `wrapBar`. -/
def wrapCompletions (link : Link) : Nat := if link.id = 0 then 2 else 1

/-- The channel `wrapChannel` after `fillSuperpages` under `wrapBar`. -/
def wrapHarvested : CruDmaChannel :=
  sampleChannel DmaState.STARTED [sampleLink 0 1 [], sampleLink 1 2147483648 []]
    [{ offset := 0, size := 32768, received := 32768, ready := true, link := 0 },
      { offset := 32768, size := 32768, received := 32768, ready := true, link := 0 },
      { offset := 65536, size := 32768, received := 32768, ready := true, link := 1 }] 4

/-- The channel the constructor builds from the samples, without parameters. -/
def constructedChannel : CruDmaChannel :=
  sampleChannel DmaState.STOPPED [sampleLink 0 0 []] [] 0

/-- The channel `constructedChannel` after `startDma`. -/
def constructedStarted : CruDmaChannel :=
  { sampleChannel DmaState.STARTED [sampleLink 0 0 []] [] 2 with
    mDebugRegisterReset := true
    barLog := [BarOp.setDebugModeEnabled true, BarOp.setDataSource DataSourceSelect.INTERNAL,
      BarOp.resetDataGeneratorCounter, BarOp.resetCard, BarOp.resetInternalCounters,
      BarOp.startDmaEngine] }

/-- The channel `constructedStarted` after the push of a superpage of 32 KiB at offset 0. -/
def constructedPushed : CruDmaChannel :=
  { sampleChannel DmaState.STARTED [sampleLink 0 0 [sampleSuperpage 0 32768]] [] 1 with
    mDebugRegisterReset := true
    mFirstSPPushed := true
    barLog := [BarOp.setDebugModeEnabled true, BarOp.setDataSource DataSourceSelect.INTERNAL,
      BarOp.resetDataGeneratorCounter, BarOp.resetCard, BarOp.resetInternalCounters,
      BarOp.startDmaEngine, BarOp.pushSuperpageDescriptor 0 4 4294967296] }

/-- The channel `constructedChannel` after `startDma`, two pushes, and a `stopDma` during
which the card reports the first superpage complete: the second comes back reclaimed. -/
def constructedStopped : CruDmaChannel :=
  { sampleChannel DmaState.STOPPED [sampleLink 0 2 []]
      [sampleCompletion 0,
        { offset := 32768, size := 32768, received := 0, ready := false, link := 0 }] 2 with
    mDebugRegisterReset := true
    mFirstSPPushed := true
    barLog := [BarOp.setDebugModeEnabled true, BarOp.setDataSource DataSourceSelect.INTERNAL,
      BarOp.resetDataGeneratorCounter, BarOp.resetCard, BarOp.resetInternalCounters,
      BarOp.startDmaEngine, BarOp.pushSuperpageDescriptor 0 4 4294967296,
      BarOp.pushSuperpageDescriptor 0 4 4295000064, BarOp.stopDmaEngine,
      BarOp.disableDataTaking] }

/-! ## Queue lemmas -/

namespace SuperpageQueue

theorem drainLoop_size_ (fuel : Nat) (q : SuperpageQueue) : (drainLoop fuel q).size_ = q.size_ := by
  induction fuel generalizing q with
  | zero => rfl
  | succ n ih =>
    unfold drainLoop
    split
    · rfl
    · rw [ih]; rfl

theorem drainLoop_records (fuel : Nat) (q : SuperpageQueue) (h : q.records.length ≤ fuel) :
    (drainLoop fuel q).records = [] := by
  induction fuel generalizing q with
  | zero =>
    have : q.records.length = 0 := Nat.le_zero.mp h
    simpa [drainLoop] using List.length_eq_zero.mp this
  | succ n ih =>
    unfold drainLoop
    cases hq : q.records with
    | nil => simp [isEmpty, hq]
    | cons x xs =>
      simp only [isEmpty, hq, List.isEmpty_cons, Bool.false_eq_true, if_false]
      apply ih
      simp only [popFront, hq, List.tail_cons]
      rw [hq] at h
      simpa using h

theorem drain_records (q : SuperpageQueue) : q.drain.records = [] :=
  drainLoop_records _ q (Nat.le_refl _)

theorem drain_size_ (q : SuperpageQueue) : q.drain.size_ = q.size_ := drainLoop_size_ _ q

theorem write_size_ (q : SuperpageQueue) (s : Superpage) : (q.write s).2.size_ = q.size_ := by
  unfold write; split <;> rfl

theorem write_sized (q : SuperpageQueue) (s : Superpage) (capacity : Nat)
    (h : q.sized capacity) : (q.write s).2.sized capacity := by
  obtain ⟨h1, h2⟩ := h
  unfold write
  split
  · rename_i hlt
    refine ⟨h1, ?_⟩
    simp only [List.length_append, List.length_singleton]
    omega
  · exact ⟨h1, h2⟩

theorem write_of_lt (q : SuperpageQueue) (s : Superpage) (capacity : Nat)
    (h : q.size_ = capacity + 1) (hlt : q.records.length < capacity) :
    (q.write s).2 = { q with records := q.records ++ [s] } := by
  unfold write
  rw [if_pos (by omega)]

theorem write_of_full (q : SuperpageQueue) (s : Superpage) (capacity : Nat)
    (h : q.size_ = capacity + 1) (hge : capacity ≤ q.records.length) :
    (q.write s).2 = q := by
  unfold write
  rw [if_neg (by omega)]

end SuperpageQueue

/-! ## Transfers between a link queue and the ready queue -/

theorem steps_refl (t : Transfer) : Transfer.Steps t t :=
  ⟨rfl, rfl, rfl, rfl, Nat.le_refl _, fun _ h => h⟩

theorem steps_trans {t1 t2 t3 : Transfer} (h12 : Transfer.Steps t1 t2)
    (h23 : Transfer.Steps t2 t3) : Transfer.Steps t1 t3 := by
  obtain ⟨a1, a2, a3, a4, a5, a6⟩ := h12
  obtain ⟨b1, b2, b3, b4, b5, b6⟩ := h23
  exact ⟨b1.trans a1, b2.trans a2, b3.trans a3, b4.trans a4, Nat.le_trans b5 a5,
    fun cap h => b6 cap (a6 cap h)⟩

theorem transfer_eq_some (bar : CruBar) (t t' : Transfer) (reclaim : Bool)
    (h : transferSuperpageFromLinkToReady bar t reclaim = some t') :
    ∃ front rest, t.link.queue.records = front :: rest ∧
      t' = { link := { t.link with
                queue := { t.link.queue with records := rest }
                superpageCounter := wrapU32 (t.link.superpageCounter + 1) }
             readyQueue := (t.readyQueue.write (markSuperpage bar t.link.id reclaim front)).2
             totalAvailable := t.totalAvailable + 1 } := by
  unfold transferSuperpageFromLinkToReady at h
  cases hq : t.link.queue.records with
  | nil => simp [SuperpageQueue.frontPtr, hq] at h
  | cons front rest =>
    refine ⟨front, rest, rfl, ?_⟩
    simp only [SuperpageQueue.frontPtr, hq, List.head?_cons, Option.some.injEq] at h
    rw [← h]
    simp [SuperpageQueue.popFront, hq]

theorem transfer_eq_none (bar : CruBar) (t : Transfer) (reclaim : Bool) :
    transferSuperpageFromLinkToReady bar t reclaim = none ↔ t.link.queue.records = [] := by
  unfold transferSuperpageFromLinkToReady
  cases hq : t.link.queue.records with
  | nil => simp [SuperpageQueue.frontPtr, hq]
  | cons front rest => simp [SuperpageQueue.frontPtr, hq]

theorem transfer_steps (bar : CruBar) (t t' : Transfer) (reclaim : Bool)
    (h : transferSuperpageFromLinkToReady bar t reclaim = some t') : Transfer.Steps t t' := by
  obtain ⟨front, rest, hq, rfl⟩ := transfer_eq_some bar t t' reclaim h
  refine ⟨rfl, rfl, SuperpageQueue.write_size_ _ _, ?_, ?_, ?_⟩
  · simp only [hq, List.length_cons]; push_cast; ring
  · simp [hq]
  · intro cap hs; exact SuperpageQueue.write_sized _ _ _ hs

theorem harvestLoop_steps (bar : CruBar) (cap amount : Nat) (t : Transfer) :
    Transfer.Steps t (harvestLoop bar cap amount t).1 := by
  induction amount generalizing t with
  | zero => exact steps_refl t
  | succ n ih =>
    unfold harvestLoop
    split
    · exact steps_refl t
    · cases ht : transferSuperpageFromLinkToReady bar t false with
      | none => exact steps_refl t
      | some t1 => exact steps_trans (transfer_steps bar t t1 false ht) (ih t1)

theorem reclaimLoop_steps (bar : CruBar) (fuel : Nat) (t : Transfer) :
    Transfer.Steps t (reclaimLoop bar fuel t).1 := by
  induction fuel generalizing t with
  | zero => exact steps_refl t
  | succ n ih =>
    unfold reclaimLoop
    split
    · exact steps_refl t
    · cases ht : transferSuperpageFromLinkToReady bar t true with
      | none => exact steps_refl t
      | some t1 => exact steps_trans (transfer_steps bar t t1 true ht) (ih t1)

/-- The inner loop of `reclaimSuperpages` ends with an empty link queue and without a throw
when it is given one round per stored record. -/
theorem reclaimLoop_queue (bar : CruBar) (fuel : Nat) (t : Transfer)
    (h : t.link.queue.records.length ≤ fuel) :
    (reclaimLoop bar fuel t).1.link.queue.records = [] ∧ (reclaimLoop bar fuel t).2 = none := by
  induction fuel generalizing t with
  | zero =>
    have : t.link.queue.records = [] := List.length_eq_zero.mp (Nat.le_zero.mp h)
    exact ⟨this, rfl⟩
  | succ n ih =>
    unfold reclaimLoop
    cases hq : t.link.queue.records with
    | nil => simp [SuperpageQueue.isEmpty, hq]
    | cons front rest =>
      simp only [SuperpageQueue.isEmpty, hq, List.isEmpty_cons, Bool.false_eq_true, if_false]
      cases ht : transferSuperpageFromLinkToReady bar t true with
      | none => rw [transfer_eq_none] at ht; simp [hq] at ht
      | some t1 =>
        obtain ⟨f, r, hq1, rfl⟩ := transfer_eq_some bar t t1 true ht
        apply ih
        rw [hq] at h hq1
        simp only [List.cons.injEq] at hq1
        simp only [List.length_cons] at h
        simp only [← hq1.2]
        omega

/-! ## The loops over the links -/

theorem linksMoved_refl (links : List Link) : LinksMoved links links := by
  induction links with
  | nil => exact List.Forall₂.nil
  | cons l ls ih => exact List.Forall₂.cons ⟨rfl, rfl, Nat.le_refl _⟩ ih

theorem linksMoved_length {links links' : List Link} (h : LinksMoved links links') :
    links'.length = links.length := (List.Forall₂.length_eq h).symm

theorem linksMoved_sized {links links' : List Link} (h : LinksMoved links links') (cap : Nat)
    (hs : ∀ l ∈ links, l.queue.sized cap) : ∀ l ∈ links', l.queue.sized cap := by
  induction h with
  | nil => intro l hl; simp at hl
  | @cons a b la lb hab _ ih =>
    intro l hl
    rcases List.mem_cons.mp hl with rfl | hl
    · have ha := hs a (List.mem_cons_self _ _)
      exact ⟨hab.2.1.trans ha.1, Nat.le_trans hab.2.2 ha.2⟩
    · exact ih (fun x hx => hs x (List.mem_cons_of_mem _ hx)) l hl

theorem linksMoved_mem {links links' : List Link} (h : LinksMoved links links') :
    ∀ l' ∈ links', ∃ l ∈ links, l'.queue.records.length ≤ l.queue.records.length := by
  induction h with
  | nil => intro l hl; simp at hl
  | @cons a b la lb hab _ ih =>
    intro l hl
    rcases List.mem_cons.mp hl with rfl | hl
    · exact ⟨a, List.mem_cons_self _ _, hab.2.2⟩
    · obtain ⟨x, hx, hs⟩ := ih l hl
      exact ⟨x, List.mem_cons_of_mem _ hx, hs⟩

theorem inFlight_cons (l : Link) (ls : List Link) :
    inFlight (l :: ls) = l.queue.records.length + inFlight ls := by
  simp [inFlight, SuperpageQueue.sizeGuess]

theorem freeSlots_eq (cap : Nat) (links : List Link) :
    freeSlots cap links = (cap : Int) * (links.length : Int) - (inFlight links : Int) := by
  induction links with
  | nil => simp [freeSlots, inFlight]
  | cons l ls ih =>
    have h1 : freeSlots cap (l :: ls) =
        ((cap : Int) - (l.queue.records.length : Int)) + freeSlots cap ls := by
      simp [freeSlots, SuperpageQueue.sizeGuess]
    rw [h1, ih, inFlight_cons]
    simp only [List.length_cons]
    push_cast
    ring

/-- What the loop over the links of `fillSuperpages` keeps, whether it throws or not. -/
theorem fillLinks_moved (bar : CruBar) (cap : Nat) (links : List Link) (ready : SuperpageQueue)
    (total : Int) :
    LinksMoved links (fillLinks bar cap links ready total).1 ∧
      (fillLinks bar cap links ready total).2.1.size_ = ready.size_ ∧
      (∀ capacity, ready.sized capacity →
        (fillLinks bar cap links ready total).2.1.sized capacity) ∧
      (fillLinks bar cap links ready total).2.2.1 +
          (inFlight (fillLinks bar cap links ready total).1 : Int) =
        total + (inFlight links : Int) := by
  induction links generalizing ready total with
  | nil => exact ⟨List.Forall₂.nil, rfl, fun _ h => h, rfl⟩
  | cons l ls ih =>
    unfold fillLinks
    split
    · exact ⟨linksMoved_refl _, rfl, fun _ h => h, rfl⟩
    · have hs := harvestLoop_steps bar cap (amountAvailable bar l)
        { link := l, readyQueue := ready, totalAvailable := total }
      rcases hh : harvestLoop bar cap (amountAvailable bar l)
        { link := l, readyQueue := ready, totalAvailable := total } with ⟨t, e⟩
      rw [hh] at hs
      obtain ⟨s1, s2, s3, s4, s5, s6⟩ := hs
      simp only at s1 s2 s3 s4 s5 s6
      cases e with
      | some e =>
        refine ⟨List.Forall₂.cons ⟨s1, s2, s5⟩ (linksMoved_refl _), s3, s6, ?_⟩
        simp only [inFlight_cons]
        push_cast
        linarith
      | none =>
        dsimp only
        obtain ⟨i1, i2, i3, i4⟩ := ih t.readyQueue t.totalAvailable
        rcases hf : fillLinks bar cap ls t.readyQueue t.totalAvailable with ⟨ls1, r1, a1, e1⟩
        rw [hf] at i1 i2 i3 i4
        simp only at i1 i2 i3 i4
        refine ⟨List.Forall₂.cons ⟨s1, s2, s5⟩ i1, i2.trans s3, fun c h => i3 c (s6 c h), ?_⟩
        simp only [inFlight_cons]
        push_cast
        linarith

/-- What the loop over the links of `reclaimSuperpages` keeps. -/
theorem reclaimLinks_moved (bar : CruBar) (links : List Link) (ready : SuperpageQueue)
    (total : Int) :
    LinksMoved links (reclaimLinks bar links ready total).1 ∧
      (reclaimLinks bar links ready total).2.1.size_ = ready.size_ ∧
      (∀ capacity, ready.sized capacity →
        (reclaimLinks bar links ready total).2.1.sized capacity) ∧
      (reclaimLinks bar links ready total).2.2.1 +
          (inFlight (reclaimLinks bar links ready total).1 : Int) =
        total + (inFlight links : Int) := by
  induction links generalizing ready total with
  | nil => exact ⟨List.Forall₂.nil, rfl, fun _ h => h, rfl⟩
  | cons l ls ih =>
    unfold reclaimLinks
    have hs := reclaimLoop_steps bar l.queue.sizeGuess
      { link := l, readyQueue := ready, totalAvailable := total }
    rcases hh : reclaimLoop bar l.queue.sizeGuess
      { link := l, readyQueue := ready, totalAvailable := total } with ⟨t, e⟩
    rw [hh] at hs
    obtain ⟨s1, s2, s3, s4, s5, s6⟩ := hs
    simp only at s1 s2 s3 s4 s5 s6
    cases e with
    | some e =>
      refine ⟨List.Forall₂.cons ⟨s1, s2, s5⟩ (linksMoved_refl _), s3, s6, ?_⟩
      simp only [inFlight_cons]
      push_cast
      linarith
    | none =>
      dsimp only
      obtain ⟨i1, i2, i3, i4⟩ := ih t.readyQueue t.totalAvailable
      rcases hf : reclaimLinks bar ls t.readyQueue t.totalAvailable with ⟨ls1, r1, a1, e1⟩
      rw [hf] at i1 i2 i3 i4
      simp only at i1 i2 i3 i4
      refine ⟨List.Forall₂.cons ⟨s1, s2, s5⟩ i1, i2.trans s3, fun c h => i3 c (s6 c h), ?_⟩
      simp only [inFlight_cons]
      push_cast
      linarith

/-- The loop over the links of `reclaimSuperpages` empties every link queue and does not
throw. -/
theorem reclaimLinks_empty (bar : CruBar) (links : List Link) (ready : SuperpageQueue)
    (total : Int) :
    (∀ l ∈ (reclaimLinks bar links ready total).1, l.queue.records = []) ∧
      (reclaimLinks bar links ready total).2.2.2 = none := by
  induction links generalizing ready total with
  | nil => exact ⟨fun l hl => by simp [reclaimLinks] at hl, rfl⟩
  | cons l ls ih =>
    unfold reclaimLinks
    have hq := reclaimLoop_queue bar l.queue.sizeGuess
      { link := l, readyQueue := ready, totalAvailable := total } (Nat.le_refl _)
    rcases hh : reclaimLoop bar l.queue.sizeGuess
      { link := l, readyQueue := ready, totalAvailable := total } with ⟨t, e⟩
    rw [hh] at hq
    obtain ⟨q1, q2⟩ := hq
    simp only at q1 q2
    subst q2
    dsimp only
    obtain ⟨i1, i2⟩ := ih t.readyQueue t.totalAvailable
    rcases hf : reclaimLinks bar ls t.readyQueue t.totalAvailable with ⟨ls1, r1, a1, e1⟩
    rw [hf] at i1 i2
    simp only at i1 i2
    refine ⟨?_, i2⟩
    intro x hx
    rcases List.mem_cons.mp hx with rfl | hx
    · exact q1
    · exact i1 x hx

/-! ## pushSuperpage -/

theorem inFlight_set (links : List Link) (i : Nat) (l l' : Link) (h : links.get? i = some l) :
    (inFlight (links.set i l') : Int) =
      (inFlight links : Int) - (l.queue.records.length : Int) + (l'.queue.records.length : Int) := by
  induction links generalizing i with
  | nil => simp at h
  | cons x xs ih =>
    cases i with
    | zero =>
      simp only [List.get?_cons_zero, Option.some.injEq] at h
      subst h
      simp only [List.set_cons_zero, inFlight_cons]
      push_cast
      ring
    | succ n =>
      simp only [List.get?_cons_succ] at h
      simp only [List.set_cons_succ, inFlight_cons]
      push_cast
      rw [ih n h]
      ring

theorem mem_of_get? {links : List Link} {i : Nat} {l : Link} (h : links.get? i = some l) :
    l ∈ links := by
  induction links generalizing i with
  | nil => simp at h
  | cons x xs ih =>
    cases i with
    | zero =>
      simp only [List.get?_cons_zero, Option.some.injEq] at h
      subst h
      exact List.mem_cons_self _ _
    | succ n =>
      simp only [List.get?_cons_succ] at h
      exact List.mem_cons_of_mem _ (ih h)

theorem mem_set_cases {links : List Link} {i : Nat} {l' x : Link} (h : x ∈ links.set i l') :
    x ∈ links ∨ x = l' := by
  induction links generalizing i with
  | nil => simp at h
  | cons y ys ih =>
    cases i with
    | zero =>
      simp only [List.set_cons_zero, List.mem_cons] at h
      rcases h with h | h
      · exact Or.inr h
      · exact Or.inl (List.mem_cons_of_mem _ h)
    | succ n =>
      simp only [List.set_cons_succ, List.mem_cons] at h
      rcases h with h | h
      · exact Or.inl (h ▸ List.mem_cons_self _ _)
      · rcases ih h with h | h
        · exact Or.inl (List.mem_cons_of_mem _ h)
        · exact Or.inr h

/-- Every way `pushSuperpage` can return. -/
theorem pushSuperpage_ok (linkIndexMax : Nat) (buffer : DmaBufferProvider) (c c' : CruDmaChannel)
    (superpage : Superpage) (b : Bool)
    (h : pushSuperpage linkIndexMax buffer c superpage = Result.ok b c') :
    (b = false ∧ c' = c ∧ c.mDmaState ≠ DmaState.STARTED) ∨
      (b = true ∧ c.mDmaState = DmaState.STARTED ∧ checkSuperpage buffer superpage = none ∧
        c.mLinkQueuesTotalAvailable ≠ 0 ∧ c.mDmaPageSize ≠ 0 ∧
        ∃ link, c.mLinks.get? (getNextLinkIndex linkIndexMax c.mLinks) = some link ∧
          link.queue.records.length < c.mLinkQueueCapacity ∧
          c' = pushedChannel linkIndexMax buffer c superpage link) := by
  unfold pushSuperpage at h
  split at h
  · simp only [Result.ok.injEq] at h
    rename_i hs
    exact Or.inl ⟨h.1.symm, h.2.symm, hs⟩
  · rename_i hs
    simp only [ne_eq, Decidable.not_not] at hs
    split at h
    · simp at h
    · rename_i hc
      split at h
      · simp at h
      · rename_i ht
        split at h
        · simp at h
        · rename_i link hl
          split at h
          · simp at h
          · rename_i hlt
            split at h
            · simp at h
            · rename_i hp
              simp only [Result.ok.injEq] at h
              refine Or.inr ⟨h.1.symm, hs, hc, ht, hp, link, hl, ?_, h.2.symm⟩
              simpa [SuperpageQueue.sizeGuess] using hlt

/-- Every throw of `pushSuperpage` leaves the channel as it was. -/
theorem pushSuperpage_thrown (linkIndexMax : Nat) (buffer : DmaBufferProvider)
    (c c' : CruDmaChannel) (superpage : Superpage) (e : Exception)
    (h : pushSuperpage linkIndexMax buffer c superpage = Result.thrown e c') : c' = c := by
  unfold pushSuperpage at h
  split at h
  · simp at h
  · split at h
    · simp only [Result.thrown.injEq] at h; exact h.2.symm
    · split at h
      · simp only [Result.thrown.injEq] at h; exact h.2.symm
      · split at h
        · simp at h
        · split at h
          · simp only [Result.thrown.injEq] at h; exact h.2.symm
          · split at h <;> simp at h

/-! ## startDma and stopDma -/

/-- The queues and counters `deviceStartDma` leaves behind. -/
theorem deviceStartDma_queues (bar : CruBar) (c : CruDmaChannel) :
    (deviceStartDma bar c).mLinks = c.mLinks.map initLink ∧
      (deviceStartDma bar c).mReadyQueue = c.mReadyQueue.drain ∧
      (deviceStartDma bar c).mLinkQueuesTotalAvailable =
        ((c.mLinkQueueCapacity * c.mLinks.length : Nat) : Int) ∧
      (deviceStartDma bar c).mLinkQueueCapacity = c.mLinkQueueCapacity ∧
      (deviceStartDma bar c).mReadyQueueCapacity = c.mReadyQueueCapacity := by
  unfold deviceStartDma
  simp only [issue, resetCru, enableDebugMode, setBufferReady]
  split_ifs <;> simp

theorem inFlight_map_initLink (links : List Link) : inFlight (links.map initLink) = 0 := by
  induction links with
  | nil => rfl
  | cons l ls ih =>
    simp only [List.map_cons, inFlight_cons, ih, initLink, SuperpageQueue.drain_records]
    rfl

theorem startDma_eq (bar : CruBar) (c : CruDmaChannel) :
    startDma bar c = Result.ok ()
      { (if c.mDmaState = DmaState.STOPPED then deviceStartDma bar c else c) with
        mDmaState := DmaState.STARTED } := by
  unfold startDma
  cases h : c.mDmaState <;> simp

theorem fillSuperpages_channel (bar : CruBar) (c : CruDmaChannel) :
    (fillSuperpages bar c).channel? = some
      { c with
        mLinks := (fillLinks bar c.mReadyQueueCapacity c.mLinks c.mReadyQueue
          c.mLinkQueuesTotalAvailable).1
        mReadyQueue := (fillLinks bar c.mReadyQueueCapacity c.mLinks c.mReadyQueue
          c.mLinkQueuesTotalAvailable).2.1
        mLinkQueuesTotalAvailable := (fillLinks bar c.mReadyQueueCapacity c.mLinks c.mReadyQueue
          c.mLinkQueuesTotalAvailable).2.2.1 } := by
  unfold fillSuperpages
  rcases fillLinks bar c.mReadyQueueCapacity c.mLinks c.mReadyQueue
    c.mLinkQueuesTotalAvailable with ⟨ls, r, a, e⟩
  cases e <;> rfl

theorem reclaimSuperpages_eq (bar : CruBar) (c : CruDmaChannel) :
    reclaimSuperpages bar c = Result.ok ()
      { c with
        mLinks := (reclaimLinks bar c.mLinks c.mReadyQueue c.mLinkQueuesTotalAvailable).1
        mReadyQueue := (reclaimLinks bar c.mLinks c.mReadyQueue c.mLinkQueuesTotalAvailable).2.1
        mLinkQueuesTotalAvailable :=
          (reclaimLinks bar c.mLinks c.mReadyQueue c.mLinkQueuesTotalAvailable).2.2.1 } := by
  unfold reclaimSuperpages
  have h := (reclaimLinks_empty bar c.mLinks c.mReadyQueue c.mLinkQueuesTotalAvailable).2
  rcases hr : reclaimLinks bar c.mLinks c.mReadyQueue c.mLinkQueuesTotalAvailable with
    ⟨ls, r, a, e⟩
  rw [hr] at h
  simp only at h
  subst h
  rfl

/-- What `fillSuperpages` keeps, whether it returns or throws. -/
theorem fillSuperpages_keeps (bar : CruBar) (c c' : CruDmaChannel)
    (h : (fillSuperpages bar c).channel? = some c') :
    LinksMoved c.mLinks c'.mLinks ∧ c'.mReadyQueue.size_ = c.mReadyQueue.size_ ∧
      (∀ capacity, c.mReadyQueue.sized capacity → c'.mReadyQueue.sized capacity) ∧
      c'.mLinkQueuesTotalAvailable + (inFlight c'.mLinks : Int) =
        c.mLinkQueuesTotalAvailable + (inFlight c.mLinks : Int) ∧
      c'.mLinkQueueCapacity = c.mLinkQueueCapacity ∧
      c'.mReadyQueueCapacity = c.mReadyQueueCapacity ∧ c'.mDmaState = c.mDmaState ∧
      c'.barLog = c.barLog := by
  rw [fillSuperpages_channel] at h
  simp only [Option.some.injEq] at h
  subst h
  obtain ⟨h1, h2, h3, h4⟩ := fillLinks_moved bar c.mReadyQueueCapacity c.mLinks c.mReadyQueue
    c.mLinkQueuesTotalAvailable
  exact ⟨h1, h2, h3, h4, rfl, rfl, rfl, rfl⟩

/-- What `reclaimSuperpages` does: it returns, with every link queue empty. -/
theorem reclaimSuperpages_keeps (bar : CruBar) (c : CruDmaChannel) :
    ∃ c', reclaimSuperpages bar c = Result.ok () c' ∧
      LinksMoved c.mLinks c'.mLinks ∧ (∀ l ∈ c'.mLinks, l.queue.records = []) ∧
      c'.mReadyQueue.size_ = c.mReadyQueue.size_ ∧
      (∀ capacity, c.mReadyQueue.sized capacity → c'.mReadyQueue.sized capacity) ∧
      c'.mLinkQueuesTotalAvailable + (inFlight c'.mLinks : Int) =
        c.mLinkQueuesTotalAvailable + (inFlight c.mLinks : Int) ∧
      c'.mLinkQueueCapacity = c.mLinkQueueCapacity ∧
      c'.mReadyQueueCapacity = c.mReadyQueueCapacity ∧ c'.mDmaState = c.mDmaState ∧
      c'.barLog = c.barLog := by
  refine ⟨_, reclaimSuperpages_eq bar c, ?_⟩
  obtain ⟨h1, h2, h3, h4⟩ := reclaimLinks_moved bar c.mLinks c.mReadyQueue
    c.mLinkQueuesTotalAvailable
  exact ⟨h1, (reclaimLinks_empty bar c.mLinks c.mReadyQueue c.mLinkQueuesTotalAvailable).1,
    h2, h3, h4, rfl, rfl, rfl, rfl⟩

/-! ## What every call keeps -/

theorem kept_refl (c : CruDmaChannel) : Kept c c := ⟨rfl, rfl, rfl, id, fun _ => rfl⟩

theorem kept_trans {c1 c2 c3 : CruDmaChannel} (h12 : Kept c1 c2) (h23 : Kept c2 c3) :
    Kept c1 c3 := by
  obtain ⟨a1, a2, a3, a4, a5⟩ := h12
  obtain ⟨b1, b2, b3, b4, b5⟩ := h23
  exact ⟨b1.trans a1, b2.trans a2, b3.trans a3, fun h => b4 (a4 h),
    fun h => (b5 (a4 h)).trans (a5 h)⟩

theorem kept_counterInvariant {c c' : CruDmaChannel} (h : Kept c c') (hq : queuesSized c)
    (hinv : counterInvariant c) : counterInvariant c' := by
  obtain ⟨a1, _, a3, _, a5⟩ := h
  have := a5 hq
  unfold ReadoutCard.counterInvariant at hinv ⊢
  rw [freeSlots_eq] at hinv ⊢
  rw [a1, a3]
  linarith

theorem fillSuperpages_kept (bar : CruBar) (c c' : CruDmaChannel)
    (h : (fillSuperpages bar c).channel? = some c') : Kept c c' := by
  obtain ⟨h1, _, h3, h4, h5, h6, _, _⟩ := fillSuperpages_keeps bar c c' h
  refine ⟨h5, h6, linksMoved_length h1, ?_, fun _ => h4⟩
  intro hq
  refine ⟨?_, ?_⟩
  · rw [h5]; exact linksMoved_sized h1 _ hq.1
  · rw [h6]; exact h3 _ hq.2

theorem reclaimSuperpages_kept (bar : CruBar) (c c' : CruDmaChannel)
    (h : (reclaimSuperpages bar c).channel? = some c') : Kept c c' := by
  obtain ⟨c1, he, h1, _, _, h3, h4, h5, h6, _, _⟩ := reclaimSuperpages_keeps bar c
  rw [he] at h
  simp only [Result.channel?, Option.some.injEq] at h
  subst h
  refine ⟨h5, h6, linksMoved_length h1, ?_, fun _ => h4⟩
  intro hq
  refine ⟨?_, ?_⟩
  · rw [h5]; exact linksMoved_sized h1 _ hq.1
  · rw [h6]; exact h3 _ hq.2

theorem kept_of_same_queues (c c' : CruDmaChannel) (h1 : c'.mLinks = c.mLinks)
    (h2 : c'.mReadyQueue = c.mReadyQueue)
    (h3 : c'.mLinkQueuesTotalAvailable = c.mLinkQueuesTotalAvailable)
    (h4 : c'.mLinkQueueCapacity = c.mLinkQueueCapacity)
    (h5 : c'.mReadyQueueCapacity = c.mReadyQueueCapacity) : Kept c c' := by
  refine ⟨h4, h5, by rw [h1], ?_, fun _ => by rw [h1, h3]⟩
  intro hq
  unfold queuesSized
  rw [h1, h2, h4, h5]
  exact hq

theorem deviceStopDma_kept (bar : CruBar) (c c' : CruDmaChannel)
    (h : (deviceStopDma bar c).channel? = some c') : Kept c c' := by
  unfold deviceStopDma at h
  have h0 : Kept c (issue (setBufferNonReady c) [BarOp.disableDataTaking]) :=
    kept_of_same_queues _ _ rfl rfl rfl rfl rfl
  cases hf : fillSuperpages bar (issue (setBufferNonReady c) [BarOp.disableDataTaking]) with
  | ok v c1 =>
    rw [hf] at h
    simp only at h
    have h1 := fillSuperpages_kept bar _ c1 (by rw [hf]; rfl)
    exact kept_trans (kept_trans h0 h1) (reclaimSuperpages_kept bar c1 c' h)
  | thrown e c1 =>
    rw [hf] at h
    simp only [Result.channel?, Option.some.injEq] at h
    subst h
    exact kept_trans h0 (fillSuperpages_kept bar _ c1 (by rw [hf]; rfl))
  | undefined =>
    rw [hf] at h
    simp [Result.channel?] at h

theorem stopDma_kept (bar : CruBar) (c c' : CruDmaChannel)
    (h : (stopDma bar c).channel? = some c') : Kept c c' := by
  unfold stopDma at h
  cases hs : c.mDmaState with
  | UNKNOWN =>
    rw [hs] at h
    simp only [Result.channel?, Option.some.injEq] at h
    subst h
    exact kept_of_same_queues _ _ rfl rfl rfl rfl rfl
  | STOPPED =>
    rw [hs] at h
    simp only [Result.channel?, Option.some.injEq] at h
    subst h
    exact kept_of_same_queues _ _ rfl rfl rfl rfl rfl
  | STARTED =>
    rw [hs] at h
    simp only at h
    cases hd : deviceStopDma bar c with
    | ok v c1 =>
      rw [hd] at h
      simp only [Result.channel?, Option.some.injEq] at h
      subst h
      exact kept_trans (deviceStopDma_kept bar c c1 (by rw [hd]; rfl))
        (kept_of_same_queues _ _ rfl rfl rfl rfl rfl)
    | thrown e c1 =>
      rw [hd] at h
      simp only [Result.channel?, Option.some.injEq] at h
      subst h
      exact deviceStopDma_kept bar c c1 (by rw [hd]; rfl)
    | undefined =>
      rw [hd] at h
      simp [Result.channel?] at h

theorem popSuperpage_kept (c c' : CruDmaChannel)
    (h : (popSuperpage c).channel? = some c') : Kept c c' := by
  unfold popSuperpage at h
  cases hf : c.mReadyQueue.frontPtr with
  | none =>
    rw [hf] at h
    simp only [Result.channel?, Option.some.injEq] at h
    subst h
    exact kept_refl c
  | some s =>
    rw [hf] at h
    simp only [Result.channel?, Option.some.injEq] at h
    subst h
    refine ⟨rfl, rfl, rfl, ?_, fun _ => rfl⟩
    intro hq
    refine ⟨hq.1, hq.2.1, ?_⟩
    have := hq.2.2
    simp only [SuperpageQueue.popFront, List.length_tail]
    omega

theorem getSuperpage_kept (c c' : CruDmaChannel)
    (h : (getSuperpage c).channel? = some c') : Kept c c' := by
  unfold getSuperpage at h
  cases hf : c.mReadyQueue.frontPtr with
  | none =>
    rw [hf] at h
    simp only [Result.channel?, Option.some.injEq] at h
    subst h
    exact kept_refl c
  | some s =>
    rw [hf] at h
    simp only [Result.channel?, Option.some.injEq] at h
    subst h
    exact kept_refl c

theorem pushedChannel_kept (linkIndexMax : Nat) (buffer : DmaBufferProvider)
    (c : CruDmaChannel) (superpage : Superpage) (link : Link)
    (hl : c.mLinks.get? (getNextLinkIndex linkIndexMax c.mLinks) = some link)
    (hlt : link.queue.records.length < c.mLinkQueueCapacity) :
    Kept c (pushedChannel linkIndexMax buffer c superpage link) := by
  refine ⟨rfl, rfl, by simp [pushedChannel], ?_, ?_⟩
  · intro hq
    refine ⟨?_, hq.2⟩
    intro x hx
    rcases mem_set_cases hx with hx | hx
    · exact hq.1 x hx
    · subst hx
      have hs := hq.1 link (mem_of_get? hl)
      simp only [pushSuperpageToLink]
      rw [SuperpageQueue.write_of_lt _ _ _ hs.1 hlt]
      refine ⟨hs.1, ?_⟩
      show (link.queue.records ++ [superpage]).length ≤ c.mLinkQueueCapacity
      simp only [List.length_append, List.length_singleton]
      omega
  · intro hq
    have hs := hq.1 link (mem_of_get? hl)
    simp only [pushedChannel]
    rw [inFlight_set _ _ link _ hl]
    simp only [pushSuperpageToLink]
    rw [SuperpageQueue.write_of_lt _ _ _ hs.1 hlt]
    simp only [List.length_append, List.length_singleton]
    push_cast
    ring

theorem pushSuperpage_kept (linkIndexMax : Nat) (buffer : DmaBufferProvider)
    (c c' : CruDmaChannel) (superpage : Superpage)
    (h : (pushSuperpage linkIndexMax buffer c superpage).channel? = some c') : Kept c c' := by
  cases hp : pushSuperpage linkIndexMax buffer c superpage with
  | ok b c1 =>
    rw [hp] at h
    simp only [Result.channel?, Option.some.injEq] at h
    subst h
    rcases pushSuperpage_ok _ _ _ _ _ _ hp with ⟨_, rfl, _⟩ | ⟨_, _, _, _, _, link, hl, hlt, rfl⟩
    · exact kept_refl _
    · exact pushedChannel_kept _ _ _ _ _ hl hlt
  | thrown e c1 =>
    rw [hp] at h
    simp only [Result.channel?, Option.some.injEq] at h
    subst h
    rw [pushSuperpage_thrown _ _ _ _ _ _ hp]
    exact kept_refl _
  | undefined =>
    rw [hp] at h
    simp [Result.channel?] at h

theorem map_initLink_sized (links : List Link) (cap : Nat)
    (h : ∀ l ∈ links, l.queue.sized cap) : ∀ l ∈ links.map initLink, l.queue.sized cap := by
  intro l hl
  obtain ⟨x, hx, rfl⟩ := List.mem_map.mp hl
  refine ⟨?_, ?_⟩
  · simp only [initLink, SuperpageQueue.drain_size_]; exact (h x hx).1
  · simp [initLink, SuperpageQueue.drain_records]

/-- What `startDma` leaves on a stopped channel. -/
theorem startDma_stopped (bar : CruBar) (c c' : CruDmaChannel)
    (hs : c.mDmaState = DmaState.STOPPED) (h : (startDma bar c).channel? = some c') :
    c'.mLinks = c.mLinks.map initLink ∧ c'.mReadyQueue = c.mReadyQueue.drain ∧
      c'.mLinkQueuesTotalAvailable = ((c.mLinkQueueCapacity * c.mLinks.length : Nat) : Int) ∧
      c'.mLinkQueueCapacity = c.mLinkQueueCapacity ∧
      c'.mReadyQueueCapacity = c.mReadyQueueCapacity ∧ c'.mDmaState = DmaState.STARTED := by
  rw [startDma_eq, if_pos hs] at h
  simp only [Result.channel?, Option.some.injEq] at h
  subst h
  obtain ⟨h1, h2, h3, h4, h5⟩ := deviceStartDma_queues bar c
  exact ⟨h1, h2, h3, h4, h5, rfl⟩

theorem startDma_sized (bar : CruBar) (c c' : CruDmaChannel)
    (h : (startDma bar c).channel? = some c') (hq : queuesSized c) : queuesSized c' := by
  by_cases hs : c.mDmaState = DmaState.STOPPED
  · obtain ⟨h1, h2, _, h4, h5, _⟩ := startDma_stopped bar c c' hs h
    unfold queuesSized
    rw [h1, h2, h4, h5]
    refine ⟨map_initLink_sized _ _ hq.1, ?_, ?_⟩
    · rw [SuperpageQueue.drain_size_]; exact hq.2.1
    · simp [SuperpageQueue.drain_records]
  · rw [startDma_eq, if_neg hs] at h
    simp only [Result.channel?, Option.some.injEq] at h
    subst h
    exact hq

theorem startDma_counterInvariant (bar : CruBar) (c c' : CruDmaChannel)
    (h : (startDma bar c).channel? = some c')
    (hinv : counterInvariant c ∨ c.mDmaState = DmaState.STOPPED) : counterInvariant c' := by
  by_cases hs : c.mDmaState = DmaState.STOPPED
  · obtain ⟨h1, _, h3, h4, _, _⟩ := startDma_stopped bar c c' hs h
    unfold counterInvariant
    rw [freeSlots_eq, h1, h3, h4, inFlight_map_initLink]
    simp
  · rw [startDma_eq, if_neg hs] at h
    simp only [Result.channel?, Option.some.injEq] at h
    subst h
    rcases hinv with hinv | hinv
    · exact hinv
    · exact absurd hinv hs

/-- Every call keeps the queues as the constructor allocated them. -/
theorem queuesSized_after (call : Call) (c c' : CruDmaChannel) (hq : queuesSized c)
    (h : call.after c = some c') : queuesSized c' := by
  cases call with
  | startDma bar => exact startDma_sized bar c c' h hq
  | pushSuperpage m buffer s => exact (pushSuperpage_kept m buffer c c' s h).2.2.2.1 hq
  | fillSuperpages bar => exact (fillSuperpages_kept bar c c' h).2.2.2.1 hq
  | getSuperpage => exact (getSuperpage_kept c c' h).2.2.2.1 hq
  | popSuperpage => exact (popSuperpage_kept c c' h).2.2.2.1 hq
  | stopDma bar => exact (stopDma_kept bar c c' h).2.2.2.1 hq

/-! ## Claims -/

/-- The scan of `getNextLinkIndex`: either no link beats the running minimum, or the result is
the first position (counted from `i`) of a smallest queue, and that queue beats the running
minimum. -/
theorem getNextLinkIndexLoop_spec (rest : List Link) (i idx sz : Nat) :
    (getNextLinkIndexLoop rest i idx sz = idx ∧ ∀ l ∈ rest, sz ≤ l.queue.sizeGuess) ∨
      ∃ k l, rest.get? k = some l ∧ getNextLinkIndexLoop rest i idx sz = i + k ∧
        l.queue.sizeGuess < sz ∧ (∀ x ∈ rest, l.queue.sizeGuess ≤ x.queue.sizeGuess) ∧
        ∀ j x, j < k → rest.get? j = some x → l.queue.sizeGuess < x.queue.sizeGuess := by
  induction rest generalizing i idx sz with
  | nil => exact Or.inl ⟨rfl, fun l hl => by simp at hl⟩
  | cons a rest ih =>
    unfold getNextLinkIndexLoop
    by_cases ha : a.queue.sizeGuess < sz
    · rw [if_pos ha]
      right
      rcases ih (i + 1) i a.queue.sizeGuess with ⟨h1, h2⟩ | ⟨k, l, h1, h2, h3, h4, h5⟩
      · refine ⟨0, a, rfl, by rw [h1]; rfl, ha, ?_, fun j x hj => absurd hj (Nat.not_lt_zero j)⟩
        intro x hx
        rcases List.mem_cons.mp hx with rfl | hx
        · exact Nat.le_refl _
        · exact h2 x hx
      · refine ⟨k + 1, l, by simpa using h1, by rw [h2]; omega, Nat.lt_trans h3 ha, ?_, ?_⟩
        · intro x hx
          rcases List.mem_cons.mp hx with rfl | hx
          · exact Nat.le_of_lt h3
          · exact h4 x hx
        · intro j x hj hx
          cases j with
          | zero =>
            simp only [List.get?_cons_zero, Option.some.injEq] at hx
            subst hx
            exact h3
          | succ j =>
            simp only [List.get?_cons_succ] at hx
            exact h5 j x (by omega) hx
    · rw [if_neg ha]
      rcases ih (i + 1) idx sz with ⟨h1, h2⟩ | ⟨k, l, h1, h2, h3, h4, h5⟩
      · left
        refine ⟨h1, ?_⟩
        intro x hx
        rcases List.mem_cons.mp hx with rfl | hx
        · exact Nat.le_of_not_lt ha
        · exact h2 x hx
      · right
        refine ⟨k + 1, l, by simpa using h1, by rw [h2]; omega, h3, ?_, ?_⟩
        · intro x hx
          rcases List.mem_cons.mp hx with rfl | hx
          · omega
          · exact h4 x hx
        · intro j x hj hx
          cases j with
          | zero =>
            simp only [List.get?_cons_zero, Option.some.injEq] at hx
            subst hx
            omega
          | succ j =>
            simp only [List.get?_cons_succ] at hx
            exact h5 j x (by omega) hx

theorem get?_lt_length {links : List Link} {i : Nat} {l : Link} (h : links.get? i = some l) :
    i < links.length := by
  induction links generalizing i with
  | nil => simp at h
  | cons x xs ih =>
    cases i with
    | zero => simp
    | succ n =>
      simp only [List.get?_cons_succ] at h
      have := ih h
      simp only [List.length_cons]
      omega

/-- C2 (least-loaded selection): for a non-empty list of links (queue lengths being `size_t`
values that a queue can have), `getNextLinkIndex` returns the index of a link whose queue is a
shortest one, every link before it having a strictly longer queue; and a `pushSuperpage` that
returns `true` has written the superpage to the queue of that link, whose length before the
push was the minimum over all links. -/
theorem least_loaded_selection (linkIndexMax : Nat) (links : List Link) (hne : links ≠ [])
    (hb : ∀ l ∈ links, l.queue.sizeGuess < SIZE_MAX) :
    ∃ link, links.get? (getNextLinkIndex linkIndexMax links) = some link ∧
      getNextLinkIndex linkIndexMax links < links.length ∧
      (∀ x ∈ links, link.queue.sizeGuess ≤ x.queue.sizeGuess) ∧
      (∀ j x, j < getNextLinkIndex linkIndexMax links → links.get? j = some x →
        link.queue.sizeGuess < x.queue.sizeGuess) ∧
      ∀ (buffer : DmaBufferProvider) (c c' : CruDmaChannel) (superpage : Superpage),
        c.mLinks = links → pushSuperpage linkIndexMax buffer c superpage = Result.ok true c' →
        c'.mLinks = links.set (getNextLinkIndex linkIndexMax links)
          { link with queue := (link.queue.write superpage).2 } := by
  rcases getNextLinkIndexLoop_spec links 0 linkIndexMax SIZE_MAX with
    ⟨_, h2⟩ | ⟨k, l, h1, h2, _, h4, h5⟩
  · cases links with
    | nil => exact absurd rfl hne
    | cons a rest =>
      have h3 := h2 a (List.mem_cons_self _ _)
      have h4 := hb a (List.mem_cons_self _ _)
      omega
  · have hk : getNextLinkIndex linkIndexMax links = k := by
      unfold getNextLinkIndex; rw [h2]; omega
    rw [hk]
    refine ⟨l, h1, get?_lt_length h1, h4, h5, ?_⟩
    intro buffer c c' superpage hc hp
    rcases pushSuperpage_ok _ _ _ _ _ _ hp with ⟨hf, _, _⟩ | ⟨_, _, _, _, _, link, hl, _, rfl⟩
    · cases hf
    · rw [hc, hk, h1] at hl
      simp only [Option.some.injEq] at hl
      subst hl
      simp only [pushedChannel, pushSuperpageToLink, hc, hk]

/-- C2, at three links holding 2, 1 and 1 superpages: the hypotheses hold and the selected
link exists and has a shortest queue. -/
theorem least_loaded_selection_witness :
    sampleLinks ≠ [] ∧ (∀ l ∈ sampleLinks, l.queue.sizeGuess < SIZE_MAX) ∧
      ∃ link, sampleLinks.get? (getNextLinkIndex 4294967295 sampleLinks) = some link ∧
        getNextLinkIndex 4294967295 sampleLinks < sampleLinks.length ∧
        ∀ x ∈ sampleLinks, link.queue.sizeGuess ≤ x.queue.sizeGuess :=
  ⟨by decide, by decide,
    (least_loaded_selection 4294967295 sampleLinks (by decide) (by decide)).imp
      (fun _ h => ⟨h.1, h.2.1, h.2.2.1⟩)⟩

/-! ## fillSuperpages -/

/-- The 32-bit difference `amountAvailable` in closed form. -/
theorem amountAvailable_eq (bar : CruBar) (link : Link) :
    amountAvailable bar link =
      (bar.getSuperpageCount link.id % 2 ^ 32 + 2 ^ 32 - link.superpageCounter % 2 ^ 32) %
        2 ^ 32 := by
  unfold amountAvailable toUInt32 toInt32 wrapU32
  have h1 : bar.getSuperpageCount link.id % 2 ^ 32 < 2 ^ 32 := Nat.mod_lt _ (by norm_num)
  have h2 : link.superpageCounter % 2 ^ 32 < 2 ^ 32 := Nat.mod_lt _ (by norm_num)
  generalize bar.getSuperpageCount link.id % 2 ^ 32 = a at h1 ⊢
  generalize link.superpageCounter % 2 ^ 32 = b at h2 ⊢
  norm_num at h1 h2 ⊢
  split <;> omega

/-- Without wrap-around the difference is the plain one. -/
theorem amountAvailable_of_le (bar : CruBar) (link : Link)
    (h1 : link.superpageCounter ≤ bar.getSuperpageCount link.id)
    (h2 : bar.getSuperpageCount link.id < 2 ^ 32) :
    amountAvailable bar link = bar.getSuperpageCount link.id - link.superpageCounter := by
  rw [amountAvailable_eq]
  norm_num at h2 ⊢
  omega

/-- The harvest loop does not throw when the link queue holds `amount` records. -/
theorem harvestLoop_spec (bar : CruBar) (cap amount : Nat) (t : Transfer)
    (ha : amount ≤ t.link.queue.records.length) (hr : t.readyQueue.sized cap) :
    ∃ t', harvestLoop bar cap amount t = (t', none) ∧
      t'.link.id = t.link.id ∧ t'.link.queue.size_ = t.link.queue.size_ ∧
      t'.readyQueue.size_ = t.readyQueue.size_ ∧
      t'.link.queue.records =
        t.link.queue.records.drop (min amount (cap - t.readyQueue.records.length)) ∧
      t'.readyQueue.records = t.readyQueue.records ++
        ((t.link.queue.records.take (min amount (cap - t.readyQueue.records.length))).map
          (markSuperpage bar t.link.id false)) ∧
      t'.totalAvailable =
        t.totalAvailable + ((min amount (cap - t.readyQueue.records.length) : Nat) : Int) ∧
      wrapU32 t'.link.superpageCounter =
        wrapU32 (t.link.superpageCounter + min amount (cap - t.readyQueue.records.length)) := by
  induction amount generalizing t with
  | zero => exact ⟨t, rfl, rfl, rfl, rfl, by simp, by simp, by simp, by simp⟩
  | succ n ih =>
    unfold harvestLoop
    by_cases hfull : t.readyQueue.sizeGuess ≥ cap
    · rw [if_pos hfull]
      have h0 : cap - t.readyQueue.records.length = 0 := by
        simp only [SuperpageQueue.sizeGuess] at hfull; omega
      exact ⟨t, rfl, rfl, rfl, rfl, by simp [h0], by simp [h0], by simp [h0], by simp [h0]⟩
    · rw [if_neg hfull]
      simp only [SuperpageQueue.sizeGuess, ge_iff_le, not_le] at hfull
      cases ht : transferSuperpageFromLinkToReady bar t false with
      | none =>
        rw [transfer_eq_none] at ht
        rw [ht] at ha
        simp at ha
      | some t1 =>
        obtain ⟨front, rest, hq, rfl⟩ := transfer_eq_some bar t t1 false ht
        rw [hq] at ha
        simp only [List.length_cons] at ha
        have hw := SuperpageQueue.write_of_lt t.readyQueue
          (markSuperpage bar t.link.id false front) cap hr.1 hfull
        obtain ⟨t', e1, e2, e3, e4, e5, e6, e7, e8⟩ := ih
          { link := { t.link with
              queue := { t.link.queue with records := rest }
              superpageCounter := wrapU32 (t.link.superpageCounter + 1) }
            readyQueue := (t.readyQueue.write (markSuperpage bar t.link.id false front)).2
            totalAvailable := t.totalAvailable + 1 }
          (by simpa using ha)
          (SuperpageQueue.write_sized _ _ _ hr)
        simp only [hw, List.length_append, List.length_singleton] at e4 e5 e6 e7 e8
        have hm : min (n + 1) (cap - t.readyQueue.records.length) =
            min n (cap - (t.readyQueue.records.length + 1)) + 1 := by omega
        refine ⟨t', e1, e2, e3, ?_, ?_, ?_, ?_, ?_⟩
        · exact e4
        · rw [e5, hm, hq]; rfl
        · rw [e6, hm, hq]; simp
        · rw [e7, hm]; push_cast; ring
        · rw [e8, hm]
          unfold wrapU32
          omega

/-- The harvest loop does not throw when the link queue holds `amount` records. -/
theorem harvestLoop_no_throw (bar : CruBar) (cap amount : Nat) (t : Transfer)
    (ha : amount ≤ t.link.queue.records.length) : (harvestLoop bar cap amount t).2 = none := by
  induction amount generalizing t with
  | zero => rfl
  | succ n ih =>
    unfold harvestLoop
    split
    · rfl
    · cases ht : transferSuperpageFromLinkToReady bar t false with
      | none =>
        rw [transfer_eq_none] at ht
        rw [ht] at ha
        simp at ha
      | some t1 =>
        obtain ⟨front, rest, hq, rfl⟩ := transfer_eq_some bar t t1 false ht
        apply ih
        rw [hq] at ha
        simpa using ha

/-- The only exception `fillLinks` throws is the firmware one, and it throws it exactly when
some link has more completions reported than records queued. -/
theorem fillLinks_exception (bar : CruBar) (cap : Nat) (links : List Link)
    (ready : SuperpageQueue) (total : Int) :
    ((∃ l ∈ links, amountAvailable bar l > l.queue.sizeGuess) →
        (fillLinks bar cap links ready total).2.2.2 =
          some Exception.firmwareReportedMoreSuperpages) ∧
      ((∀ l ∈ links, amountAvailable bar l ≤ l.queue.sizeGuess) →
        (fillLinks bar cap links ready total).2.2.2 = none) := by
  induction links generalizing ready total with
  | nil => exact ⟨fun ⟨l, hl, _⟩ => by simp at hl, fun _ => rfl⟩
  | cons a rest ih =>
    unfold fillLinks
    by_cases ha : amountAvailable bar a > a.queue.sizeGuess
    · rw [if_pos ha]
      refine ⟨fun _ => rfl, fun h => ?_⟩
      have := h a (List.mem_cons_self _ _)
      omega
    · rw [if_neg ha]
      have hn := harvestLoop_no_throw bar cap (amountAvailable bar a)
        { link := a, readyQueue := ready, totalAvailable := total }
        (by
          show amountAvailable bar a ≤ a.queue.records.length
          simp only [SuperpageQueue.sizeGuess] at ha
          omega)
      rcases hh : harvestLoop bar cap (amountAvailable bar a)
        { link := a, readyQueue := ready, totalAvailable := total } with ⟨t, e⟩
      rw [hh] at hn
      simp only at hn
      subst hn
      dsimp only
      obtain ⟨i1, i2⟩ := ih t.readyQueue t.totalAvailable
      rcases hf : fillLinks bar cap rest t.readyQueue t.totalAvailable with ⟨ls1, r1, a1, e1⟩
      rw [hf] at i1 i2
      simp only at i1 i2 ⊢
      refine ⟨?_, fun h => i2 (fun l hl => h l (List.mem_cons_of_mem _ hl))⟩
      rintro ⟨l, hl, hgt⟩
      rcases List.mem_cons.mp hl with rfl | hl
      · exact absurd hgt ha
      · exact i1 ⟨l, hl, hgt⟩

theorem fillSuperpages_thrown_iff (bar : CruBar) (c : CruDmaChannel) :
    (∃ c', fillSuperpages bar c = Result.thrown Exception.firmwareReportedMoreSuperpages c') ↔
      ∃ l ∈ c.mLinks, amountAvailable bar l > l.queue.sizeGuess := by
  obtain ⟨h1, h2⟩ := fillLinks_exception bar c.mReadyQueueCapacity c.mLinks c.mReadyQueue
    c.mLinkQueuesTotalAvailable
  unfold fillSuperpages
  rcases hf : fillLinks bar c.mReadyQueueCapacity c.mLinks c.mReadyQueue
    c.mLinkQueuesTotalAvailable with ⟨ls, r, a, e⟩
  rw [hf] at h1 h2
  simp only at h1 h2
  constructor
  · rintro ⟨c', hc⟩
    by_contra hne
    have := h2 (fun l hl => by
      by_contra hgt
      exact hne ⟨l, hl, by omega⟩)
    subst this
    simp at hc
  · intro hex
    have := h1 hex
    subst this
    exact ⟨_, rfl⟩

theorem fillSuperpages_ok_iff (bar : CruBar) (c : CruDmaChannel) :
    (∃ c', fillSuperpages bar c = Result.ok () c') ↔
      ∀ l ∈ c.mLinks, amountAvailable bar l ≤ l.queue.sizeGuess := by
  obtain ⟨h1, h2⟩ := fillLinks_exception bar c.mReadyQueueCapacity c.mLinks c.mReadyQueue
    c.mLinkQueuesTotalAvailable
  unfold fillSuperpages
  rcases hf : fillLinks bar c.mReadyQueueCapacity c.mLinks c.mReadyQueue
    c.mLinkQueuesTotalAvailable with ⟨ls, r, a, e⟩
  rw [hf] at h1 h2
  simp only at h1 h2
  constructor
  · rintro ⟨c', hc⟩
    intro l hl
    by_contra hgt
    have := h1 ⟨l, hl, by omega⟩
    subst this
    simp at hc
  · intro hall
    have := h2 hall
    subst this
    exact ⟨_, rfl⟩

/-- C3, as amended: `fillSuperpages` throws the firmware-invariant exception exactly when, for
some link, the 32-bit difference `(hwCount - superpageCounter) mod 2 ^ 32` exceeds the number
of superpages in the link queue; in particular it throws when
`hwCount = superpageCounter + |queue| + 1` (a 32-bit value), and it returns when for every
link `superpageCounter ≤ hwCount` and `hwCount - superpageCounter ≤ |queue|`. -/
theorem fillSuperpages_raises_iff (bar : CruBar) (c : CruDmaChannel) :
    ((∃ c', fillSuperpages bar c =
          Result.thrown Exception.firmwareReportedMoreSuperpages c') ↔
        ∃ l ∈ c.mLinks,
          (bar.getSuperpageCount l.id % 2 ^ 32 + 2 ^ 32 - l.superpageCounter % 2 ^ 32) % 2 ^ 32 >
            l.queue.sizeGuess) ∧
      (∀ l ∈ c.mLinks,
        bar.getSuperpageCount l.id = l.superpageCounter + l.queue.sizeGuess + 1 →
        bar.getSuperpageCount l.id < 2 ^ 32 →
        ∃ c', fillSuperpages bar c =
          Result.thrown Exception.firmwareReportedMoreSuperpages c') ∧
      ((∀ l ∈ c.mLinks, l.superpageCounter ≤ bar.getSuperpageCount l.id ∧
          bar.getSuperpageCount l.id < 2 ^ 32 ∧
          bar.getSuperpageCount l.id - l.superpageCounter ≤ l.queue.sizeGuess) →
        ∃ c', fillSuperpages bar c = Result.ok () c') := by
  refine ⟨?_, ?_, ?_⟩
  · rw [fillSuperpages_thrown_iff]
    constructor
    · rintro ⟨l, hl, h⟩
      exact ⟨l, hl, by rw [← amountAvailable_eq]; exact h⟩
    · rintro ⟨l, hl, h⟩
      exact ⟨l, hl, by rw [amountAvailable_eq]; exact h⟩
  · intro l hl h1 h2
    rw [fillSuperpages_thrown_iff]
    refine ⟨l, hl, ?_⟩
    rw [amountAvailable_of_le bar l (by omega) h2]
    omega
  · intro h
    rw [fillSuperpages_ok_iff]
    intro l hl
    obtain ⟨h1, h2, h3⟩ := h l hl
    rw [amountAvailable_of_le bar l h1 h2]
    exact h3

/-- C3, as stated, fails: with one superpage reclaimed at a stop (counter 1, queue empty) and
a card that has completed none, `hwCount - superpageCounter = -1 ≤ 0 = |queue|` on the only
link, and `fillSuperpages` throws the firmware-invariant exception. -/
theorem fillSuperpages_raises_below_counter :
    (∀ l ∈ reclaimedChannel.mLinks,
        ((((sampleBar 0 0).getSuperpageCount l.id : Nat) : Int) - (l.superpageCounter : Int) ≤
          (l.queue.sizeGuess : Int))) ∧
      fillSuperpages (sampleBar 0 0) reclaimedChannel =
        Result.thrown Exception.firmwareReportedMoreSuperpages reclaimedChannel := by
  refine ⟨by decide, ?_⟩
  rfl

/-- The loop over the links of `fillSuperpages` when no link has more completions reported than
records queued: it does not throw, appends to the ready queue, link by link and oldest first,
the marked heads of the link queues, and leaves the rest of every link queue in place. -/
theorem fillLinks_spec (bar : CruBar) (cap : Nat) (links : List Link) (ready : SuperpageQueue)
    (total : Int) (hno : ∀ l ∈ links, amountAvailable bar l ≤ l.queue.records.length)
    (hr : ready.sized cap) :
    ∃ links' ready' total', fillLinks bar cap links ready total = (links', ready', total', none) ∧
      ready'.size_ = ready.size_ ∧
      ready'.records = ready.records ++ harvestedAll bar links links' ∧
      ready'.records.length ≤ cap ∧
      ready'.records.length + inFlight links' = ready.records.length + inFlight links ∧
      List.Forall₂ (HarvestedLink bar cap ready'.records.length) links links' := by
  induction links generalizing ready total with
  | nil =>
    exact ⟨[], ready, total, rfl, rfl, by simp [harvestedAll], hr.2, rfl, List.Forall₂.nil⟩
  | cons a rest ih =>
    have ha := hno a (List.mem_cons_self _ _)
    obtain ⟨t, e1, e2, e3, e4, e5, e6, _, e8⟩ := harvestLoop_spec bar cap (amountAvailable bar a)
      { link := a, readyQueue := ready, totalAvailable := total } ha hr
    dsimp only at e2 e3 e4 e5 e6 e8
    have hk : min (amountAvailable bar a) (cap - ready.records.length) ≤ a.queue.records.length :=
      Nat.le_trans (Nat.min_le_left _ _) ha
    have hlen : t.readyQueue.records.length =
        ready.records.length + min (amountAvailable bar a) (cap - ready.records.length) := by
      rw [e6]
      simp only [List.length_append, List.length_map, List.length_take]
      omega
    have hrl := hr.2
    have hts : t.readyQueue.sized cap := ⟨e4.trans hr.1, by rw [hlen]; omega⟩
    obtain ⟨ls', r', tot', f1, f2, f3, f4, f5, f6⟩ := ih t.readyQueue t.totalAvailable
      (fun l hl => hno l (List.mem_cons_of_mem _ hl)) hts
    have hge : t.readyQueue.records.length ≤ r'.records.length := by
      rw [f3]; simp
    have hql : t.link.queue.records.length =
        a.queue.records.length - min (amountAvailable bar a) (cap - ready.records.length) := by
      rw [e5]; simp
    refine ⟨t.link :: ls', r', tot', ?_, f2.trans e4, ?_, f4, ?_, ?_⟩
    · unfold fillLinks
      rw [if_neg (by simp only [SuperpageQueue.sizeGuess]; omega), e1]
      simp only [f1]
    · rw [f3, e6]
      have hsub : a.queue.records.length - (a.queue.records.length -
          min (amountAvailable bar a) (cap - ready.records.length)) =
          min (amountAvailable bar a) (cap - ready.records.length) := by omega
      simp only [harvestedAll, harvestedOf, List.append_assoc, hql, hsub]
    · rw [inFlight_cons, inFlight_cons, hql]
      omega
    · refine List.Forall₂.cons ⟨e2, e3, min (amountAvailable bar a) (cap - ready.records.length),
        Nat.min_le_left _ _, e5, e8, ?_⟩ f6
      intro hlt
      omega

/-- C4 (no drop in `fillSuperpages`): when `fillSuperpages` returns on a channel whose queues
are the constructor's, the number of superpages in the link queues plus the ready queue is
unchanged, the ready queue holds at most `C_ready` records, the records appended to it are
the marked heads of the link queues, and every link queue keeps, in order, all records but
the `k` taken from its head, where `k` is smaller than the number reported complete only if
the ready queue is full at the end; the link's counter has advanced by `k`, so the next call
finds the remaining completions. -/
theorem fillSuperpages_never_drops (bar : CruBar) (c c' : CruDmaChannel) (hq : queuesSized c)
    (h : fillSuperpages bar c = Result.ok () c') :
    c'.mReadyQueue.records.length + inFlight c'.mLinks =
        c.mReadyQueue.records.length + inFlight c.mLinks ∧
      c'.mReadyQueue.records.length ≤ c.mReadyQueueCapacity ∧
      c'.mReadyQueue.records = c.mReadyQueue.records ++ harvestedAll bar c.mLinks c'.mLinks ∧
      List.Forall₂ (HarvestedLink bar c.mReadyQueueCapacity c'.mReadyQueue.records.length)
        c.mLinks c'.mLinks := by
  have hno := (fillSuperpages_ok_iff bar c).mp ⟨c', h⟩
  obtain ⟨ls, r, a, f1, _, f3, f4, f5, f6⟩ := fillLinks_spec bar c.mReadyQueueCapacity c.mLinks
    c.mReadyQueue c.mLinkQueuesTotalAvailable hno hq.2
  unfold fillSuperpages at h
  rw [f1] at h
  simp only [Result.ok.injEq, true_and] at h
  subst h
  exact ⟨f5, f4, f3, f6⟩

/-- C4, at a ready queue with room for one record and a link with two completed superpages:
one is harvested, the other stays at the head of the link queue. -/
theorem fillSuperpages_never_drops_witness :
    queuesSized backPressureChannel ∧
      fillSuperpages (sampleBar 2 0) backPressureChannel = Result.ok () backPressureAfter ∧
      backPressureAfter.mReadyQueue.records.length + inFlight backPressureAfter.mLinks =
        backPressureChannel.mReadyQueue.records.length + inFlight backPressureChannel.mLinks ∧
      backPressureAfter.mReadyQueue.records.length ≤ backPressureChannel.mReadyQueueCapacity :=
  ⟨by decide, rfl,
    (fillSuperpages_never_drops (sampleBar 2 0) backPressureChannel backPressureAfter
      (by decide) rfl).1,
    (fillSuperpages_never_drops (sampleBar 2 0) backPressureChannel backPressureAfter
      (by decide) rfl).2.1⟩

/-! ## Where the records of the queues come from -/

theorem getSuperpage_same (c c' : CruDmaChannel) (h : (getSuperpage c).channel? = some c') :
    c' = c := by
  unfold getSuperpage at h
  cases hf : c.mReadyQueue.frontPtr with
  | none =>
    rw [hf] at h
    simp only [Result.channel?, Option.some.injEq] at h
    exact h.symm
  | some s =>
    rw [hf] at h
    simp only [Result.channel?, Option.some.injEq] at h
    exact h.symm

/-- C6 fails on the code: five superpages are pushed to a started channel (one link,
`C_link = 2`, `C_ready = 4`) and four of them harvested without a pop, so the ready queue is
full while the fifth is in flight; `stopDma` then returns with the link queue empty and the
ready queue as it was: the fifth superpage (offset 131072) is in no queue. -/
theorem stopDma_drops_when_ready_full :
    runCalls
        [pushCall 0, pushCall 32768, Call.fillSuperpages (sampleBar 2 0), pushCall 65536,
          pushCall 98304, Call.fillSuperpages (sampleBar 4 0), pushCall 131072]
        oneLinkChannel = some fullReadyChannel ∧
      stopDma (sampleBar 4 0) fullReadyChannel = Result.ok () fullReadyStopped ∧
      inFlight fullReadyChannel.mLinks + fullReadyChannel.mReadyQueue.sizeGuess = 5 ∧
      inFlight fullReadyStopped.mLinks + fullReadyStopped.mReadyQueue.sizeGuess = 4 ∧
      fullReadyStopped.mReadyQueue = fullReadyChannel.mReadyQueue ∧
      ∀ r ∈ fullReadyStopped.mReadyQueue.records, r.offset ≠ 131072 :=
  ⟨rfl, rfl, rfl, rfl, rfl, by decide⟩

/-! ## stopDma -/

/-- Every way `stopDma` can return. -/
theorem stopDma_ok (bar : CruBar) (c c' : CruDmaChannel)
    (h : stopDma bar c = Result.ok () c') :
    (c.mDmaState ≠ DmaState.STARTED ∧ c' = { c with mDmaState := DmaState.STOPPED }) ∨
      (c.mDmaState = DmaState.STARTED ∧
        ∃ c1 c2,
          fillSuperpages bar (issue (setBufferNonReady c) [BarOp.disableDataTaking]) =
            Result.ok () c1 ∧
          reclaimSuperpages bar c1 = Result.ok () c2 ∧
          c' = { c2 with mDmaState := DmaState.STOPPED }) := by
  unfold stopDma at h
  cases hs : c.mDmaState with
  | UNKNOWN =>
    rw [hs] at h
    simp only [Result.ok.injEq, true_and] at h
    exact Or.inl ⟨by simp, h.symm⟩
  | STOPPED =>
    rw [hs] at h
    simp only [Result.ok.injEq, true_and] at h
    exact Or.inl ⟨by simp, h.symm⟩
  | STARTED =>
    rw [hs] at h
    dsimp only at h
    right
    refine ⟨rfl, ?_⟩
    unfold deviceStopDma at h
    cases hf : fillSuperpages bar (issue (setBufferNonReady c) [BarOp.disableDataTaking]) with
    | ok v c1 =>
      rw [hf] at h
      dsimp only at h
      obtain ⟨c2, he, _⟩ := reclaimSuperpages_keeps bar c1
      rw [he] at h
      simp only [Result.ok.injEq, true_and] at h
      exact ⟨c1, c2, rfl, he, h.symm⟩
    | thrown e c1 =>
      rw [hf] at h
      simp at h
    | undefined =>
      rw [hf] at h
      simp at h

/-- The invariant `idleEmpty` goes through every call. -/
theorem idleEmpty_after (call : Call) (c c' : CruDmaChannel) (hi : idleEmpty c)
    (h : call.after c = some c') : idleEmpty c' := by
  cases call with
  | startDma bar =>
    simp only [Call.after, startDma_eq, Result.channel?, Option.some.injEq] at h
    subst h
    intro hs
    exact absurd rfl hs
  | pushSuperpage m buffer s =>
    simp only [Call.after] at h
    cases hp : pushSuperpage m buffer c s with
    | ok b c1 =>
      rw [hp] at h
      simp only [Result.channel?, Option.some.injEq] at h
      subst h
      rcases pushSuperpage_ok _ _ _ _ _ _ hp with ⟨_, rfl, _⟩ | ⟨_, hst, _, _, _, link, _, _, rfl⟩
      · exact hi
      · intro hs
        exact absurd hst hs
    | thrown e c1 =>
      rw [hp] at h
      simp only [Result.channel?, Option.some.injEq] at h
      subst h
      rw [pushSuperpage_thrown _ _ _ _ _ _ hp]
      exact hi
    | undefined =>
      rw [hp] at h
      simp [Result.channel?] at h
  | fillSuperpages bar =>
    obtain ⟨h1, _, _, _, _, _, h7, _⟩ := fillSuperpages_keeps bar c c' h
    intro hs l hl
    rw [h7] at hs
    obtain ⟨x, hx, hsub⟩ := linksMoved_mem h1 l hl
    have := hi hs x hx
    rw [this] at hsub
    exact List.length_eq_zero.mp (Nat.le_zero.mp hsub)
  | getSuperpage =>
    rw [getSuperpage_same c c' h]
    exact hi
  | popSuperpage =>
    simp only [Call.after, popSuperpage] at h
    cases hf : c.mReadyQueue.frontPtr with
    | none =>
      rw [hf] at h
      simp only [Result.channel?, Option.some.injEq] at h
      subst h
      exact hi
    | some s =>
      rw [hf] at h
      simp only [Result.channel?, Option.some.injEq] at h
      subst h
      exact hi
  | stopDma bar =>
    simp only [Call.after] at h
    cases hp : stopDma bar c with
    | ok v c1 =>
      rw [hp] at h
      simp only [Result.channel?, Option.some.injEq] at h
      subst h
      rcases stopDma_ok bar c _ hp with ⟨hs, rfl⟩ | ⟨_, c1, c2, _, he, rfl⟩
      · intro _
        exact hi hs
      · intro _
        obtain ⟨c3, he3, _, hempty, _⟩ := reclaimSuperpages_keeps bar c1
        rw [he] at he3
        simp only [Result.ok.injEq, true_and] at he3
        subst he3
        exact hempty
    | thrown e c1 =>
      rw [hp] at h
      simp only [Result.channel?, Option.some.injEq] at h
      subst h
      unfold stopDma at hp
      cases hs : c.mDmaState with
      | UNKNOWN => rw [hs] at hp; simp at hp
      | STOPPED => rw [hs] at hp; simp at hp
      | STARTED =>
        rw [hs] at hp
        dsimp only at hp
        unfold deviceStopDma at hp
        cases hf : fillSuperpages bar (issue (setBufferNonReady c) [BarOp.disableDataTaking]) with
        | ok v c1 =>
          rw [hf] at hp
          dsimp only at hp
          obtain ⟨c2, he, _⟩ := reclaimSuperpages_keeps bar c1
          rw [he] at hp
          simp at hp
        | thrown e1 c1 =>
          rw [hf] at hp
          simp only [Result.thrown.injEq] at hp
          obtain ⟨_, _, _, _, _, _, h7, _⟩ := fillSuperpages_keeps bar _ c1 (by rw [hf]; rfl)
          intro hne
          rw [← hp.2, h7] at hne
          exact absurd hs hne
        | undefined =>
          rw [hf] at hp
          simp at hp
    | undefined =>
      rw [hp] at h
      simp [Result.channel?] at h

/-- C7 (after `stopDma`): on a channel whose queues are the constructor's and whose link
queues are empty whenever it is not started (`idleEmpty`, which holds at construction and is
kept by every call, `idleEmpty_after`), when `stopDma` returns every link queue is empty, the
ready queue holds at most `C_ready` records and the state is `STOPPED`. -/
theorem stopDma_postcondition (bar : CruBar) (c c' : CruDmaChannel) (hq : queuesSized c)
    (hi : idleEmpty c) (h : stopDma bar c = Result.ok () c') :
    (∀ l ∈ c'.mLinks, l.queue.records = []) ∧
      c'.mReadyQueue.sizeGuess ≤ c'.mReadyQueueCapacity ∧
      c'.mDmaState = DmaState.STOPPED := by
  have hk := stopDma_kept bar c c' (by rw [h]; rfl)
  have hq' := hk.2.2.2.1 hq
  refine ⟨?_, hq'.2.2, ?_⟩
  · rcases stopDma_ok bar c c' h with ⟨hs, rfl⟩ | ⟨_, c1, c2, _, he, rfl⟩
    · exact hi hs
    · obtain ⟨c3, he3, _, hempty, _⟩ := reclaimSuperpages_keeps bar c1
      rw [he] at he3
      simp only [Result.ok.injEq, true_and] at he3
      subst he3
      exact hempty
  · rcases stopDma_ok bar c c' h with ⟨_, rfl⟩ | ⟨_, c1, c2, _, _, rfl⟩ <;> rfl

/-- C7, at a started channel with two superpages in flight, one of them completed. -/
theorem stopDma_postcondition_witness :
    queuesSized twoInFlight ∧ idleEmpty twoInFlight ∧
      stopDma (sampleBar 1 0) twoInFlight = Result.ok () twoInFlightStopped ∧
      (∀ l ∈ twoInFlightStopped.mLinks, l.queue.records = []) ∧
      twoInFlightStopped.mReadyQueue.sizeGuess ≤ twoInFlightStopped.mReadyQueueCapacity ∧
      twoInFlightStopped.mDmaState = DmaState.STOPPED :=
  ⟨by decide, by decide, rfl,
    stopDma_postcondition (sampleBar 1 0) twoInFlight twoInFlightStopped (by decide)
      (by decide) rfl⟩

/-! ## startDma -/

/-- Outside the state `STOPPED`, `startDma` only sets the state. -/
theorem startDma_not_stopped (bar : CruBar) (c : CruDmaChannel)
    (hs : c.mDmaState ≠ DmaState.STOPPED) :
    startDma bar c = Result.ok () { c with mDmaState := DmaState.STARTED } := by
  rw [startDma_eq, if_neg hs]

/-- On a stopped channel `startDma` returns and afterwards every link queue is empty, the
ready queue is empty, every `superpageCounter` is 0,
`linkQueuesTotalAvailable = C_link * |links|` (so `isTransferQueueEmpty()` is true), the links
are the same, and the state is `STARTED`. -/
theorem startDma_drains (bar : CruBar) (c : CruDmaChannel)
    (hs : c.mDmaState = DmaState.STOPPED) :
    ∃ c', startDma bar c = Result.ok () c' ∧
      (∀ l ∈ c'.mLinks, l.queue.records = [] ∧ l.superpageCounter = 0) ∧
      c'.mReadyQueue.records = [] ∧
      c'.mLinkQueuesTotalAvailable =
        ((c'.mLinkQueueCapacity * c'.mLinks.length : Nat) : Int) ∧
      isTransferQueueEmpty c' = true ∧
      c'.mLinks.map Link.id = c.mLinks.map Link.id ∧
      c'.mLinkQueueCapacity = c.mLinkQueueCapacity ∧
      c'.mDmaState = DmaState.STARTED := by
  refine ⟨_, startDma_eq bar c, ?_⟩
  obtain ⟨h1, h2, h3, h4, _, h6⟩ := startDma_stopped bar c _ hs (by rw [startDma_eq]; rfl)
  have hlen : (List.map initLink c.mLinks).length = c.mLinks.length := List.length_map _ _
  refine ⟨?_, ?_, ?_, ?_, ?_, h4, h6⟩
  · intro l hl
    rw [h1] at hl
    obtain ⟨x, _, rfl⟩ := List.mem_map.mp hl
    exact ⟨by simp [initLink, SuperpageQueue.drain_records], rfl⟩
  · rw [h2]; exact SuperpageQueue.drain_records _
  · rw [h3, h4, h1, hlen]
  · unfold isTransferQueueEmpty
    rw [h3, h4, h1, hlen]
    simp
  · rw [h1, List.map_map]
    rfl

/-- In the state `UNKNOWN`, which the constructor does not leave and no call enters
(`reachable_state`), `startDma` only sets the state; the ready queue keeps its record and the
link its counter. -/
theorem startDma_unknown_state_keeps_queues :
    unknownChannel.mDmaState ≠ DmaState.STARTED ∧
      startDma (sampleBar 0 0) unknownChannel =
        Result.ok () { unknownChannel with mDmaState := DmaState.STARTED } ∧
      ({ unknownChannel with mDmaState := DmaState.STARTED } : CruDmaChannel).mReadyQueue.records
        = [sampleCompletion 0] ∧
      ({ unknownChannel with mDmaState := DmaState.STARTED } : CruDmaChannel).mLinks
        = [sampleLink 0 3 []] :=
  ⟨by decide, rfl, rfl, rfl⟩

/-! ## Superpage validation -/

/-- The validation rejects what it is meant to reject as long as `offset + size` does not wrap
around: on a started channel `pushSuperpage` throws (and changes nothing) for a superpage of
size 0, of a size that is no multiple of 32 KiB, with a misaligned offset, or with
`offset + size` beyond the buffer and below `2 ^ 64`. -/
theorem pushSuperpage_rejects (linkIndexMax : Nat) (buffer : DmaBufferProvider)
    (c : CruDmaChannel) (superpage : Superpage) (hs : c.mDmaState = DmaState.STARTED)
    (hbad : superpage.size = 0 ∨ superpage.size % (32 * 1024) ≠ 0 ∨
      (superpage.offset + superpage.size < 2 ^ 64 ∧
        superpage.offset + superpage.size > buffer.getSize) ∨
      superpage.offset % 4 ≠ 0) :
    ∃ e, pushSuperpage linkIndexMax buffer c superpage = Result.thrown e c := by
  have hcheck : ∃ e, checkSuperpage buffer superpage = some e := by
    unfold checkSuperpage isMultiple wrapU64 Superpage.getSize Superpage.getOffset
    by_cases h1 : superpage.size = 0
    · exact ⟨_, if_pos h1⟩
    · rw [if_neg h1]
      by_cases h2 : superpage.size % (32 * 1024) = 0
      · have h2' : (!(superpage.size % (32 * 1024) == 0)) = false := by simp [h2]
        rw [h2']
        simp only [Bool.false_eq_true, if_false]
        by_cases h3 : (superpage.offset + superpage.size) % 2 ^ 64 > buffer.getSize
        · exact ⟨_, if_pos h3⟩
        · rw [if_neg h3]
          by_cases h4 : superpage.offset % 4 ≠ 0
          · exact ⟨_, if_pos h4⟩
          · rcases hbad with hb | hb | ⟨hb1, hb2⟩ | hb
            · exact absurd hb h1
            · exact absurd h2 hb
            · rw [Nat.mod_eq_of_lt hb1] at h3
              exact absurd hb2 h3
            · exact absurd hb h4
      · have h2' : (!(superpage.size % (32 * 1024) == 0)) = true := by simp [h2]
        rw [h2']
        exact ⟨_, if_pos rfl⟩
  obtain ⟨e, he⟩ := hcheck
  refine ⟨e, ?_⟩
  unfold pushSuperpage
  rw [if_neg (by simp [hs]), he]

/-- C9 fails on the code: the superpage with `offset = 2 ^ 64 - 32768` and `size = 32768`
(both `size_t` values) has `offset + size = 2 ^ 64`, far beyond the buffer of 1 MiB, but the
`size_t` sum is 0: `checkSuperpage` passes it and `pushSuperpage` accepts it and sends its
descriptor to the card. -/
theorem checkSuperpage_accepts_wrapped_range :
    wrappedSuperpage.offset < 2 ^ 64 ∧ wrappedSuperpage.size < 2 ^ 64 ∧
      wrappedSuperpage.offset + wrappedSuperpage.size > sampleBuffer.getSize ∧
      checkSuperpage sampleBuffer wrappedSuperpage = none ∧
      pushSuperpage 4294967295 sampleBuffer oneLinkChannel wrappedSuperpage =
        Result.ok true
          (pushedChannel 4294967295 sampleBuffer oneLinkChannel wrappedSuperpage
            (sampleLink 0 0 [])) ∧
      (pushedChannel 4294967295 sampleBuffer oneLinkChannel wrappedSuperpage
          (sampleLink 0 0 [])).barLog =
        [BarOp.pushSuperpageDescriptor 0 4 (4294967296 + (2 ^ 64 - 32768))] :=
  ⟨by decide, by decide, by decide, by decide, by rfl, by rfl⟩

/-- C10 (push atomicity on error): whenever `pushSuperpage` throws, the exception is one of
the four validation errors, "transfer queue full" or "link queue full", and the channel state
at the throw is the state before the call: link queues, ready queue, counters,
`mLinkQueuesTotalAvailable`, `mFirstSPPushed` and the commands sent to the card (`barLog`)
are unchanged. -/
theorem pushSuperpage_atomic_on_error (linkIndexMax : Nat) (buffer : DmaBufferProvider)
    (c c' : CruDmaChannel) (superpage : Superpage) (e : Exception)
    (h : pushSuperpage linkIndexMax buffer c superpage = Result.thrown e c') :
    c' = c ∧
      (e = Exception.superpageSizeZero ∨ e = Exception.superpageSizeNotMultiple ∨
        e = Exception.superpageOutOfRange ∨ e = Exception.superpageOffsetNotAligned ∨
        e = Exception.transferQueueFull ∨ e = Exception.linkQueueFull) := by
  refine ⟨pushSuperpage_thrown _ _ _ _ _ _ h, ?_⟩
  unfold pushSuperpage at h
  split at h
  · simp at h
  · split at h
    · rename_i e1 hc
      simp only [Result.thrown.injEq] at h
      rw [← h.1]
      unfold checkSuperpage at hc
      split at hc
      · simp only [Option.some.injEq] at hc; exact Or.inl hc.symm
      · split at hc
        · simp only [Option.some.injEq] at hc; exact Or.inr (Or.inl hc.symm)
        · split at hc
          · simp only [Option.some.injEq] at hc; exact Or.inr (Or.inr (Or.inl hc.symm))
          · split at hc
            · simp only [Option.some.injEq] at hc
              exact Or.inr (Or.inr (Or.inr (Or.inl hc.symm)))
            · simp at hc
    · split at h
      · simp only [Result.thrown.injEq] at h
        exact Or.inr (Or.inr (Or.inr (Or.inr (Or.inl h.1.symm))))
      · split at h
        · simp at h
        · split at h
          · simp only [Result.thrown.injEq] at h
            exact Or.inr (Or.inr (Or.inr (Or.inr (Or.inr h.1.symm))))
          · split at h <;> simp at h

/-- C10, at a push to a started channel whose only link queue is full. -/
theorem pushSuperpage_atomic_on_error_witness :
    pushSuperpage 4294967295 sampleBuffer twoInFlight (sampleSuperpage 65536 32768) =
        Result.thrown Exception.transferQueueFull twoInFlight ∧
      twoInFlight = twoInFlight ∧
      (Exception.transferQueueFull = Exception.superpageSizeZero ∨
        Exception.transferQueueFull = Exception.superpageSizeNotMultiple ∨
        Exception.transferQueueFull = Exception.superpageOutOfRange ∨
        Exception.transferQueueFull = Exception.superpageOffsetNotAligned ∨
        Exception.transferQueueFull = Exception.transferQueueFull ∨
        Exception.transferQueueFull = Exception.linkQueueFull) :=
  ⟨rfl, pushSuperpage_atomic_on_error 4294967295 sampleBuffer twoInFlight twoInFlight
    (sampleSuperpage 65536 32768) Exception.transferQueueFull rfl⟩

/-! ## Full queues -/

/-- The link `getNextLinkIndex` selects, for a non-empty list of links whose queue lengths are
below `SIZE_MAX`: it exists, no queue is shorter, and the queues before it are longer. -/
theorem getNextLinkIndex_min (linkIndexMax : Nat) (links : List Link) (hne : links ≠ [])
    (hb : ∀ l ∈ links, l.queue.sizeGuess < SIZE_MAX) :
    ∃ link, links.get? (getNextLinkIndex linkIndexMax links) = some link ∧
      (∀ x ∈ links, link.queue.sizeGuess ≤ x.queue.sizeGuess) ∧
      ∀ j x, j < getNextLinkIndex linkIndexMax links → links.get? j = some x →
        link.queue.sizeGuess < x.queue.sizeGuess := by
  rcases getNextLinkIndexLoop_spec links 0 linkIndexMax SIZE_MAX with
    ⟨_, h2⟩ | ⟨k, l, h1, h2, _, h4, h5⟩
  · cases links with
    | nil => exact absurd rfl hne
    | cons a rest =>
      have h3 := h2 a (List.mem_cons_self _ _)
      have h4 := hb a (List.mem_cons_self _ _)
      omega
  · have hk : getNextLinkIndex linkIndexMax links = k := by
      unfold getNextLinkIndex; rw [h2]; omega
    rw [hk]
    exact ⟨l, h1, h4, h5⟩

/-- With queues within their capacity, the free slots are none exactly when every queue is
full. -/
theorem freeSlots_eq_zero_iff (cap : Nat) (links : List Link)
    (hs : ∀ l ∈ links, l.queue.sizeGuess ≤ cap) :
    freeSlots cap links = 0 ↔ ∀ l ∈ links, l.queue.sizeGuess = cap := by
  induction links with
  | nil => simp [freeSlots]
  | cons a rest ih =>
    have h1 : freeSlots cap (a :: rest) =
        ((cap : Int) - (a.queue.sizeGuess : Int)) + freeSlots cap rest := by
      simp [freeSlots]
    have ha := hs a (List.mem_cons_self _ _)
    have hrest : ∀ l ∈ rest, l.queue.sizeGuess ≤ cap :=
      fun l hl => hs l (List.mem_cons_of_mem _ hl)
    have hnn : 0 ≤ freeSlots cap rest := by
      rw [freeSlots_eq]
      have : (inFlight rest : Int) ≤ (cap : Int) * (rest.length : Int) := by
        clear ih h1
        induction rest with
        | nil => simp [inFlight]
        | cons b bs ihb =>
          have hb := hrest b (List.mem_cons_self _ _)
          have := ihb (fun l hl => hs l (by
            rcases List.mem_cons.mp hl with rfl | hl
            · exact List.mem_cons_self _ _
            · exact List.mem_cons_of_mem _ (List.mem_cons_of_mem _ hl)))
            (fun l hl => hrest l (List.mem_cons_of_mem _ hl))
          rw [inFlight_cons]
          simp only [SuperpageQueue.sizeGuess] at hb
          simp only [List.length_cons]
          push_cast
          nlinarith
      linarith
    rw [h1]
    have ih' := ih hrest
    constructor
    · intro h0
      have h2 : (a.queue.sizeGuess : Int) = cap := by omega
      have h3 : freeSlots cap rest = 0 := by omega
      intro l hl
      rcases List.mem_cons.mp hl with rfl | hl
      · exact_mod_cast h2
      · exact ih'.mp h3 l hl
    · intro hall
      have h2 := hall a (List.mem_cons_self _ _)
      have h3 := ih'.mpr (fun l hl => hall l (List.mem_cons_of_mem _ hl))
      rw [h3, h2]
      simp

/-- The outcome of `pushSuperpage` once every test has passed. -/
theorem pushSuperpage_of_slot (linkIndexMax : Nat) (buffer : DmaBufferProvider)
    (c : CruDmaChannel) (superpage : Superpage) (link : Link)
    (hs : c.mDmaState = DmaState.STARTED) (hv : checkSuperpage buffer superpage = none)
    (ht : c.mLinkQueuesTotalAvailable ≠ 0)
    (hl : c.mLinks.get? (getNextLinkIndex linkIndexMax c.mLinks) = some link)
    (hlt : link.queue.sizeGuess < c.mLinkQueueCapacity) :
    pushSuperpage linkIndexMax buffer c superpage =
      if c.mDmaPageSize = 0 then Result.undefined
      else Result.ok true (pushedChannel linkIndexMax buffer c superpage link) := by
  unfold pushSuperpage
  rw [if_neg (by simp [hs]), hv]
  dsimp only
  rw [if_neg ht, hl]
  dsimp only
  rw [if_neg (by omega)]
  rfl

/-- The outcome of `pushSuperpage` with no slot left. -/
theorem pushSuperpage_of_full (linkIndexMax : Nat) (buffer : DmaBufferProvider)
    (c : CruDmaChannel) (superpage : Superpage)
    (hs : c.mDmaState = DmaState.STARTED) (hv : checkSuperpage buffer superpage = none)
    (ht : c.mLinkQueuesTotalAvailable = 0) :
    pushSuperpage linkIndexMax buffer c superpage =
      Result.thrown Exception.transferQueueFull c := by
  unfold pushSuperpage
  rw [if_neg (by simp [hs]), hv]
  dsimp only
  rw [if_pos ht]

/-- The link a push goes to when some link has a free slot: it has a free slot itself. -/
theorem selected_has_slot (linkIndexMax : Nat) (c : CruDmaChannel) (hq : queuesSized c)
    (hcap : c.mLinkQueueCapacity < SIZE_MAX)
    (hfree : ∃ l ∈ c.mLinks, l.queue.sizeGuess < c.mLinkQueueCapacity) :
    ∃ link, c.mLinks.get? (getNextLinkIndex linkIndexMax c.mLinks) = some link ∧
      link.queue.sizeGuess < c.mLinkQueueCapacity ∧
      (∀ x ∈ c.mLinks, link.queue.sizeGuess ≤ x.queue.sizeGuess) ∧
      ∀ j x, j < getNextLinkIndex linkIndexMax c.mLinks → c.mLinks.get? j = some x →
        link.queue.sizeGuess < x.queue.sizeGuess := by
  obtain ⟨l, hl, hlt⟩ := hfree
  have hne : c.mLinks ≠ [] := by
    intro h
    rw [h] at hl
    simp at hl
  have hb : ∀ x ∈ c.mLinks, x.queue.sizeGuess < SIZE_MAX := by
    intro x hx
    have := (hq.1 x hx).2
    simp only [SuperpageQueue.sizeGuess]
    omega
  obtain ⟨link, h1, h2, h3⟩ := getNextLinkIndex_min linkIndexMax c.mLinks hne hb
  exact ⟨link, h1, Nat.lt_of_le_of_lt (h2 l hl) hlt, h2, h3⟩

/-- C11 (queue full): on a started channel whose queues are the constructor's and which
satisfies the aggregate-counter invariant, for every superpage that passes validation,
`pushSuperpage` throws exactly when every link queue is full; every throw is "transfer queue
full" (never "link queue full") and changes nothing; when some link has a free slot, the link
selected has one, and the push (the DMA page size being non-zero, as the division of the size
by it requires) returns `true` with the superpage appended to that link's queue; and when
only the link at index `i` has a free slot, index `i` is selected. -/
theorem pushSuperpage_raises_iff_full (linkIndexMax : Nat) (buffer : DmaBufferProvider)
    (c : CruDmaChannel) (superpage : Superpage) (hs : c.mDmaState = DmaState.STARTED)
    (hq : queuesSized c) (hinv : counterInvariant c) (hcap : c.mLinkQueueCapacity < SIZE_MAX)
    (hv : checkSuperpage buffer superpage = none) :
    ((∃ e c', pushSuperpage linkIndexMax buffer c superpage = Result.thrown e c') ↔
        ∀ l ∈ c.mLinks, l.queue.sizeGuess = c.mLinkQueueCapacity) ∧
      (∀ e c', pushSuperpage linkIndexMax buffer c superpage = Result.thrown e c' →
        e = Exception.transferQueueFull ∧ c' = c) ∧
      ((∃ l ∈ c.mLinks, l.queue.sizeGuess < c.mLinkQueueCapacity) →
        ∃ link, c.mLinks.get? (getNextLinkIndex linkIndexMax c.mLinks) = some link ∧
          link.queue.sizeGuess < c.mLinkQueueCapacity ∧
          (c.mDmaPageSize ≠ 0 →
            pushSuperpage linkIndexMax buffer c superpage =
              Result.ok true (pushedChannel linkIndexMax buffer c superpage link)) ∧
          (pushedChannel linkIndexMax buffer c superpage link).mLinks =
            c.mLinks.set (getNextLinkIndex linkIndexMax c.mLinks)
              { link with queue := { link.queue with records := link.queue.records ++ [superpage] } }) ∧
      (∀ i l0, c.mLinks.get? i = some l0 → l0.queue.sizeGuess < c.mLinkQueueCapacity →
        (∀ j l, j ≠ i → c.mLinks.get? j = some l → l.queue.sizeGuess = c.mLinkQueueCapacity) →
        getNextLinkIndex linkIndexMax c.mLinks = i) := by
  have hle : ∀ l ∈ c.mLinks, l.queue.sizeGuess ≤ c.mLinkQueueCapacity :=
    fun l hl => (hq.1 l hl).2
  have hzero := freeSlots_eq_zero_iff c.mLinkQueueCapacity c.mLinks hle
  unfold counterInvariant at hinv
  rw [← hinv] at hzero
  have hfull : (∀ l ∈ c.mLinks, l.queue.sizeGuess = c.mLinkQueueCapacity) →
      pushSuperpage linkIndexMax buffer c superpage =
        Result.thrown Exception.transferQueueFull c :=
    fun h => pushSuperpage_of_full _ _ _ _ hs hv (hzero.mpr h)
  have hfree : (∃ l ∈ c.mLinks, l.queue.sizeGuess < c.mLinkQueueCapacity) →
      ∃ link, c.mLinks.get? (getNextLinkIndex linkIndexMax c.mLinks) = some link ∧
        link.queue.sizeGuess < c.mLinkQueueCapacity ∧
        pushSuperpage linkIndexMax buffer c superpage =
          if c.mDmaPageSize = 0 then Result.undefined
          else Result.ok true (pushedChannel linkIndexMax buffer c superpage link) := by
    intro hex
    obtain ⟨link, h1, h2, _, _⟩ := selected_has_slot linkIndexMax c hq hcap hex
    have ht : c.mLinkQueuesTotalAvailable ≠ 0 := by
      intro h0
      have := hzero.mp h0 link (mem_of_get? h1)
      omega
    exact ⟨link, h1, h2, pushSuperpage_of_slot _ _ _ _ _ hs hv ht h1 h2⟩
  have hcases : (∀ l ∈ c.mLinks, l.queue.sizeGuess = c.mLinkQueueCapacity) ∨
      ∃ l ∈ c.mLinks, l.queue.sizeGuess < c.mLinkQueueCapacity := by
    by_cases h : ∀ l ∈ c.mLinks, l.queue.sizeGuess = c.mLinkQueueCapacity
    · exact Or.inl h
    · right
      push_neg at h
      obtain ⟨l, hl, hne⟩ := h
      exact ⟨l, hl, Nat.lt_of_le_of_ne (hle l hl) hne⟩
  have hnothrow : (∃ l ∈ c.mLinks, l.queue.sizeGuess < c.mLinkQueueCapacity) →
      ∀ e c', pushSuperpage linkIndexMax buffer c superpage ≠ Result.thrown e c' := by
    intro hex e c' hthrown
    obtain ⟨link, _, _, hp⟩ := hfree hex
    rw [hp] at hthrown
    split at hthrown <;> simp at hthrown
  refine ⟨⟨?_, fun h => ⟨_, _, hfull h⟩⟩, ?_, ?_, ?_⟩
  · rintro ⟨e, c', hthrown⟩
    rcases hcases with h | h
    · exact h
    · exact absurd hthrown (hnothrow h e c')
  · intro e c' hthrown
    rcases hcases with h | h
    · rw [hfull h] at hthrown
      simp only [Result.thrown.injEq] at hthrown
      exact ⟨hthrown.1.symm, hthrown.2.symm⟩
    · exact absurd hthrown (hnothrow h e c')
  · intro hex
    obtain ⟨link, h1, h2, hp⟩ := hfree hex
    refine ⟨link, h1, h2, fun hpage => by rw [hp, if_neg hpage], ?_⟩
    have hsz := (hq.1 link (mem_of_get? h1)).1
    simp only [pushedChannel, pushSuperpageToLink]
    rw [SuperpageQueue.write_of_lt _ _ _ hsz h2]
  · intro i l0 hi hlt hothers
    obtain ⟨link, h1, h2, _, _⟩ := selected_has_slot linkIndexMax c hq hcap
      ⟨l0, mem_of_get? hi, hlt⟩
    by_contra hne
    have := hothers _ link hne h1
    omega

/-- C11, at a channel with two links of which only the second has a free slot. -/
theorem pushSuperpage_raises_iff_full_witness :
    oneSlotChannel.mDmaState = DmaState.STARTED ∧ queuesSized oneSlotChannel ∧
      counterInvariant oneSlotChannel ∧
      checkSuperpage sampleBuffer (sampleSuperpage 98304 32768) = none ∧
      getNextLinkIndex 4294967295 oneSlotChannel.mLinks = 1 :=
  ⟨rfl, by decide, by decide, by decide,
    (pushSuperpage_raises_iff_full 4294967295 sampleBuffer oneSlotChannel
      (sampleSuperpage 98304 32768) rfl (by decide) (by decide) (by decide)
      (by decide)).2.2.2 1 (sampleLink 1 0 [sampleSuperpage 65536 32768]) rfl (by decide)
      (by
        intro j l hj hl
        match j, hj, hl with
        | 0, _, hl =>
          simp only [oneSlotChannel, sampleChannel, List.get?_cons_zero,
            Option.some.injEq] at hl
          subst hl
          rfl
        | 1, hj, _ => exact absurd rfl hj
        | n + 2, _, hl => simp [oneSlotChannel, sampleChannel] at hl)⟩

/-- C12 (push when not started): on a channel whose state is not `STARTED`, `pushSuperpage`
returns `false` for every superpage, valid or not; it throws nothing and the channel (queues,
counters, flags, and the commands sent to the card) is as before. -/
theorem pushSuperpage_not_started (linkIndexMax : Nat) (buffer : DmaBufferProvider)
    (c : CruDmaChannel) (superpage : Superpage) (hs : c.mDmaState ≠ DmaState.STARTED) :
    pushSuperpage linkIndexMax buffer c superpage = Result.ok false c := by
  unfold pushSuperpage
  rw [if_pos hs]

/-- C12, at a stopped channel and a superpage of size 0. -/
theorem pushSuperpage_not_started_witness :
    twoInFlightStopped.mDmaState ≠ DmaState.STARTED ∧
      checkSuperpage sampleBuffer (sampleSuperpage 0 0) ≠ none ∧
      pushSuperpage 4294967295 sampleBuffer twoInFlightStopped (sampleSuperpage 0 0) =
        Result.ok false twoInFlightStopped :=
  ⟨by decide, by decide,
    pushSuperpage_not_started 4294967295 sampleBuffer twoInFlightStopped (sampleSuperpage 0 0)
      (by decide)⟩

/-- C13 fails on the code: the superpage with `offset = 2 ^ 64 - 32768` and `size = 32768` is
accepted by `pushSuperpage`, completed by the card, harvested and popped; the popped superpage
has `offset + size = 2 ^ 64`, which exceeds the buffer size of 1 MiB (its size is a multiple
of 32 KiB and its offset a multiple of 4). -/
theorem popped_superpage_out_of_range :
    runCalls
        [Call.pushSuperpage 4294967295 sampleBuffer wrappedSuperpage,
          Call.fillSuperpages (sampleBar 1 0)]
        oneLinkChannel = some wrappedFilled ∧
      (∃ c', popSuperpage wrappedFilled =
        Result.ok { wrappedSuperpage with received := 32768, ready := true } c') ∧
      ¬ (wrappedSuperpage.offset + wrappedSuperpage.size ≤ sampleBuffer.getSize) ∧
      wrappedSuperpage.size % (32 * 1024) = 0 ∧ wrappedSuperpage.offset % 4 = 0 :=
  ⟨rfl, ⟨_, rfl⟩, by decide, by decide, by decide⟩

/-! ## One link: pushes, harvests and pops in a row -/

theorem getNextLinkIndex_single (linkIndexMax : Nat) (l : Link)
    (h : l.queue.sizeGuess < SIZE_MAX) : getNextLinkIndex linkIndexMax [l] = 0 := by
  simp [getNextLinkIndex, getNextLinkIndexLoop, h]

/-- A run of accepted pushes to a channel with one link appends the superpages, in order, to
the queue of the link. -/
theorem pushAll_single (linkIndexMax : Nat) (buffer : DmaBufferProvider)
    (sps : List Superpage) (c : CruDmaChannel) (l : Link)
    (hs : c.mDmaState = DmaState.STARTED) (hl : c.mLinks = [l]) (hq : queuesSized c)
    (hinv : counterInvariant c) (hcap : c.mLinkQueueCapacity < SIZE_MAX)
    (hpage : c.mDmaPageSize ≠ 0)
    (hroom : l.queue.records.length + sps.length ≤ c.mLinkQueueCapacity)
    (hv : ∀ s ∈ sps, checkSuperpage buffer s = none) :
    ∃ c', pushAll linkIndexMax buffer sps c = some c' ∧
      c'.mLinks = [{ l with queue := { l.queue with records := l.queue.records ++ sps } }] ∧
      c'.mReadyQueue = c.mReadyQueue ∧ c'.mReadyQueueCapacity = c.mReadyQueueCapacity ∧
      c'.mLinkQueueCapacity = c.mLinkQueueCapacity ∧ c'.mDmaState = DmaState.STARTED := by
  induction sps generalizing c l with
  | nil => exact ⟨c, rfl, by simp [hl], rfl, rfl, rfl, hs⟩
  | cons s rest ih =>
    simp only [List.length_cons] at hroom
    have hlt : l.queue.sizeGuess < c.mLinkQueueCapacity := by
      simp only [SuperpageQueue.sizeGuess]; omega
    have hidx : getNextLinkIndex linkIndexMax c.mLinks = 0 := by
      rw [hl]; exact getNextLinkIndex_single _ _ (by omega)
    have hget : c.mLinks.get? (getNextLinkIndex linkIndexMax c.mLinks) = some l := by
      rw [hidx, hl]; rfl
    have ht : c.mLinkQueuesTotalAvailable ≠ 0 := by
      unfold counterInvariant at hinv
      rw [hinv, hl]
      simp only [freeSlots, List.map_cons, List.map_nil, List.sum_cons, List.sum_nil, add_zero]
      omega
    have hp := pushSuperpage_of_slot linkIndexMax buffer c s l hs
      (hv s (List.mem_cons_self _ _)) ht hget hlt
    rw [if_neg hpage] at hp
    have hk := pushedChannel_kept linkIndexMax buffer c s l hget
      (by simpa [SuperpageQueue.sizeGuess] using hlt)
    have hsz := (hq.1 l (by rw [hl]; exact List.mem_cons_self _ _)).1
    have hlinks : (pushedChannel linkIndexMax buffer c s l).mLinks =
        [{ l with queue := { l.queue with records := l.queue.records ++ [s] } }] := by
      simp only [pushedChannel, pushSuperpageToLink]
      rw [hidx, hl, SuperpageQueue.write_of_lt _ _ _ hsz
        (by simpa [SuperpageQueue.sizeGuess] using hlt)]
      rfl
    obtain ⟨c', e1, e2, e3, e4, e5, e6⟩ := ih (pushedChannel linkIndexMax buffer c s l)
      { l with queue := { l.queue with records := l.queue.records ++ [s] } }
      hs hlinks (hk.2.2.2.1 hq) (kept_counterInvariant hk hq hinv) hcap hpage
      (by
        show (l.queue.records ++ [s]).length + rest.length ≤ c.mLinkQueueCapacity
        simp only [List.length_append, List.length_singleton]
        omega)
      (fun x hx => hv x (List.mem_cons_of_mem _ hx))
    refine ⟨c', ?_, ?_, e3, e4, e5, e6⟩
    · simp only [pushAll, hp, e1]
    · rw [e2]
      simp

/-- Popping as many superpages as the ready queue holds hands them out oldest first. -/
theorem popAll_records (c : CruDmaChannel) :
    ∃ c', popAll c.mReadyQueue.records.length c = some (c.mReadyQueue.records, c') ∧
      c'.mReadyQueue.records = [] := by
  generalize hn : c.mReadyQueue.records.length = n
  induction n generalizing c with
  | zero => exact ⟨c, by rw [List.length_eq_zero.mp hn]; rfl, List.length_eq_zero.mp hn⟩
  | succ n ih =>
    cases hr : c.mReadyQueue.records with
    | nil => rw [hr] at hn; simp at hn
    | cons r rs =>
      rw [hr] at hn
      simp only [List.length_cons, Nat.add_right_cancel_iff] at hn
      obtain ⟨c', e1, e2⟩ := ih { c with mReadyQueue := c.mReadyQueue.popFront }
        (by simp [SuperpageQueue.popFront, hr, hn])
      refine ⟨c', ?_, e2⟩
      have hpop : popSuperpage c =
          Result.ok r { c with mReadyQueue := c.mReadyQueue.popFront } := by
        simp [popSuperpage, SuperpageQueue.frontPtr, hr]
      simp only [popAll, hpop, e1]
      simp [SuperpageQueue.popFront, hr]

theorem markSuperpage_completion (bar : CruBar) (id h : Nat) (s : Superpage)
    (hsize : bar.getSuperpageSize id = h) (h0 : 0 < h) (h32 : h < 2 ^ 32) :
    markSuperpage bar id false s = completion id h s := by
  have hw : wrapU32 (bar.getSuperpageSize id) = h := by
    rw [hsize]; unfold wrapU32; exact Nat.mod_eq_of_lt h32
  unfold markSuperpage completion
  simp only [Bool.not_false, if_true, hw, Superpage.setReady, Superpage.setReceived,
    Superpage.setLink]
  rw [if_neg (by omega)]

/-- One call of `fillSuperpages` on a channel with one link, the card's count being `n'` and
the link's counter `n`, with room in the ready queue: the `n' - n` oldest superpages move. -/
theorem fillSuperpages_single (bar : CruBar) (c : CruDmaChannel) (l : Link) (n n' : Nat)
    (hl : c.mLinks = [l]) (hn : wrapU32 l.superpageCounter = n)
    (hcount : bar.getSuperpageCount l.id = n') (hle : n ≤ n') (h32 : n' < 2 ^ 32)
    (hq : n' - n ≤ l.queue.records.length) (hr : c.mReadyQueue.sized c.mReadyQueueCapacity)
    (hroom : c.mReadyQueue.records.length + (n' - n) ≤ c.mReadyQueueCapacity) :
    ∃ c' l', fillSuperpages bar c = Result.ok () c' ∧ c'.mLinks = [l'] ∧ l'.id = l.id ∧
      wrapU32 l'.superpageCounter = n' ∧
      l'.queue.records = l.queue.records.drop (n' - n) ∧
      c'.mReadyQueue.records = c.mReadyQueue.records ++
        (l.queue.records.take (n' - n)).map (markSuperpage bar l.id false) ∧
      c'.mReadyQueue.size_ = c.mReadyQueue.size_ ∧
      c'.mReadyQueueCapacity = c.mReadyQueueCapacity := by
  have ham : amountAvailable bar l = n' - n := by
    rw [amountAvailable_eq, hcount]
    unfold wrapU32 at hn
    rw [hn]
    norm_num at h32 ⊢
    omega
  obtain ⟨t, e1, e2, _, e4, e5, e6, _, e8⟩ := harvestLoop_spec bar c.mReadyQueueCapacity
    (amountAvailable bar l)
    { link := l, readyQueue := c.mReadyQueue, totalAvailable := c.mLinkQueuesTotalAvailable }
    (by rw [ham]; exact hq) hr
  dsimp only at e2 e4 e5 e6 e8
  have hmin : min (amountAvailable bar l)
      (c.mReadyQueueCapacity - c.mReadyQueue.records.length) = n' - n := by
    rw [ham]; omega
  rw [hmin] at e5 e6 e8
  have hfill : fillLinks bar c.mReadyQueueCapacity c.mLinks c.mReadyQueue
      c.mLinkQueuesTotalAvailable = ([t.link], t.readyQueue, t.totalAvailable, none) := by
    rw [hl]
    unfold fillLinks
    rw [if_neg (by simp only [SuperpageQueue.sizeGuess]; omega), e1]
    simp [fillLinks]
  refine ⟨{ c with
      mLinks := [t.link]
      mReadyQueue := t.readyQueue
      mLinkQueuesTotalAvailable := t.totalAvailable }, t.link, ?_, rfl, e2, ?_, e5, e6, e4, rfl⟩
  · unfold fillSuperpages
    rw [hfill]
  · rw [e8]
    unfold wrapU32 at hn ⊢
    norm_num at h32 ⊢
    omega

/-- A run of calls of `fillSuperpages` on a channel with one link while the card completes the
superpages in order up to `k`: all return, and the `k - n` oldest superpages of the link
queue end up, in order, at the end of the ready queue, as completions of `h` bytes. -/
theorem fillAll_single (id k h : Nat) (bars : List CruBar) (c : CruDmaChannel) (l : Link)
    (n : Nat) (hbars : completesInOrder id k h n bars) (hl : c.mLinks = [l]) (hid : l.id = id)
    (hn : wrapU32 l.superpageCounter = n) (h0 : 0 < h) (h32 : h < 2 ^ 32) (hk : k < 2 ^ 32)
    (hq : k - n ≤ l.queue.records.length) (hr : c.mReadyQueue.sized c.mReadyQueueCapacity)
    (hroom : c.mReadyQueue.records.length + (k - n) ≤ c.mReadyQueueCapacity) :
    ∃ c' l', fillAll bars c = some c' ∧ c'.mLinks = [l'] ∧
      l'.queue.records = l.queue.records.drop (k - n) ∧
      c'.mReadyQueue.records = c.mReadyQueue.records ++
        (l.queue.records.take (k - n)).map (completion id h) := by
  induction bars generalizing c l n with
  | nil =>
    simp only [completesInOrder] at hbars
    subst hbars
    exact ⟨c, l, rfl, hl, by simp, by simp⟩
  | cons b bs ih =>
    obtain ⟨b1, b2, b3, b4⟩ := hbars
    obtain ⟨c1, l1, f1, f2, f3, f4, f5, f6, f7, f8⟩ := fillSuperpages_single b c l n
      (b.getSuperpageCount id) hl hn (by rw [hid]) b1 (by omega) (by omega) hr (by omega)
    have hr1 : c1.mReadyQueue.sized c1.mReadyQueueCapacity := by
      refine ⟨by rw [f7, f8]; exact hr.1, ?_⟩
      rw [f6, f8]
      simp only [List.length_append, List.length_map, List.length_take]
      omega
    obtain ⟨c', l', g1, g2, g3, g4⟩ := ih c1 l1 (b.getSuperpageCount id) b4 f2
      (f3.trans hid) f4
      (by rw [f5]; simp only [List.length_drop]; omega) hr1
      (by
        rw [f6, f8]
        simp only [List.length_append, List.length_map, List.length_take]
        omega)
    refine ⟨c', l', ?_, g2, ?_, ?_⟩
    · simp only [fillAll, f1, g1]
    · rw [g3, f5, List.drop_drop]
      congr 1
      omega
    · rw [g4, f6, f5, List.append_assoc]
      congr 1
      have hsplit : k - n = (b.getSuperpageCount id - n) + (k - b.getSuperpageCount id) := by
        omega
      rw [hsplit, List.take_add, List.map_append]
      congr 1
      · apply List.map_congr_left
        intro s _
        rw [hid]
        exact markSuperpage_completion b id h s b3 h0 h32

/-- The configuration `deviceStartDma` does not touch. -/
theorem deviceStartDma_config (bar : CruBar) (c : CruDmaChannel) :
    (deviceStartDma bar c).mDmaPageSize = c.mDmaPageSize ∧
      (deviceStartDma bar c).mDataSource = c.mDataSource ∧
      (deviceStartDma bar c).mFeatures = c.mFeatures ∧
      (deviceStartDma bar c).mFirstSPPushed = c.mFirstSPPushed ∧
      (deviceStartDma bar c).mEmptySPFifoCounters = c.mEmptySPFifoCounters ∧
      (deviceStartDma bar c).mDmaState = c.mDmaState := by
  unfold deviceStartDma
  simp only [issue, resetCru, enableDebugMode, setBufferReady]
  split_ifs <;> simp

/-- C14 (happy path on one link): on a stopped channel with one link, queues as the
constructor allocates them, a non-zero DMA page size and a ready queue at least as large as
the link queue, after `startDma` every sequence of `k ≤ C_link` valid superpages is accepted;
if the card then completes them in order reporting `h ≠ 0` bytes each, any run of
`fillSuperpages` calls that follows the card's count up to `k` returns, and `k` calls of
`popSuperpage` hand out the superpages in the order pushed, each with its offset and size,
`ready = true`, `received = h` and the id of the link. -/
theorem single_link_happy_path (linkIndexMax : Nat) (buffer : DmaBufferProvider)
    (bar0 : CruBar) (c : CruDmaChannel) (link : Link) (sps : List Superpage)
    (bars : List CruBar) (h : Nat)
    (hs : c.mDmaState = DmaState.STOPPED) (hl : c.mLinks = [link]) (hq : queuesSized c)
    (hcap : c.mLinkQueueCapacity < 2 ^ 32) (hpage : c.mDmaPageSize ≠ 0)
    (hk : sps.length ≤ c.mLinkQueueCapacity)
    (hready : c.mLinkQueueCapacity ≤ c.mReadyQueueCapacity)
    (hv : ∀ s ∈ sps, checkSuperpage buffer s = none) (h0 : 0 < h) (h32 : h < 2 ^ 32)
    (hbars : completesInOrder link.id sps.length h 0 bars) :
    ∃ c1 c2 c3 c4, startDma bar0 c = Result.ok () c1 ∧
      pushAll linkIndexMax buffer sps c1 = some c2 ∧ fillAll bars c2 = some c3 ∧
      popAll sps.length c3 = some (sps.map (completion link.id h), c4) := by
  have hstart := startDma_eq bar0 c
  rw [if_pos hs] at hstart
  obtain ⟨s1, s2, _, s4, s5, s6⟩ := startDma_stopped bar0 c _ hs (by rw [hstart]; rfl)
  have hq1 := startDma_sized bar0 c _ (by rw [hstart]; rfl) hq
  have hinv1 := startDma_counterInvariant bar0 c _ (by rw [hstart]; rfl) (Or.inr hs)
  rw [hl] at s1
  simp only [List.map_cons, List.map_nil] at s1
  have hrec0 : (initLink link).queue.records = [] := by
    simp [initLink, SuperpageQueue.drain_records]
  obtain ⟨c2, p1, p2, p3, p4, p5, _⟩ := pushAll_single linkIndexMax buffer sps _ (initLink link)
    s6 s1 hq1 hinv1 (by rw [s4]; unfold SIZE_MAX; omega)
    (by
      show (deviceStartDma bar0 c).mDmaPageSize ≠ 0
      rw [(deviceStartDma_config bar0 c).1]
      exact hpage)
    (by rw [hrec0, s4]; simpa using hk) hv
  rw [hrec0, List.nil_append] at p2
  have hr2 : c2.mReadyQueue.sized c2.mReadyQueueCapacity := by
    rw [p3, p4]; exact hq1.2
  have hready0 : c2.mReadyQueue.records = [] := by
    rw [p3, s2]; exact SuperpageQueue.drain_records _
  obtain ⟨c3, l3, f1, _, _, f4⟩ := fillAll_single link.id sps.length h bars c2 _ 0 hbars p2
    rfl rfl h0 h32 (by omega) (by simp) hr2
    (by rw [hready0, p4, s5]; simp only [List.length_nil]; omega)
  rw [hready0] at f4
  simp only [Nat.sub_zero, List.nil_append, List.take_length] at f4
  obtain ⟨c4, q1, _⟩ := popAll_records c3
  rw [f4, List.length_map] at q1
  exact ⟨_, c2, c3, c4, hstart, p1, f1, q1⟩

/-- C14, at the scenario of the specification: `C_link = 4`, a buffer of 1 MiB, four
superpages of 256 KiB at offsets 0, 256K, 512K and 768K, the card completing one more
before each of four `fillSuperpages` calls and reporting 262144 bytes. -/
theorem single_link_happy_path_witness :
    ∃ c1 c2 c3 c4, startDma (sampleBar 0 0) happyChannel = Result.ok () c1 ∧
      pushAll 4294967295 sampleBuffer
        [sampleSuperpage 0 262144, sampleSuperpage 262144 262144,
          sampleSuperpage 524288 262144, sampleSuperpage 786432 262144] c1 = some c2 ∧
      fillAll [sampleBar 1 262144, sampleBar 2 262144, sampleBar 3 262144,
        sampleBar 4 262144] c2 = some c3 ∧
      popAll 4 c3 = some
        ([{ offset := 0, size := 262144, received := 262144, ready := true, link := 0 },
          { offset := 262144, size := 262144, received := 262144, ready := true, link := 0 },
          { offset := 524288, size := 262144, received := 262144, ready := true, link := 0 },
          { offset := 786432, size := 262144, received := 262144, ready := true, link := 0 }],
          c4) :=
  single_link_happy_path 4294967295 sampleBuffer (sampleBar 0 0) happyChannel
    { id := 0, superpageCounter := 0, queue := { size_ := 5, records := [] } }
    [sampleSuperpage 0 262144, sampleSuperpage 262144 262144,
      sampleSuperpage 524288 262144, sampleSuperpage 786432 262144]
    [sampleBar 1 262144, sampleBar 2 262144, sampleBar 3 262144, sampleBar 4 262144] 262144
    rfl rfl (by decide) (by decide) (by decide) (by decide) (by decide) (by decide)
    (by decide) (by decide)
    (by simp [completesInOrder, sampleBar])

/-! ## Harvest order -/

theorem harvestedAll_eq_flatten (bar : CruBar) (links links' : List Link) :
    harvestedAll bar links links' = (List.zipWith (harvestedOf bar) links links').flatten := by
  induction links generalizing links' with
  | nil => simp [harvestedAll]
  | cons l ls ih =>
    cases links' with
    | nil => simp [harvestedAll]
    | cons l' ls' => simp [harvestedAll, ih]

theorem drop_length_sub (records : List Superpage) (k : Nat) :
    records.drop (records.length - (records.drop k).length) = records.drop k := by
  by_cases hk : k ≤ records.length
  · congr 1
    simp only [List.length_drop]
    omega
  · have h1 : records.drop k = [] := List.drop_eq_nil_of_le (by omega)
    rw [h1]
    simp

/-- C15 (harvest order): when `fillSuperpages` returns on a channel whose queues are the
constructor's, the ready queue is what it was, followed by the records harvested from the
first link, then those from the second link, and so on in the order of `mLinks`; the records
harvested from a link are the marked copies of a prefix of its queue, in queue order (which
is push order, as `pushSuperpage` appends), and the rest of the queue stays. -/
theorem harvest_order (bar : CruBar) (c c' : CruDmaChannel) (hq : queuesSized c)
    (h : fillSuperpages bar c = Result.ok () c') :
    c'.mLinks.length = c.mLinks.length ∧
      c'.mReadyQueue.records = c.mReadyQueue.records ++
        (List.zipWith
          (fun l l' =>
            (l.queue.records.take (l.queue.records.length - l'.queue.records.length)).map
              (markSuperpage bar l.id false))
          c.mLinks c'.mLinks).flatten ∧
      List.Forall₂
        (fun l l' => l'.id = l.id ∧
          l'.queue.records =
            l.queue.records.drop (l.queue.records.length - l'.queue.records.length))
        c.mLinks c'.mLinks := by
  have hno := (fillSuperpages_ok_iff bar c).mp ⟨c', h⟩
  obtain ⟨ls, r, a, f1, _, f3, _, _, f6⟩ := fillLinks_spec bar c.mReadyQueueCapacity c.mLinks
    c.mReadyQueue c.mLinkQueuesTotalAvailable hno hq.2
  unfold fillSuperpages at h
  rw [f1] at h
  simp only [Result.ok.injEq, true_and] at h
  subst h
  refine ⟨(List.Forall₂.length_eq f6).symm, ?_, ?_⟩
  · rw [f3, harvestedAll_eq_flatten]
    rfl
  · dsimp only
    refine List.Forall₂.imp ?_ f6
    intro l l' hh
    obtain ⟨h1, _, k, _, hdrop, _, _⟩ := hh
    refine ⟨h1, ?_⟩
    rw [hdrop]
    exact (drop_length_sub _ _).symm

/-- C15, at the harvest of `backPressureChannel`: the record harvested follows the three
records that were in the ready queue. -/
theorem harvest_order_witness :
    queuesSized backPressureChannel ∧
      fillSuperpages (sampleBar 2 0) backPressureChannel = Result.ok () backPressureAfter ∧
      backPressureAfter.mReadyQueue.records = backPressureChannel.mReadyQueue.records ++
        (List.zipWith
          (fun l l' =>
            (l.queue.records.take (l.queue.records.length - l'.queue.records.length)).map
              (markSuperpage (sampleBar 2 0) l.id false))
          backPressureChannel.mLinks backPressureAfter.mLinks).flatten :=
  ⟨by decide, rfl,
    (harvest_order (sampleBar 2 0) backPressureChannel backPressureAfter (by decide) rfl).2.1⟩

/-! ## Round robin -/

theorem get?_set_self (links : List Link) (i : Nat) (l l' : Link)
    (h : links.get? i = some l) : (links.set i l').get? i = some l' := by
  induction links generalizing i with
  | nil => simp at h
  | cons x xs ih =>
    cases i with
    | zero => rfl
    | succ n =>
      simp only [List.get?_cons_succ] at h
      simp only [List.set_cons_succ, List.get?_cons_succ]
      exact ih n h

theorem get?_set_other (links : List Link) (i j : Nat) (l' : Link) (hne : j ≠ i) :
    (links.set i l').get? j = links.get? j := by
  induction links generalizing i j with
  | nil => rfl
  | cons x xs ih =>
    cases i with
    | zero =>
      cases j with
      | zero => exact absurd rfl hne
      | succ m => rfl
    | succ n =>
      cases j with
      | zero => rfl
      | succ m =>
        simp only [List.set_cons_succ, List.get?_cons_succ]
        exact ih n m (by omega)

theorem get?_of_lt (links : List Link) (i : Nat) (h : i < links.length) :
    ∃ l, links.get? i = some l := by
  induction links generalizing i with
  | nil => simp at h
  | cons x xs ih =>
    cases i with
    | zero => exact ⟨x, rfl⟩
    | succ n =>
      simp only [List.length_cons] at h
      exact ih n (by omega)

/-- Quotient and remainder of the successor. -/
theorem succ_div_mod (n k : Nat) (hn : 0 < n) :
    (k % n + 1 < n ∧ (k + 1) / n = k / n ∧ (k + 1) % n = k % n + 1) ∨
      (k % n + 1 = n ∧ (k + 1) / n = k / n + 1 ∧ (k + 1) % n = 0) := by
  have hlt := Nat.mod_lt k hn
  have hdm := Nat.div_add_mod k n
  by_cases h : k % n + 1 < n
  · left
    refine ⟨h, ?_⟩
    exact (Nat.div_mod_unique hn).mpr ⟨by omega, h⟩
  · right
    have he : k % n + 1 = n := by omega
    refine ⟨he, ?_⟩
    refine (Nat.div_mod_unique hn).mpr ⟨?_, hn⟩
    rw [Nat.mul_succ]
    omega

/-- One push in the round: with the first `k` pushes spread evenly over `n` links (`Balanced`)
and `k < n * C_link`, the next push selects the link at index `k % n`, is accepted, appends
the superpage to that link's queue, and leaves the links balanced for `k + 1`. -/
theorem round_robin_step (linkIndexMax : Nat) (buffer : DmaBufferProvider) (c : CruDmaChannel)
    (superpage : Superpage) (n k : Nat) (hs : c.mDmaState = DmaState.STARTED)
    (hq : queuesSized c) (hinv : counterInvariant c) (hcap : c.mLinkQueueCapacity < SIZE_MAX)
    (hpage : c.mDmaPageSize ≠ 0) (hn : 0 < n) (hb : Balanced n k c.mLinks)
    (hk : k < n * c.mLinkQueueCapacity) (hv : checkSuperpage buffer superpage = none) :
    getNextLinkIndex linkIndexMax c.mLinks = k % n ∧
      ∃ link, c.mLinks.get? (k % n) = some link ∧
        pushSuperpage linkIndexMax buffer c superpage =
          Result.ok true (pushedChannel linkIndexMax buffer c superpage link) ∧
        (pushedChannel linkIndexMax buffer c superpage link).mLinks =
          c.mLinks.set (k % n)
            { link with queue := { link.queue with records := link.queue.records ++ [superpage] } } ∧
        Balanced n (k + 1) (pushedChannel linkIndexMax buffer c superpage link).mLinks := by
  obtain ⟨hlen, hsizes⟩ := hb
  have hr := Nat.mod_lt k hn
  have hdiv : k / n < c.mLinkQueueCapacity := Nat.div_lt_of_lt_mul hk
  obtain ⟨l0, hl0⟩ := get?_of_lt c.mLinks (k % n) (by omega)
  have hl0s := hsizes _ _ hl0
  simp only [lt_irrefl, if_false, Nat.add_zero] at hl0s
  obtain ⟨link, h1, h2, h3, h4⟩ := selected_has_slot linkIndexMax c hq hcap
    ⟨l0, mem_of_get? hl0, by omega⟩
  have hidx : getNextLinkIndex linkIndexMax c.mLinks = k % n := by
    have hsel := hsizes _ _ h1
    have hmin := h3 l0 (mem_of_get? hl0)
    by_contra hne
    by_cases hlt : getNextLinkIndex linkIndexMax c.mLinks < k % n
    · rw [if_pos hlt] at hsel
      omega
    · have := h4 (k % n) l0 (by omega) hl0
      omega
  rw [hidx] at h1
  have hlink : link = l0 := by
    rw [hl0] at h1
    exact (Option.some.inj h1).symm
  subst hlink
  have ht : c.mLinkQueuesTotalAvailable ≠ 0 := by
    intro h0
    unfold counterInvariant at hinv
    rw [hinv] at h0
    have := (freeSlots_eq_zero_iff c.mLinkQueueCapacity c.mLinks
      (fun l hl => (hq.1 l hl).2)).mp h0 link (mem_of_get? h1)
    omega
  have hp := pushSuperpage_of_slot linkIndexMax buffer c superpage link hs hv ht
    (by rw [hidx]; exact h1) h2
  rw [if_neg hpage] at hp
  have hsz := (hq.1 link (mem_of_get? h1)).1
  have hlinks : (pushedChannel linkIndexMax buffer c superpage link).mLinks =
      c.mLinks.set (k % n)
        { link with queue := { link.queue with records := link.queue.records ++ [superpage] } } := by
    simp only [pushedChannel, pushSuperpageToLink]
    rw [hidx, SuperpageQueue.write_of_lt _ _ _ hsz h2]
  refine ⟨hidx, link, h1, hp, hlinks, ?_⟩
  rw [hlinks]
  refine ⟨by rw [List.length_set]; exact hlen, ?_⟩
  intro i l hi
  by_cases hir : i = k % n
  · subst hir
    rw [get?_set_self _ _ link _ h1] at hi
    simp only [Option.some.injEq] at hi
    subst hi
    simp only [SuperpageQueue.sizeGuess, List.length_append, List.length_singleton]
    simp only [SuperpageQueue.sizeGuess] at hl0s
    rcases succ_div_mod n k hn with ⟨_, e1, e2⟩ | ⟨_, e1, e2⟩
    · rw [e1, e2, if_pos (by omega), hl0s]
    · rw [e1, e2, if_neg (by omega), hl0s]
  · rw [get?_set_other _ _ _ _ hir] at hi
    have hsz := hsizes i l hi
    have hilt := get?_lt_length hi
    rw [hsz]
    rcases succ_div_mod n k hn with ⟨_, e1, e2⟩ | ⟨e0, e1, e2⟩
    · rw [e1, e2]
      by_cases hlt : i < k % n
      · rw [if_pos hlt, if_pos (by omega)]
      · rw [if_neg hlt, if_neg (by omega)]
    · rw [e1, e2, if_pos (by omega), if_neg (by omega)]

/-- A run of pushes from a state balanced for `k`: the `j`-th goes to the link at index
`(k + j) % n`. -/
theorem pushTrace_balanced (linkIndexMax : Nat) (buffer : DmaBufferProvider)
    (sps : List Superpage) (c : CruDmaChannel) (n k : Nat)
    (hs : c.mDmaState = DmaState.STARTED) (hq : queuesSized c) (hinv : counterInvariant c)
    (hcap : c.mLinkQueueCapacity < SIZE_MAX) (hpage : c.mDmaPageSize ≠ 0) (hn : 0 < n)
    (hb : Balanced n k c.mLinks) (hk : k + sps.length ≤ n * c.mLinkQueueCapacity)
    (hv : ∀ s ∈ sps, checkSuperpage buffer s = none) :
    ∃ c', pushTrace linkIndexMax buffer sps c =
        some ((List.range sps.length).map (fun j => (k + j) % n), c') ∧
      Balanced n (k + sps.length) c'.mLinks ∧
      c'.mLinkQueueCapacity = c.mLinkQueueCapacity := by
  induction sps generalizing c k with
  | nil => exact ⟨c, rfl, hb, rfl⟩
  | cons s rest ih =>
    simp only [List.length_cons] at hk
    obtain ⟨hidx, link, h1, hp, _, hb1⟩ := round_robin_step linkIndexMax buffer c s n k hs hq
      hinv hcap hpage hn hb (by omega) (hv s (List.mem_cons_self _ _))
    have hget : c.mLinks.get? (getNextLinkIndex linkIndexMax c.mLinks) = some link := by
      rw [hidx]; exact h1
    have hlt : link.queue.records.length < c.mLinkQueueCapacity := by
      have := hb.2 _ _ h1
      simp only [lt_irrefl, if_false, Nat.add_zero, SuperpageQueue.sizeGuess] at this
      rw [this]
      exact Nat.div_lt_of_lt_mul (by omega)
    have hkept := pushedChannel_kept linkIndexMax buffer c s link hget hlt
    obtain ⟨c', e1, e2, e3⟩ := ih (pushedChannel linkIndexMax buffer c s link) (k + 1) hs
      (hkept.2.2.2.1 hq) (kept_counterInvariant hkept hq hinv) hcap hpage hb1
      (by
        show k + 1 + rest.length ≤ n * c.mLinkQueueCapacity
        omega)
      (fun x hx => hv x (List.mem_cons_of_mem _ hx))
    refine ⟨c', ?_, ?_, e3⟩
    · simp only [pushTrace, hp, e1, hidx, List.length_cons, List.range_succ_eq_map,
        List.map_cons, List.map_map, Nat.add_zero]
      congr 3
      apply List.map_congr_left
      intro j _
      simp only [Function.comp, Nat.succ_eq_add_one]
      congr 1
      omega
    · rw [List.length_cons]
      have : k + (rest.length + 1) = k + 1 + rest.length := by omega
      rw [this]
      exact e2

/-- C16 (round robin from empty): on a started channel with `n ≥ 1` links whose queues are
empty (and the constructor's), satisfying the aggregate invariant, with a non-zero DMA page
size, every run of at most `n * C_link` valid superpages is accepted, the `k`-th push
(`k = 0, 1, …`) being written to the link at index `k % n`; afterwards the link at index `i`
holds `k / n` superpages plus one if `i < k % n`, so after `n * C_link` pushes every link
holds exactly `C_link`. -/
theorem round_robin_from_empty (linkIndexMax : Nat) (buffer : DmaBufferProvider)
    (sps : List Superpage) (c : CruDmaChannel) (n : Nat)
    (hs : c.mDmaState = DmaState.STARTED) (hq : queuesSized c) (hinv : counterInvariant c)
    (hcap : c.mLinkQueueCapacity < SIZE_MAX) (hpage : c.mDmaPageSize ≠ 0) (hn : 0 < n)
    (hlen : c.mLinks.length = n) (hempty : ∀ l ∈ c.mLinks, l.queue.records = [])
    (hk : sps.length ≤ n * c.mLinkQueueCapacity)
    (hv : ∀ s ∈ sps, checkSuperpage buffer s = none) :
    ∃ c', pushTrace linkIndexMax buffer sps c =
        some ((List.range sps.length).map (fun k => k % n), c') ∧
      Balanced n sps.length c'.mLinks ∧
      (sps.length = n * c.mLinkQueueCapacity →
        ∀ l ∈ c'.mLinks, l.queue.sizeGuess = c.mLinkQueueCapacity) := by
  have hb : Balanced n 0 c.mLinks := by
    refine ⟨hlen, ?_⟩
    intro i l hi
    have := hempty l (mem_of_get? hi)
    simp [SuperpageQueue.sizeGuess, this]
  obtain ⟨c', e1, e2, _⟩ := pushTrace_balanced linkIndexMax buffer sps c n 0 hs hq hinv hcap
    hpage hn hb (by omega) hv
  simp only [Nat.zero_add] at e1 e2
  refine ⟨c', e1, e2, ?_⟩
  intro hfull l hl
  obtain ⟨i, hi⟩ := List.get?_of_mem hl
  have := e2.2 i l hi
  rw [hfull, Nat.mul_mod_right, Nat.mul_div_cancel_left _ hn] at this
  simpa using this

/-- C16, at the scenario of the specification: 3 links, `C_link = 2`, 6 pushes go to the
links 0, 1, 2, 0, 1, 2, and every link then holds 2 superpages. -/
theorem round_robin_from_empty_witness :
    ∃ c', pushTrace 4294967295 sampleBuffer sixSuperpages threeLinks =
        some ([0, 1, 2, 0, 1, 2], c') ∧
      Balanced 3 6 c'.mLinks ∧
      ∀ l ∈ c'.mLinks, l.queue.sizeGuess = 2 :=
  (round_robin_from_empty 4294967295 sampleBuffer sixSuperpages threeLinks 3 rfl (by decide)
    (by decide) (by decide) (by decide) (by decide) rfl (by decide) (by decide)
    (by decide)).imp
    (fun _ h => ⟨h.1, h.2.1, h.2.2 rfl⟩)

/-! ## The completion counter -/

theorem setState_same (c : CruDmaChannel) (s : DmaState) (h : c.mDmaState = s) :
    ({ c with mDmaState := s } : CruDmaChannel) = c := by
  cases c
  simp only at h
  subst h
  rfl

/-- C18 (idempotence of the lifecycle calls): `stopDma` on a stopped channel and `startDma` on
a started channel return without an exception and leave the channel exactly as it was (state,
queues, counters, and the commands sent to the BARs); hence a second `stopDma` after a
`stopDma` that returned, and a second `startDma` after a `startDma`, change nothing. -/
theorem lifecycle_idempotent (bar bar' : CruBar) (c : CruDmaChannel) :
    (c.mDmaState = DmaState.STOPPED → stopDma bar c = Result.ok () c) ∧
      (c.mDmaState = DmaState.STARTED → startDma bar c = Result.ok () c) ∧
      (∀ c', stopDma bar c = Result.ok () c' → stopDma bar' c' = Result.ok () c') ∧
      (∀ c', startDma bar c = Result.ok () c' → startDma bar' c' = Result.ok () c') := by
  have hstop : ∀ (b : CruBar) (x : CruDmaChannel), x.mDmaState = DmaState.STOPPED →
      stopDma b x = Result.ok () x := by
    intro b x hx
    unfold stopDma
    rw [hx]
    dsimp only
    rw [setState_same x _ hx]
  have hstart : ∀ (b : CruBar) (x : CruDmaChannel), x.mDmaState = DmaState.STARTED →
      startDma b x = Result.ok () x := by
    intro b x hx
    rw [startDma_eq, if_neg (by rw [hx]; decide), setState_same x _ hx]
  refine ⟨hstop bar c, hstart bar c, ?_, ?_⟩
  · intro c' h
    apply hstop
    rcases stopDma_ok bar c c' h with ⟨_, rfl⟩ | ⟨_, c1, c2, _, _, rfl⟩ <;> rfl
  · intro c' h
    apply hstart
    rw [startDma_eq] at h
    simp only [Result.ok.injEq, true_and] at h
    rw [← h]

/-- C18, at a stopped and at a started channel. -/
theorem lifecycle_idempotent_witness :
    stopDma (sampleBar 0 0) twoInFlightStopped = Result.ok () twoInFlightStopped ∧
      startDma (sampleBar 0 0) twoInFlight = Result.ok () twoInFlight :=
  ⟨(lifecycle_idempotent (sampleBar 0 0) (sampleBar 0 0) twoInFlightStopped).1 rfl,
    (lifecycle_idempotent (sampleBar 0 0) (sampleBar 0 0) twoInFlight).2.1 rfl⟩

/-- C19, as amended (`resetChannel`): `resetChannel` throws exactly when the channel is not
stopped (whatever the level, `Nothing` included) or the level is neither `Nothing` nor
`Internal`, and a throw changes nothing; on a stopped channel `resetChannel(Nothing)` returns
and changes nothing, and `resetChannel(Internal)` returns having issued exactly
`resetDataGeneratorCounter`, `resetCard`, `resetInternalCounters`, in this order, with the
queues and the state unchanged. -/
theorem resetChannel_behaviour (c : CruDmaChannel) (level : ResetLevel) :
    ((∃ e c', resetChannel c level = Result.thrown e c') ↔
        c.mDmaState ≠ DmaState.STOPPED ∨
          (level ≠ ResetLevel.Nothing ∧ level ≠ ResetLevel.Internal)) ∧
      (∀ e c', resetChannel c level = Result.thrown e c' → c' = c) ∧
      (c.mDmaState = DmaState.STOPPED → resetChannel c ResetLevel.Nothing = Result.ok () c) ∧
      (c.mDmaState = DmaState.STOPPED →
        resetChannel c ResetLevel.Internal =
          Result.ok ()
            { c with
              barLog := c.barLog ++
                [BarOp.resetDataGeneratorCounter, BarOp.resetCard,
                  BarOp.resetInternalCounters] }) := by
  refine ⟨?_, ?_, ?_, ?_⟩
  · unfold resetChannel deviceResetChannel
    cases hs : c.mDmaState <;> cases level <;> simp
  · intro e c' h
    unfold resetChannel deviceResetChannel at h
    cases hs : c.mDmaState <;> cases level <;> rw [hs] at h <;> simp at h <;> exact h.2.symm
  · intro hs
    unfold resetChannel deviceResetChannel
    rw [hs]
    simp
  · intro hs
    unfold resetChannel deviceResetChannel
    rw [if_neg (by rw [hs]; decide), if_neg (by simp [hs])]
    rfl

/-- C19, at a stopped channel and the level `Internal`. -/
theorem resetChannel_behaviour_witness :
    resetChannel twoInFlightStopped ResetLevel.Internal =
      Result.ok ()
        { twoInFlightStopped with
          barLog := twoInFlightStopped.barLog ++
            [BarOp.resetDataGeneratorCounter, BarOp.resetCard,
              BarOp.resetInternalCounters] } :=
  (resetChannel_behaviour twoInFlightStopped ResetLevel.Internal).2.2.2 rfl

/-- C19, as stated, fails: on a started channel `resetChannel(Nothing)` throws "DMA was not
stopped". -/
theorem resetChannel_nothing_raises_when_started :
    twoInFlight.mDmaState = DmaState.STARTED ∧
      resetChannel twoInFlight ResetLevel.Nothing =
        Result.thrown Exception.resetNotStopped twoInFlight :=
  ⟨rfl, rfl⟩

/-- C20 (access to the ready queue): `getSuperpage` and `popSuperpage` each throw exactly when
the ready queue is empty, and then change nothing; on a ready queue with oldest record `r`,
`getSuperpage` returns `r` and leaves the channel as it was, and `popSuperpage` returns the
same `r` and removes exactly it: the other records stay in order and nothing else (link
queues, counters, `mLinkQueuesTotalAvailable`) changes. -/
theorem ready_queue_access (c : CruDmaChannel) :
    ((∃ e c', getSuperpage c = Result.thrown e c') ↔ c.mReadyQueue.records = []) ∧
      ((∃ e c', popSuperpage c = Result.thrown e c') ↔ c.mReadyQueue.records = []) ∧
      (∀ e c', getSuperpage c = Result.thrown e c' → c' = c) ∧
      (∀ e c', popSuperpage c = Result.thrown e c' → c' = c) ∧
      (∀ r rest, c.mReadyQueue.records = r :: rest →
        getSuperpage c = Result.ok r c ∧
          popSuperpage c =
            Result.ok r { c with mReadyQueue := { c.mReadyQueue with records := rest } }) := by
  unfold getSuperpage popSuperpage SuperpageQueue.frontPtr SuperpageQueue.popFront
  cases hr : c.mReadyQueue.records with
  | nil => simp
  | cons r rest => simp

/-- C20, at a ready queue of two records. -/
theorem ready_queue_access_witness :
    getSuperpage twoInFlightStopped = Result.ok (sampleCompletion 0) twoInFlightStopped ∧
      popSuperpage twoInFlightStopped =
        Result.ok (sampleCompletion 0)
          { twoInFlightStopped with
            mReadyQueue :=
              { twoInFlightStopped.mReadyQueue with
                records :=
                  [{ offset := 32768, size := 32768, received := 0, ready := false,
                     link := 0 }] } } :=
  (ready_queue_access twoInFlightStopped).2.2.2.2 (sampleCompletion 0)
    [{ offset := 32768, size := 32768, received := 0, ready := false, link := 0 }] rfl

/-! ## Construction and the DMA page size -/

/-- Every way the constructor can complete. -/
theorem construct_ok (header : HeaderValues) (setup : BufferSetup) (parameters : Parameters)
    (card : CardAnswers) (c : CruDmaChannel)
    (h : CruDmaChannel.construct header setup parameters card = Except.ok c) :
    c.mDmaState = DmaState.STOPPED ∧
      c.mDmaPageSize = parameters.dmaPageSize.getD DMA_PAGE_SIZE ∧
      c.mDataSource = parameters.dataSource.getD DataSource.Internal ∧
      c.mDataSource ≠ DataSource.Diu ∧ c.mDataSource ≠ DataSource.Siu ∧
      c.mLinks = card.dataTakingLinks.map (newLink c.mLinkQueueCapacity) ∧
      c.mLinks ≠ [] ∧
      c.mReadyQueue = { size_ := c.mReadyQueueCapacity + 1, records := [] } ∧
      c.mReadyQueueCapacity = c.mLinkQueueCapacity * header.MAX_LINKS ∧
      c.mEmptySPFifoCounters = [] ∧ c.barLog = [] := by
  unfold CruDmaChannel.construct at h
  split at h
  · simp at h
  · dsimp only at h
    generalize hmx : (if wrapU32 card.maxSuperpageDescriptors = 0 then
      header.MAX_SUPERPAGE_DESCRIPTORS_DEFAULT else wrapU32 card.maxSuperpageDescriptors) = mx at h
    split at h
    · simp at h
    · rename_i hds
      split at h
      · simp at h
      · rename_i hne
        simp only [Except.ok.injEq] at h
        subst h
        push_neg at hds
        refine ⟨rfl, rfl, rfl, hds.1, hds.2, rfl, ?_, rfl, rfl, rfl, rfl⟩
        intro hnil
        apply hne
        dsimp only at hnil
        rw [hnil]
        rfl

/-- A channel as constructed has queues of the sizes all later reasoning relies on, and no
superpage in flight. -/
theorem construct_wellformed (header : HeaderValues) (setup : BufferSetup)
    (parameters : Parameters) (card : CardAnswers) (c : CruDmaChannel)
    (h : CruDmaChannel.construct header setup parameters card = Except.ok c) :
    queuesSized c ∧ idleEmpty c := by
  obtain ⟨_, _, _, _, _, h6, _, h8, _, _, _⟩ := construct_ok header setup parameters card c h
  refine ⟨⟨?_, ?_⟩, ?_⟩
  · intro l hl
    rw [h6] at hl
    obtain ⟨x, _, rfl⟩ := List.mem_map.mp hl
    exact ⟨rfl, Nat.zero_le _⟩
  · rw [h8]
    exact ⟨rfl, Nat.zero_le _⟩
  · intro _ l hl
    rw [h6] at hl
    obtain ⟨x, _, rfl⟩ := List.mem_map.mp hl
    rfl

/-- What the superpage validation establishes of a superpage that passes. -/
theorem checkSuperpage_none (buffer : DmaBufferProvider) (superpage : Superpage)
    (h : checkSuperpage buffer superpage = none) :
    superpage.size ≠ 0 ∧ superpage.size % (32 * 1024) = 0 ∧
      wrapU64 (superpage.offset + superpage.size) ≤ buffer.getSize ∧
      superpage.offset % 4 = 0 := by
  unfold checkSuperpage isMultiple Superpage.getSize Superpage.getOffset at h
  split at h
  · simp at h
  · rename_i h1
    split at h
    · simp at h
    · rename_i h2
      split at h
      · simp at h
      · rename_i h3
        split at h
        · simp at h
        · rename_i h4
          refine ⟨h1, ?_, by omega, by omega⟩
          simpa using h2

/-! ## The DMA page size once constructed -/

theorem fillSuperpages_pageSize (bar : CruBar) (c c' : CruDmaChannel)
    (h : (fillSuperpages bar c).channel? = some c') : c'.mDmaPageSize = c.mDmaPageSize := by
  rw [fillSuperpages_channel] at h
  simp only [Option.some.injEq] at h
  subst h
  rfl

theorem stopDma_pageSize (bar : CruBar) (c c' : CruDmaChannel)
    (h : (stopDma bar c).channel? = some c') : c'.mDmaPageSize = c.mDmaPageSize := by
  unfold stopDma at h
  cases hs : c.mDmaState with
  | UNKNOWN =>
    rw [hs] at h
    simp only [Result.channel?, Option.some.injEq] at h
    subst h
    rfl
  | STOPPED =>
    rw [hs] at h
    simp only [Result.channel?, Option.some.injEq] at h
    subst h
    rfl
  | STARTED =>
    rw [hs] at h
    simp only at h
    unfold deviceStopDma at h
    cases hf : fillSuperpages bar (issue (setBufferNonReady c) [BarOp.disableDataTaking]) with
    | undefined =>
      rw [hf] at h
      simp [Result.channel?] at h
    | thrown e c1 =>
      rw [hf] at h
      simp only [Result.channel?, Option.some.injEq] at h
      subst h
      have := fillSuperpages_pageSize bar _ c1 (by rw [hf]; rfl)
      rw [this]
      rfl
    | ok u c1 =>
      rw [hf] at h
      simp only at h
      rw [reclaimSuperpages_eq] at h
      simp only [Result.channel?, Option.some.injEq] at h
      subst h
      have := fillSuperpages_pageSize bar _ c1 (by rw [hf]; rfl)
      show c1.mDmaPageSize = _
      rw [this]
      rfl

/-- No call of the lifecycle or of the queue interface changes the DMA page size the
constructor has set. -/
theorem pageSize_after (call : Call) (c c' : CruDmaChannel)
    (h : call.after c = some c') : c'.mDmaPageSize = c.mDmaPageSize := by
  cases call with
  | startDma bar =>
    simp only [Call.after, startDma_eq, Result.channel?, Option.some.injEq] at h
    subst h
    show (if c.mDmaState = DmaState.STOPPED then deviceStartDma bar c else c).mDmaPageSize = _
    split_ifs
    · exact (deviceStartDma_config bar c).1
    · rfl
  | pushSuperpage m buffer s =>
    simp only [Call.after] at h
    cases hp : pushSuperpage m buffer c s with
    | undefined =>
      rw [hp] at h
      simp [Result.channel?] at h
    | thrown e c1 =>
      rw [hp] at h
      simp only [Result.channel?, Option.some.injEq] at h
      subst h
      rw [pushSuperpage_thrown m buffer c c1 s e hp]
    | ok b c1 =>
      rw [hp] at h
      simp only [Result.channel?, Option.some.injEq] at h
      subst h
      rcases pushSuperpage_ok m buffer c c1 s b hp with ⟨_, h1, _⟩ | ⟨_, _, _, _, _, l, _, _, h1⟩
      · rw [h1]
      · rw [h1]
        rfl
  | fillSuperpages bar => exact fillSuperpages_pageSize bar c c' h
  | getSuperpage =>
    simp only [Call.after, getSuperpage] at h
    split at h <;>
      (simp only [Result.channel?, Option.some.injEq] at h; subst h; rfl)
  | popSuperpage =>
    simp only [Call.after, popSuperpage] at h
    split at h <;>
      (simp only [Result.channel?, Option.some.injEq] at h; subst h; rfl)
  | stopDma bar => exact stopDma_pageSize bar c c' h


theorem pageSize_run (calls : List Call) (c c' : CruDmaChannel)
    (h : runCalls calls c = some c') : c'.mDmaPageSize = c.mDmaPageSize := by
  induction calls generalizing c with
  | nil =>
    simp only [runCalls, Option.some.injEq] at h
    rw [h]
  | cons call rest ih =>
    unfold runCalls at h
    cases ha : call.after c with
    | none =>
      rw [ha] at h
      simp at h
    | some c1 =>
      rw [ha] at h
      exact (ih c1 h).trans (pageSize_after call c c1 ha)

/-- C21, as amended (page count): a constructed channel has the DMA page size of its
parameters, whatever it is (8192 if none is given), and keeps it through every sequence of
calls; for every superpage accepted by `pushSuperpage` after such a sequence, if the page
size divides 32 KiB (as 8192 does), it is non-zero and divides the superpage size, and the
descriptor sent to the card carries `dmaPages = size / dmaPageSize` with
`dmaPages * dmaPageSize = size`. -/
theorem page_count_exact (header : HeaderValues) (setup : BufferSetup)
    (parameters : Parameters) (card : CardAnswers) (c0 : CruDmaChannel) (calls : List Call)
    (linkIndexMax : Nat) (buffer : DmaBufferProvider) (c c' : CruDmaChannel)
    (superpage : Superpage)
    (hc : CruDmaChannel.construct header setup parameters card = Except.ok c0)
    (hrun : runCalls calls c0 = some c)
    (hp : pushSuperpage linkIndexMax buffer c superpage = Result.ok true c')
    (hdiv : parameters.dmaPageSize.getD DMA_PAGE_SIZE ∣ 32 * 1024) :
    c.mDmaPageSize = parameters.dmaPageSize.getD DMA_PAGE_SIZE ∧ c.mDmaPageSize ≠ 0 ∧
      c.mDmaPageSize ∣ superpage.size ∧
      superpage.size / c.mDmaPageSize * c.mDmaPageSize = superpage.size ∧
      ∃ linkId busAddress, c'.barLog = c.barLog ++
        [BarOp.pushSuperpageDescriptor linkId (superpage.size / c.mDmaPageSize) busAddress] := by
  obtain ⟨_, h2, _⟩ := construct_ok header setup parameters card c0 hc
  have hpage : c.mDmaPageSize = parameters.dmaPageSize.getD DMA_PAGE_SIZE :=
    (pageSize_run calls c0 c hrun).trans h2
  rcases pushSuperpage_ok _ _ _ _ _ _ hp with ⟨hf, _, _⟩ | ⟨_, _, hv, _, hne, link, _, _, rfl⟩
  · cases hf
  · obtain ⟨_, hmul, _, _⟩ := checkSuperpage_none buffer superpage hv
    have hd : c.mDmaPageSize ∣ superpage.size := by
      rw [hpage]
      exact Dvd.dvd.trans hdiv (Nat.dvd_of_mod_eq_zero hmul)
    exact ⟨hpage, hne, hd, Nat.div_mul_cancel hd, link.id, _, rfl⟩

/-- C21, at a channel constructed without a page size parameter and started: the descriptor
of a superpage of 32 KiB carries 4 pages of 8192 bytes. -/
theorem page_count_exact_witness :
    CruDmaChannel.construct sampleHeader sampleSetup
        { dataSource := none, dmaPageSize := none } sampleCard = Except.ok constructedChannel ∧
      runCalls [Call.startDma (sampleBar 0 0)] constructedChannel = some constructedStarted ∧
      pushSuperpage 4294967295 sampleBuffer constructedStarted (sampleSuperpage 0 32768) =
        Result.ok true constructedPushed ∧
      (constructedStarted.mDmaPageSize = 8192 ∧ constructedStarted.mDmaPageSize ≠ 0 ∧
        constructedStarted.mDmaPageSize ∣ (sampleSuperpage 0 32768).size ∧
        (sampleSuperpage 0 32768).size / constructedStarted.mDmaPageSize *
          constructedStarted.mDmaPageSize = (sampleSuperpage 0 32768).size ∧
        ∃ linkId busAddress, constructedPushed.barLog = constructedStarted.barLog ++
          [BarOp.pushSuperpageDescriptor linkId
            ((sampleSuperpage 0 32768).size / constructedStarted.mDmaPageSize) busAddress]) :=
  ⟨rfl, rfl, rfl,
    page_count_exact sampleHeader sampleSetup { dataSource := none, dmaPageSize := none }
      sampleCard constructedChannel [Call.startDma (sampleBar 0 0)] 4294967295
      sampleBuffer constructedStarted constructedPushed (sampleSuperpage 0 32768) rfl rfl rfl
      (by decide)⟩

/-- C21, as stated, fails: the constructor accepts the page size 12288; on that channel,
after `startDma`, the superpage of 32768 bytes is accepted and its descriptor carries 2
pages, and `2 * 12288 = 24576`, not 32768. The constructor accepts the page size 0 as well,
and then the division in `pushSuperpage` has no defined result. -/
theorem page_size_need_not_divide :
    (∃ c0 c1 c2,
        CruDmaChannel.construct sampleHeader sampleSetup
          { dataSource := none, dmaPageSize := some 12288 } sampleCard = Except.ok c0 ∧
        startDma (sampleBar 0 0) c0 = Result.ok () c1 ∧
        pushSuperpage 4294967295 sampleBuffer c1 (sampleSuperpage 0 32768) =
          Result.ok true c2 ∧
        c2.barLog.getLast? = some (BarOp.pushSuperpageDescriptor 0 2 4294967296)) ∧
      2 * 12288 ≠ 32768 ∧ ¬ (12288 ∣ 32768) ∧
      ∃ c0 c1,
        CruDmaChannel.construct sampleHeader sampleSetup
          { dataSource := none, dmaPageSize := some 0 } sampleCard = Except.ok c0 ∧
        startDma (sampleBar 0 0) c0 = Result.ok () c1 ∧
        pushSuperpage 4294967295 sampleBuffer c1 (sampleSuperpage 0 32768) =
          Result.undefined :=
  ⟨⟨_, _, _, rfl, rfl, rfl, rfl⟩, by decide, by decide, ⟨_, _, rfl, rfl, rfl⟩⟩

/-! ## Health of the superpage FIFOs -/

theorem mapFind_mapSet_self (m : List (Nat × Nat)) (k v : Nat) :
    mapFind (mapSet m k v) k = some v := by
  induction m with
  | nil => simp [mapSet, mapFind]
  | cons p rest ih =>
    obtain ⟨key, value⟩ := p
    unfold mapSet
    by_cases h : key = k
    · rw [if_pos h]
      simp [mapFind, h]
    · rw [if_neg h]
      simp [mapFind, h, ih]

theorem mapFind_mapSet_other (m : List (Nat × Nat)) (k v j : Nat) (hne : k ≠ j) :
    mapFind (mapSet m k v) j = mapFind m j := by
  induction m with
  | nil => simp [mapSet, mapFind, hne]
  | cons p rest ih =>
    obtain ⟨key, value⟩ := p
    unfold mapSet
    by_cases h : key = k
    · rw [if_pos h]
      have hj : key ≠ j := by rw [h]; exact hne
      simp [mapFind, hj]
    · rw [if_neg h]
      by_cases hj : key = j
      · simp [mapFind, hj]
      · simp [mapFind, hj, ih]

/-- The loop over the links of `areSuperpageFifosHealthy`: the flag stays up exactly when it
was up and no visited link had a stored counter different from the one read; the map then
holds the value read for every visited link and is unchanged elsewhere. -/
theorem healthLoop_spec (bar : CruBar) (links : List Link) (m : List (Nat × Nat)) (ok : Bool) :
    ((healthLoop bar links m ok).2 = true ↔
        ok = true ∧ ∀ l ∈ links, ∀ old, mapFind m l.id = some old →
          old = wrapU32 (bar.getSuperpageFifoEmptyCounter l.id)) ∧
      (∀ l ∈ links, mapFind (healthLoop bar links m ok).1 l.id =
          some (wrapU32 (bar.getSuperpageFifoEmptyCounter l.id))) ∧
      ∀ k, (∀ l ∈ links, l.id ≠ k) → mapFind (healthLoop bar links m ok).1 k = mapFind m k := by
  induction links generalizing m ok with
  | nil => simp [healthLoop]
  | cons a rest ih =>
    obtain ⟨ih1, ih2, ih3⟩ := ih (mapSet m a.id (wrapU32 (bar.getSuperpageFifoEmptyCounter a.id)))
      (if (match mapFind m a.id with
          | some stored => decide (stored ≠ wrapU32 (bar.getSuperpageFifoEmptyCounter a.id))
          | none => false) then false else ok)
    unfold healthLoop
    dsimp only
    refine ⟨?_, ?_, ?_⟩
    · rw [ih1]
      constructor
      · rintro ⟨hok, hrest⟩
        have hhead : ok = true ∧ ∀ old, mapFind m a.id = some old →
            old = wrapU32 (bar.getSuperpageFifoEmptyCounter a.id) := by
          cases hm : mapFind m a.id with
          | none =>
            rw [hm] at hok
            simp at hok
            exact ⟨hok, by simp⟩
          | some stored =>
            rw [hm] at hok
            by_cases hs : stored = wrapU32 (bar.getSuperpageFifoEmptyCounter a.id)
            · simp [hs] at hok
              refine ⟨hok, ?_⟩
              intro old hold
              cases hold
              exact hs
            · simp [hs] at hok
        refine ⟨hhead.1, ?_⟩
        intro l hl old hold
        rcases List.mem_cons.mp hl with rfl | hl
        · exact hhead.2 old hold
        · by_cases hid : a.id = l.id
          · rw [← hid] at hold ⊢
            exact hhead.2 old hold
          · apply hrest l hl old
            rw [mapFind_mapSet_other _ _ _ _ hid]
            exact hold
      · rintro ⟨hok, hall⟩
        constructor
        · have hhead := hall a (List.mem_cons_self _ _)
          cases hm : mapFind m a.id with
          | none => simp [hok]
          | some stored =>
            have := hhead stored hm
            simp [hok, this]
        · intro l hl old hold
          by_cases hid : a.id = l.id
          · rw [← hid] at hold ⊢
            rw [mapFind_mapSet_self] at hold
            cases hold
            rfl
          · rw [mapFind_mapSet_other _ _ _ _ hid] at hold
            exact hall l (List.mem_cons_of_mem _ hl) old hold
    · intro l hl
      rcases List.mem_cons.mp hl with rfl | hl
      · by_cases hin : ∃ l' ∈ rest, l'.id = l.id
        · obtain ⟨l', hl', hid⟩ := hin
          have h := ih2 l' hl'
          rw [hid] at h
          exact h
        · push_neg at hin
          rw [ih3 l.id hin, mapFind_mapSet_self]
      · exact ih2 l hl
    · intro k hk
      rw [ih3 k (fun l hl => hk l (List.mem_cons_of_mem _ hl)),
        mapFind_mapSet_other _ _ _ _ (hk a (List.mem_cons_self _ _))]

/-- C22, as amended: `areSuperpageFifosHealthy` returns false exactly when the channel is
started, a superpage has been pushed, and for some link a stored empty-FIFO counter exists
and the counter just read differs from it (greater or smaller); in every other case it
returns true. Off a started channel with a pushed superpage the call changes nothing; on one,
it changes only the stored counters, and the stored counter of every link is then the value
just read. -/
theorem fifo_health (bar : CruBar) (c : CruDmaChannel) :
    ((areSuperpageFifosHealthy bar c).1 = false ↔
        c.mDmaState = DmaState.STARTED ∧ c.mFirstSPPushed = true ∧
          ∃ link ∈ c.mLinks, ∃ old, mapFind c.mEmptySPFifoCounters link.id = some old ∧
            old ≠ wrapU32 (bar.getSuperpageFifoEmptyCounter link.id)) ∧
      (¬ (c.mDmaState = DmaState.STARTED ∧ c.mFirstSPPushed = true) →
        areSuperpageFifosHealthy bar c = (true, c)) ∧
      (c.mDmaState = DmaState.STARTED → c.mFirstSPPushed = true →
        (∀ link ∈ c.mLinks,
          mapFind (areSuperpageFifosHealthy bar c).2.mEmptySPFifoCounters link.id =
            some (wrapU32 (bar.getSuperpageFifoEmptyCounter link.id))) ∧
        (areSuperpageFifosHealthy bar c).2 =
          { c with mEmptySPFifoCounters :=
              (areSuperpageFifosHealthy bar c).2.mEmptySPFifoCounters }) := by
  obtain ⟨h1, h2, _⟩ := healthLoop_spec bar c.mLinks c.mEmptySPFifoCounters true
  unfold areSuperpageFifosHealthy
  by_cases hs : c.mDmaState = DmaState.STARTED
  · cases hp : c.mFirstSPPushed with
    | false => simp [hs, hp]
    | true =>
      have hcond : ¬ (c.mDmaState ≠ DmaState.STARTED ∨ true = false) := by simp [hs]
      rw [if_neg hcond]
      dsimp only
      refine ⟨?_, ?_, ?_⟩
      · rw [Bool.eq_false_iff, Ne, h1]
        simp only [true_and, hs, not_forall]
        constructor
        · rintro ⟨l, hl, old, hold, hne⟩
          exact ⟨l, hl, old, hold, hne⟩
        · rintro ⟨l, hl, old, hold, hne⟩
          exact ⟨l, hl, old, hold, hne⟩
      · intro hn
        exact absurd (And.intro hs rfl) hn
      · intro _ _
        exact ⟨h2, rfl⟩
  · have hcond : c.mDmaState ≠ DmaState.STARTED ∨ c.mFirstSPPushed = false := Or.inl hs
    rw [if_pos hcond]
    simp [hs]

/-- C22, as stated, fails: on a started channel with a pushed superpage whose link 0 has the
stored counter 5, a read of 3 (not an increase) makes `areSuperpageFifosHealthy` return
false. -/
theorem fifo_unhealthy_on_decrease :
    staleCounters.mDmaState = DmaState.STARTED ∧ staleCounters.mFirstSPPushed = true ∧
      staleCounters.mLinks.map (fun l => l.id) = [0] ∧
      mapFind staleCounters.mEmptySPFifoCounters 0 = some 5 ∧
      wrapU32 ((emptyCounterBar 3).getSuperpageFifoEmptyCounter 0) = 3 ∧ ¬ (5 < 3) ∧
      areSuperpageFifosHealthy (emptyCounterBar 3) staleCounters =
        (false, { staleCounters with mEmptySPFifoCounters := [(0, 3)] }) := by
  refine ⟨rfl, rfl, rfl, rfl, rfl, by decide, ?_⟩
  rfl

/-! ## Telemetry and error injection -/

/-- The value of `getCounterFirstOrbit` has the bits of the register read. -/
theorem toUInt32_toInt32 (n : Nat) : toUInt32 (toInt32 n) = wrapU32 n := by
  unfold toUInt32 toInt32 wrapU32
  have h1 : n % 2 ^ 32 < 2 ^ 32 := Nat.mod_lt _ (by norm_num)
  generalize n % 2 ^ 32 = a at h1 ⊢
  norm_num at h1 ⊢
  split <;> omega

theorem toInt32_range (n : Nat) : -2 ^ 31 ≤ toInt32 n ∧ toInt32 n < 2 ^ 31 := by
  unfold toInt32
  have h1 : n % 2 ^ 32 < 2 ^ 32 := Nat.mod_lt _ (by norm_num)
  generalize n % 2 ^ 32 = a at h1 ⊢
  norm_num at h1 ⊢
  split <;> omega

/-- C23, as amended: `getCounterFirstOrbit` reads word `0x64002C / 4` of BAR2 when the
endpoint is 0 and word `0x74002C / 4` when it is 1, and returns the register value as a
signed 32-bit integer (same bits, so a value of `2 ^ 31` or more comes back negative); for
every other endpoint it returns -1 without reading a register. -/
theorem getCounterFirstOrbit_value (bar : CruBar) :
    (bar.getEndpointNumber = 0 →
        getCounterFirstOrbit bar = (toInt32 (bar.readRegister 1638411), [1638411])) ∧
      (bar.getEndpointNumber = 1 →
        getCounterFirstOrbit bar = (toInt32 (bar.readRegister 1900555), [1900555])) ∧
      (bar.getEndpointNumber ≠ 0 → bar.getEndpointNumber ≠ 1 →
        getCounterFirstOrbit bar = (-1, [])) ∧
      (∀ word ∈ (getCounterFirstOrbit bar).2,
        toUInt32 (getCounterFirstOrbit bar).1 = wrapU32 (bar.readRegister word)) ∧
      -2 ^ 31 ≤ (getCounterFirstOrbit bar).1 ∧ (getCounterFirstOrbit bar).1 < 2 ^ 31 ∧
      (1638411 = 0x64002C / 4 ∧ 1900555 = 0x74002C / 4) := by
  unfold getCounterFirstOrbit
  by_cases h0 : bar.getEndpointNumber = 0
  · have r := toInt32_range (bar.readRegister 1638411)
    norm_num at r
    simp [h0, toUInt32_toInt32, r.1, r.2]
  · by_cases h1 : bar.getEndpointNumber = 1
    · have r := toInt32_range (bar.readRegister 1900555)
      norm_num at r
      simp [h1, toUInt32_toInt32, r.1, r.2]
    · simp [h0, h1]

/-- C23, as stated, fails: with endpoint 1 and the register at word `0x74002C / 4` holding
`0xDEADBEEF`, `getCounterFirstOrbit` returns -559038737, not 3735928559; and with the
register holding `0xFFFFFFFF` it returns -1, the answer it gives for an endpoint other than
0 and 1. -/
theorem orbit_counter_negative :
    (orbitBar 1 0xDEADBEEF).getEndpointNumber = 1 ∧
      (orbitBar 1 0xDEADBEEF).readRegister (0x74002C / 4) = 0xDEADBEEF ∧
      getCounterFirstOrbit (orbitBar 1 0xDEADBEEF) = (-559038737, [0x74002C / 4]) ∧
      ((-559038737 : Int) ≠ 0xDEADBEEF) ∧
      (getCounterFirstOrbit (orbitBar 1 0xFFFFFFFF)).1 = -1 ∧
      getCounterFirstOrbit (orbitBar 2 0xFFFFFFFF) = (-1, []) := by
  refine ⟨rfl, ?_, ?_, by decide, ?_, ?_⟩
  · simp [orbitBar]
  · simp [getCounterFirstOrbit, orbitBar, toInt32]
  · simp [getCounterFirstOrbit, orbitBar, toInt32]
  · simp [getCounterFirstOrbit, orbitBar]

/-- The test `!mDataSource == DataSource::Fee` for any numbering of the data sources. -/
theorem injectError_fst (code : DataSource → Nat) (c : CruDmaChannel) :
    ((injectError code c).1 = true ↔
      (code c.mDataSource = 0 ∧ code DataSource.Fee = 1) ∨
        (code c.mDataSource ≠ 0 ∧ code DataSource.Fee = 0)) := by
  unfold injectError
  by_cases h : code c.mDataSource = 0
  · simp only [h, if_true]
    by_cases hf : 1 = code DataSource.Fee
    · rw [if_pos hf]
      simp [← hf]
    · rw [if_neg hf]
      simp
      omega
  · simp only [h, if_false]
    by_cases hf : 0 = code DataSource.Fee
    · rw [if_pos hf]
      simp [← hf, h]
    · rw [if_neg hf]
      simp
      omega

/-- C24: with `Fee` the data source numbered 0 (and no other), `injectError` sends
`dataGeneratorInjectError` to BAR0 and returns true for every data source other than `Fee`,
and returns false and sends nothing when the data source is `Fee`. -/
theorem injectError_by_source (code : DataSource → Nat)
    (hzero : ∀ ds, code ds = 0 ↔ ds = DataSource.Fee) (c : CruDmaChannel) :
    (c.mDataSource ≠ DataSource.Fee →
        injectError code c = (true, issue c [BarOp.dataGeneratorInjectError]) ∧
        (injectError code c).2.barLog = c.barLog ++ [BarOp.dataGeneratorInjectError]) ∧
      (c.mDataSource = DataSource.Fee → injectError code c = (false, c)) := by
  have hfee : code DataSource.Fee = 0 := (hzero DataSource.Fee).mpr rfl
  unfold injectError
  rw [hfee]
  constructor
  · intro hne
    have h : code c.mDataSource ≠ 0 := fun h0 => hne ((hzero _).mp h0)
    rw [if_neg h]
    exact ⟨rfl, rfl⟩
  · intro he
    have h : code c.mDataSource = 0 := (hzero _).mpr he
    rw [if_pos h]
    rfl

/-- C24, with the data sources numbered in the order `Fee`, `Diu`, `Siu`, `Internal`,
`Ddg`: on the sample channel (data source `Internal`) the command is sent, and on the same
channel with data source `Fee` it is not. -/
theorem injectError_by_source_witness :
    (∀ ds, sourceCode ds = 0 ↔ ds = DataSource.Fee) ∧
      injectError sourceCode oneLinkChannel =
        (true, { oneLinkChannel with barLog := [BarOp.dataGeneratorInjectError] }) ∧
      injectError sourceCode { oneLinkChannel with mDataSource := DataSource.Ddg } =
        (true, { oneLinkChannel with
          mDataSource := DataSource.Ddg, barLog := [BarOp.dataGeneratorInjectError] }) ∧
      injectError sourceCode { oneLinkChannel with mDataSource := DataSource.Fee } =
        (false, { oneLinkChannel with mDataSource := DataSource.Fee }) :=
  ⟨by intro ds; cases ds <;> decide,
    ((injectError_by_source sourceCode (by intro ds; cases ds <;> decide) oneLinkChannel).1
      (by decide)).1,
    ((injectError_by_source sourceCode (by intro ds; cases ds <;> decide)
      { oneLinkChannel with mDataSource := DataSource.Ddg }).1 (by decide)).1,
    (injectError_by_source sourceCode (by intro ds; cases ds <;> decide)
      { oneLinkChannel with mDataSource := DataSource.Fee }).2 rfl⟩

/-- The numbering matters: were `Internal` the data source numbered 0 and `Fee` numbered 1,
the same test would send the command for `Internal` only. -/
theorem injectError_other_numbering :
    (injectError swappedCode oneLinkChannel).1 = true ∧
      (injectError swappedCode { oneLinkChannel with mDataSource := DataSource.Ddg }).1 = false ∧
      (injectError swappedCode { oneLinkChannel with mDataSource := DataSource.Fee }).1 =
        false := by
  refine ⟨rfl, rfl, rfl⟩

/-! ## Harvest across a wrap of the 32-bit counter -/

/-- When the card's count is the link counter plus `d` modulo `2 ^ 32`, the 32-bit difference
`amountAvailable` is `d`, whether or not the count has wrapped and whatever its sign as an
`int32_t`. -/
theorem amountAvailable_wrapped (bar : CruBar) (link : Link) (d : Nat) (hd : d < 2 ^ 32)
    (h : wrapU32 (bar.getSuperpageCount link.id) = wrapU32 (link.superpageCounter + d)) :
    amountAvailable bar link = d := by
  rw [amountAvailable_eq]
  unfold wrapU32 at h
  norm_num at h hd ⊢
  omega

/-- The loop over the links of `fillSuperpages` when no link has more completions reported
than records queued and the ready queue has room for all of them: every link gives up
exactly the reported number of records. -/
theorem fillLinks_room (bar : CruBar) (cap : Nat) (links : List Link) (ready : SuperpageQueue)
    (total : Int) (hno : ∀ l ∈ links, amountAvailable bar l ≤ l.queue.records.length)
    (hr : ready.sized cap)
    (hroom : ready.records.length + (links.map (amountAvailable bar)).sum ≤ cap) :
    ∃ links' ready' total', fillLinks bar cap links ready total = (links', ready', total', none) ∧
      ready'.size_ = ready.size_ ∧
      ready'.records = ready.records ++
        (links.map (fun l => (l.queue.records.take (amountAvailable bar l)).map
          (markSuperpage bar l.id false))).flatten ∧
      total' = total + (((links.map (amountAvailable bar)).sum : Nat) : Int) ∧
      List.Forall₂ (fun l l' => l'.id = l.id ∧ l'.queue.size_ = l.queue.size_ ∧
        l'.queue.records = l.queue.records.drop (amountAvailable bar l) ∧
        wrapU32 l'.superpageCounter = wrapU32 (l.superpageCounter + amountAvailable bar l))
        links links' := by
  induction links generalizing ready total with
  | nil => exact ⟨[], ready, total, rfl, rfl, by simp, by simp, List.Forall₂.nil⟩
  | cons a rest ih =>
    have ha := hno a (List.mem_cons_self _ _)
    simp only [List.map_cons, List.sum_cons] at hroom
    obtain ⟨t, e1, e2, e3, e4, e5, e6, e7, e8⟩ := harvestLoop_spec bar cap (amountAvailable bar a)
      { link := a, readyQueue := ready, totalAvailable := total } ha hr
    dsimp only at e2 e3 e4 e5 e6 e7 e8
    have hmin : min (amountAvailable bar a) (cap - ready.records.length) =
        amountAvailable bar a := by omega
    rw [hmin] at e5 e6 e7 e8
    have hlen : t.readyQueue.records.length = ready.records.length + amountAvailable bar a := by
      rw [e6]
      simp only [List.length_append, List.length_map, List.length_take]
      omega
    have hts : t.readyQueue.sized cap := ⟨e4.trans hr.1, by rw [hlen]; omega⟩
    obtain ⟨ls', r', tot', f1, f2, f3, f4, f5⟩ := ih t.readyQueue t.totalAvailable
      (fun l hl => hno l (List.mem_cons_of_mem _ hl)) hts (by rw [hlen]; omega)
    refine ⟨t.link :: ls', r', tot', ?_, f2.trans e4, ?_, ?_, ?_⟩
    · unfold fillLinks
      rw [if_neg (by simp only [SuperpageQueue.sizeGuess]; omega), e1]
      simp only [f1]
    · rw [f3, e6]
      simp only [List.map_cons, List.flatten_cons, List.append_assoc]
    · rw [f4, e7]
      simp only [List.map_cons, List.sum_cons]
      push_cast
      ring
    · exact List.Forall₂.cons ⟨e2, e3, e5, e8⟩ f5

/-- A relation between two lists of links can be weakened using membership on the left. -/
theorem forall₂_of_mem_left {R S : Link → Link → Prop} {a b : List Link}
    (h : ∀ x y, x ∈ a → R x y → S x y) (h1 : List.Forall₂ R a b) : List.Forall₂ S a b := by
  induction h1 with
  | nil => exact List.Forall₂.nil
  | cons hab _ ih =>
    exact List.Forall₂.cons (h _ _ (List.mem_cons_self _ _) hab)
      (ih (fun x y hx hxy => h x y (List.mem_cons_of_mem _ hx) hxy))

/-- C25: let every link have `d l` completions since its last harvest, with `d l` at most the
length of its queue, so that the card's 32-bit count is the link counter plus `d l` modulo
`2 ^ 32` (numerically smaller than the counter after a wrap, negative as an `int32_t` from
`2 ^ 31` on), and let the ready queue have room for all of them. Then the number
`fillSuperpages` computes for each link is `d l`, the call raises no error, every link queue
loses exactly its `d l` oldest records, which arrive marked in the ready queue link by link,
and every link counter becomes the card's count. -/
theorem harvest_across_wrap (bar : CruBar) (c : CruDmaChannel) (d : Link → Nat)
    (hsized : c.mReadyQueue.sized c.mReadyQueueCapacity)
    (hd : ∀ l ∈ c.mLinks, d l < 2 ^ 32 ∧ d l ≤ l.queue.records.length ∧
      wrapU32 (bar.getSuperpageCount l.id) = wrapU32 (l.superpageCounter + d l))
    (hroom : c.mReadyQueue.records.length + (c.mLinks.map d).sum ≤ c.mReadyQueueCapacity) :
    (∀ l ∈ c.mLinks, amountAvailable bar l = d l) ∧
      ∃ c', fillSuperpages bar c = Result.ok () c' ∧
        List.Forall₂ (fun l l' => l'.id = l.id ∧
          l'.queue.records = l.queue.records.drop (d l) ∧
          l'.queue.records.length + d l = l.queue.records.length ∧
          wrapU32 l'.superpageCounter = wrapU32 (bar.getSuperpageCount l.id))
          c.mLinks c'.mLinks ∧
        c'.mReadyQueue.records = c.mReadyQueue.records ++
          (c.mLinks.map (fun l => (l.queue.records.take (d l)).map
            (markSuperpage bar l.id false))).flatten ∧
        c'.mReadyQueue.records.length = c.mReadyQueue.records.length + (c.mLinks.map d).sum ∧
        c'.mLinkQueuesTotalAvailable =
          c.mLinkQueuesTotalAvailable + (((c.mLinks.map d).sum : Nat) : Int) := by
  have hamount : ∀ l ∈ c.mLinks, amountAvailable bar l = d l := fun l hl =>
    amountAvailable_wrapped bar l (d l) (hd l hl).1 (hd l hl).2.2
  have hmap : c.mLinks.map (amountAvailable bar) = c.mLinks.map d :=
    List.map_congr_left hamount
  have hflat : c.mLinks.map (fun l => (l.queue.records.take (amountAvailable bar l)).map
      (markSuperpage bar l.id false)) =
      c.mLinks.map (fun l => (l.queue.records.take (d l)).map (markSuperpage bar l.id false)) :=
    List.map_congr_left (fun l hl => by rw [hamount l hl])
  obtain ⟨ls, r, tot, f1, _, f3, f4, f5⟩ := fillLinks_room bar c.mReadyQueueCapacity c.mLinks
    c.mReadyQueue c.mLinkQueuesTotalAvailable
    (fun l hl => by rw [hamount l hl]; exact (hd l hl).2.1) hsized (by rw [hmap]; exact hroom)
  refine ⟨hamount, { c with mLinks := ls, mReadyQueue := r, mLinkQueuesTotalAvailable := tot },
    ?_, ?_, ?_, ?_, ?_⟩
  · unfold fillSuperpages
    rw [f1]
  · show List.Forall₂ _ c.mLinks ls
    refine forall₂_of_mem_left ?_ f5
    rintro l l' hl ⟨g1, _, g3, g4⟩
    rw [hamount l hl] at g3 g4
    refine ⟨g1, g3, ?_, ?_⟩
    · rw [g3, List.length_drop]
      have := (hd l hl).2.1
      omega
    · rw [g4, (hd l hl).2.2]
  · show r.records = _
    rw [f3, hflat]
  · show r.records.length = _
    rw [f3, hflat, List.length_append, List.length_flatten, List.map_map]
    congr 2
    apply List.map_congr_left
    intro l hl
    simp only [Function.comp, List.length_map, List.length_take]
    have := (hd l hl).2.1
    omega
  · show tot = _
    rw [f4, hmap]

/-- C25, at a channel whose link 0 has the counter `2 ^ 32 - 1` and two superpages queued,
the card's count having wrapped to 1, and whose link 1 has the counter `2 ^ 31 - 1` and one
superpage queued, the card's count `2 ^ 31` being negative as an `int32_t`: the call
harvests 2 and 1 superpages. -/
theorem harvest_across_wrap_witness :
    fillSuperpages wrapBar wrapChannel = Result.ok () wrapHarvested ∧
      (wrapBar.getSuperpageCount 0 < 4294967295 ∧ toInt32 (wrapBar.getSuperpageCount 1) < 0) ∧
      ((∀ l ∈ wrapChannel.mLinks, amountAvailable wrapBar l = wrapCompletions l) ∧
        ∃ c, fillSuperpages wrapBar wrapChannel = Result.ok () c ∧
          List.Forall₂ (fun l l' => l'.id = l.id ∧
            l'.queue.records = l.queue.records.drop (wrapCompletions l) ∧
            l'.queue.records.length + wrapCompletions l = l.queue.records.length ∧
            wrapU32 l'.superpageCounter = wrapU32 (wrapBar.getSuperpageCount l.id))
            wrapChannel.mLinks c.mLinks ∧
          c.mReadyQueue.records = wrapChannel.mReadyQueue.records ++
            (wrapChannel.mLinks.map (fun l => (l.queue.records.take (wrapCompletions l)).map
              (markSuperpage wrapBar l.id false))).flatten ∧
          c.mReadyQueue.records.length =
            wrapChannel.mReadyQueue.records.length +
              (wrapChannel.mLinks.map wrapCompletions).sum ∧
          c.mLinkQueuesTotalAvailable = wrapChannel.mLinkQueuesTotalAvailable +
            (((wrapChannel.mLinks.map wrapCompletions).sum : Nat) : Int)) :=
  ⟨rfl, by decide,
    harvest_across_wrap wrapBar wrapChannel wrapCompletions (by decide) (by decide) (by decide)⟩

/-! ## The states a channel is in -/

/-- A call leaves the state as it is or sets it to `STARTED` or `STOPPED`. -/
theorem state_after (call : Call) (c c' : CruDmaChannel) (h : call.after c = some c') :
    c'.mDmaState = c.mDmaState ∨ c'.mDmaState = DmaState.STARTED ∨
      c'.mDmaState = DmaState.STOPPED := by
  cases call with
  | startDma bar =>
    simp only [Call.after, startDma_eq, Result.channel?, Option.some.injEq] at h
    subst h
    exact Or.inr (Or.inl rfl)
  | pushSuperpage m buffer s =>
    simp only [Call.after] at h
    cases hp : pushSuperpage m buffer c s with
    | undefined =>
      rw [hp] at h
      simp [Result.channel?] at h
    | thrown e c1 =>
      rw [hp] at h
      simp only [Result.channel?, Option.some.injEq] at h
      subst h
      rw [pushSuperpage_thrown m buffer c c1 s e hp]
      exact Or.inl rfl
    | ok b c1 =>
      rw [hp] at h
      simp only [Result.channel?, Option.some.injEq] at h
      subst h
      rcases pushSuperpage_ok m buffer c c1 s b hp with ⟨_, h1, _⟩ | ⟨_, _, _, _, _, l, _, _, h1⟩
      · rw [h1]
        exact Or.inl rfl
      · rw [h1]
        exact Or.inl rfl
  | fillSuperpages bar =>
    simp only [Call.after, fillSuperpages_channel, Option.some.injEq] at h
    subst h
    exact Or.inl rfl
  | getSuperpage =>
    simp only [Call.after] at h
    rw [getSuperpage_same c c' h]
    exact Or.inl rfl
  | popSuperpage =>
    simp only [Call.after, popSuperpage] at h
    split at h <;>
      (simp only [Result.channel?, Option.some.injEq] at h; subst h; exact Or.inl rfl)
  | stopDma bar =>
    simp only [Call.after] at h
    unfold stopDma at h
    cases hs : c.mDmaState with
    | UNKNOWN =>
      rw [hs] at h
      simp only [Result.channel?, Option.some.injEq] at h
      subst h
      exact Or.inr (Or.inr rfl)
    | STOPPED =>
      rw [hs] at h
      simp only [Result.channel?, Option.some.injEq] at h
      subst h
      exact Or.inr (Or.inr rfl)
    | STARTED =>
      rw [hs] at h
      simp only at h
      unfold deviceStopDma at h
      cases hf : fillSuperpages bar (issue (setBufferNonReady c) [BarOp.disableDataTaking]) with
      | undefined =>
        rw [hf] at h
        simp [Result.channel?] at h
      | thrown e c1 =>
        rw [hf] at h
        simp only [Result.channel?, Option.some.injEq] at h
        subst h
        have hc := fillSuperpages_channel bar
          (issue (setBufferNonReady c) [BarOp.disableDataTaking])
        rw [hf] at hc
        simp only [Result.channel?, Option.some.injEq] at hc
        rw [hc]
        exact Or.inr (Or.inl hs)
      | ok u c1 =>
        rw [hf] at h
        simp only at h
        rw [reclaimSuperpages_eq] at h
        simp only [Result.channel?, Option.some.injEq] at h
        subst h
        exact Or.inr (Or.inr rfl)

/-- The state `UNKNOWN` is never reached: the constructor leaves `STOPPED`, and the calls of
the interface set the state to `STARTED` or `STOPPED` or leave it. -/
theorem reachable_state (header : HeaderValues) (setup : BufferSetup) (parameters : Parameters)
    (card : CardAnswers) (c : CruDmaChannel)
    (h : Reachable header setup parameters card c) : c.mDmaState ≠ DmaState.UNKNOWN := by
  induction h with
  | construct c hc =>
    rw [(construct_ok header setup parameters card c hc).1]
    decide
  | step call c c' _ hafter ih =>
    rcases state_after call c c' hafter with h | h | h
    · rw [h]; exact ih
    · rw [h]; decide
    · rw [h]; decide
  | reset level c c' _ hreset ih =>
    unfold resetChannel at hreset
    split at hreset
    · simp only [Result.channel?, Option.some.injEq] at hreset
      subst hreset
      exact ih
    · split at hreset
      · simp only [Result.channel?, Option.some.injEq] at hreset
        subst hreset
        exact ih
      · unfold deviceResetChannel at hreset
        split at hreset
        · simp only [Result.channel?, Option.some.injEq] at hreset
          subst hreset
          exact ih
        · split at hreset
          · simp only [Result.channel?, Option.some.injEq] at hreset
            subst hreset
            exact ih
          · simp only [Result.channel?, Option.some.injEq] at hreset
            subst hreset
            exact ih
  | health bar c _ ih =>
    unfold areSuperpageFifosHealthy
    split
    · exact ih
    · exact ih
  | inject code c _ ih =>
    unfold injectError
    split_ifs <;> exact ih

/-- A run of calls from a reachable state ends in a reachable state. -/
theorem reachable_run (header : HeaderValues) (setup : BufferSetup) (parameters : Parameters)
    (card : CardAnswers) (calls : List Call) (c c' : CruDmaChannel)
    (h : Reachable header setup parameters card c) (hrun : runCalls calls c = some c') :
    Reachable header setup parameters card c' := by
  induction calls generalizing c with
  | nil =>
    simp only [runCalls, Option.some.injEq] at hrun
    rw [← hrun]
    exact h
  | cons call rest ih =>
    unfold runCalls at hrun
    cases ha : call.after c with
    | none =>
      rw [ha] at hrun
      simp at hrun
    | some c1 =>
      rw [ha] at hrun
      exact ih c1 (Reachable.step call c c1 h ha) hrun

/-- C8 (postcondition of `startDma`): for every state a channel can be in (the state after
construction, or after any calls of the interface on it) with `dmaState ≠ Started`,
`startDma` returns and afterwards every link queue is empty, the ready queue is empty, every
`superpageCounter` is 0, `linkQueuesTotalAvailable = C_link * |links|` (so
`isTransferQueueEmpty()` is true), the links are the same, and `dmaState = Started`. -/
theorem startDma_postcondition (header : HeaderValues) (setup : BufferSetup)
    (parameters : Parameters) (card : CardAnswers) (bar : CruBar) (c : CruDmaChannel)
    (hreach : Reachable header setup parameters card c)
    (hs : c.mDmaState ≠ DmaState.STARTED) :
    ∃ c', startDma bar c = Result.ok () c' ∧
      (∀ l ∈ c'.mLinks, l.queue.records = [] ∧ l.superpageCounter = 0) ∧
      c'.mReadyQueue.records = [] ∧
      c'.mLinkQueuesTotalAvailable =
        ((c'.mLinkQueueCapacity * c'.mLinks.length : Nat) : Int) ∧
      isTransferQueueEmpty c' = true ∧
      c'.mLinks.map Link.id = c.mLinks.map Link.id ∧
      c'.mLinkQueueCapacity = c.mLinkQueueCapacity ∧
      c'.mDmaState = DmaState.STARTED := by
  have hu := reachable_state header setup parameters card c hreach
  have hstopped : c.mDmaState = DmaState.STOPPED := by
    cases hst : c.mDmaState with
    | UNKNOWN => exact absurd hst hu
    | STARTED => exact absurd hst hs
    | STOPPED => rfl
  exact startDma_drains bar c hstopped

/-- C8, at the channel the samples construct, after `startDma`, two pushes and a `stopDma`
that left a completion and a reclaimed superpage in the ready queue and the link counter
at 2. -/
theorem startDma_postcondition_witness :
    runCalls [Call.startDma (sampleBar 0 0), pushCall 0, pushCall 32768,
        Call.stopDma (sampleBar 1 0)] constructedChannel = some constructedStopped ∧
      constructedStopped.mDmaState ≠ DmaState.STARTED ∧
      ∃ c', startDma (sampleBar 0 0) constructedStopped = Result.ok () c' ∧
        (∀ l ∈ c'.mLinks, l.queue.records = [] ∧ l.superpageCounter = 0) ∧
        c'.mReadyQueue.records = [] ∧
        c'.mLinkQueuesTotalAvailable =
          ((c'.mLinkQueueCapacity * c'.mLinks.length : Nat) : Int) ∧
        isTransferQueueEmpty c' = true ∧
        c'.mLinks.map Link.id = constructedStopped.mLinks.map Link.id ∧
        c'.mLinkQueueCapacity = constructedStopped.mLinkQueueCapacity ∧
        c'.mDmaState = DmaState.STARTED :=
  ⟨rfl, by decide,
    startDma_postcondition sampleHeader sampleSetup { dataSource := none, dmaPageSize := none }
      sampleCard (sampleBar 0 0) constructedStopped
      (reachable_run sampleHeader sampleSetup { dataSource := none, dmaPageSize := none }
        sampleCard
        [Call.startDma (sampleBar 0 0), pushCall 0, pushCall 32768,
          Call.stopDma (sampleBar 1 0)]
        constructedChannel constructedStopped
        (Reachable.construct constructedChannel rfl) rfl)
      (by decide)⟩

end ReadoutCard
